import Mathlib

/-!
A shallow embedding of the kernel-driver plugin of qat_plugin and of its topology
resolver.

The Go sources embedded here are `cmd/kerneldrv/kerneldrv.go`,
`pkg/deviceplugin/api.go` and `pkg/topology/topology.go`.

Conventions of the embedding.

* A Go `map[string]V` is an association list `GoMap V` whose keys are pairwise
  distinct (`GoMap.WF`).  `m[k]`, `m[k] = v` and `delete(m, k)` are `GoMap.get`,
  `GoMap.set` and `GoMap.del`.
* The order in which `range` visits a map is not specified by Go.  Every `range`
  over a map goes through a function `ord` that rearranges the entries; the
  theorems hold for every `ord` that returns a permutation of its argument.
* A Go function returning `(T, error)` returns a `Result T`: a value, an error
  with its message, a run-time panic, or (only for the recursive topology walk)
  exhaustion of the recursion budget of the model.
* Go `int` values are unbounded integers; the counters of the code only count
  map entries or loop iterations and cannot reach `2^63` on a real machine.
* Library calls whose result depends on the machine (the ini loader, the typed
  key readers of an ini section, the regular-expression matcher, the file
  system) are inputs of the embedded functions.
-/

namespace QatPlugin

/-! ## Go runtime: results, maps, strings -/

/-- Outcome of a Go call that may fail. -/
inductive Result (α : Type) where
  | ok (v : α)
  | error (msg : String)
  | panic
  | outOfFuel
  deriving Repr, DecidableEq

namespace Result

/-- Sequencing of fallible calls: the first failure is returned. -/
def bind {α β : Type} (r : Result α) (f : α → Result β) : Result β :=
  match r with
  | ok v => f v
  | error msg => error msg
  | panic => panic
  | outOfFuel => outOfFuel

/-- True when the call returned a non-nil error. -/
def isError {α : Type} (r : Result α) : Bool :=
  match r with
  | error _ => true
  | _ => false

/-- True when the call returned normally with a nil error. -/
def isOk {α : Type} (r : Result α) : Bool :=
  match r with
  | ok _ => true
  | _ => false

end Result

/-- A Go map with string keys, as the list of its entries. -/
abbrev GoMap (V : Type) := List (String × V)

namespace GoMap

/-- The keys of a map. -/
def keys {V : Type} (m : GoMap V) : List String := m.map Prod.fst

/-- Well-formed maps have pairwise distinct keys. -/
def WF {V : Type} (m : GoMap V) : Prop := (keys m).Nodup

instance decidableWF {V : Type} (m : GoMap V) : Decidable (WF m) :=
  inferInstanceAs (Decidable (keys m).Nodup)

/-- The Go expression `v, ok := m[k]`. -/
def get {V : Type} : GoMap V → String → Option V
  | [], _ => none
  | (k', v) :: rest, k => if k' = k then some v else get rest k

/-- The Go statement `m[k] = v`: an existing entry is overwritten in place, a new
one is added. -/
def set {V : Type} : GoMap V → String → V → GoMap V
  | [], k, v => [(k, v)]
  | (k', v') :: rest, k, v => if k' = k then (k, v) :: rest else (k', v') :: set rest k v

/-- The Go statement `delete(m, k)`. -/
def del {V : Type} (m : GoMap V) (k : String) : GoMap V :=
  m.filter (fun e => decide (e.1 ≠ k))

end GoMap

/-- The permutations a `range` over a map may apply to its entries. -/
def RangeOrder : Type 1 := (α : Type) → List α → List α

/-- Every visiting order is a rearrangement of the entries. -/
def RangeOrder.Valid (ord : RangeOrder) : Prop := ∀ (α : Type) (l : List α), (ord α l).Perm l

/-- The visiting order that follows the entry list. -/
def RangeOrder.inOrder : RangeOrder := fun _ l => l

/-- The visiting order that follows the entry list backwards. -/
def RangeOrder.backwards : RangeOrder := fun _ l => l.reverse

/-- Go `strings.Split(s, sep)` for a one-character separator. -/
def stringsSplit (s : String) (sep : Char) : List String :=
  (s.toList.splitOn sep).map String.mk

/-- Go `strings.Join(elems, sep)`. -/
def stringsJoin (elems : List String) (sep : String) : String :=
  String.mk (List.intercalate sep.toList (elems.map String.toList))

/-- Go `strings.HasPrefix(s, pfx)`. -/
def stringsHasPrefix (s pfx : String) : Bool := pfx.toList.isPrefixOf s.toList

/-- Go `strings.HasSuffix(s, sfx)`. -/
def stringsHasSuffix (s sfx : String) : Bool := sfx.toList.isSuffixOf s.toList

/-- Go `fmt.Sprintf("%d", n)`. -/
def fmtInt (n : Int) : String := toString n

/-! ## Go `path/filepath` on Unix -/

/-- One step of `filepath.Clean`: `stack` holds the elements kept so far, the
last one first. -/
def cleanStep (rooted : Bool) (stack : List String) (c : String) : List String :=
  if c = "" ∨ c = "." then stack
  else if c = ".." then
    match stack with
    | [] => if rooted then [] else [".."]
    | t :: rest => if t = ".." then ".." :: t :: rest else rest
  else c :: stack

/-- Go `filepath.Clean`. -/
def filepathClean (path : String) : String :=
  if path = "" then "."
  else
    let rooted := stringsHasPrefix path "/"
    let stack := (stringsSplit path '/').foldl (cleanStep rooted) []
    let out := (if rooted then "/" else "") ++ stringsJoin stack.reverse "/"
    if out = "" then "." else out

/-- Go `filepath.Join`: the elements from the first non-empty one on are joined
with a slash and the result is cleaned. -/
def filepathJoin (elem : List String) : String :=
  match elem.dropWhile (fun e => decide (e = "")) with
  | [] => ""
  | rest => filepathClean (stringsJoin rest "/")

/-- Go `filepath.Split`: the path up to and including its last slash, and the
rest. -/
def filepathSplit (path : String) : String × String :=
  let file := (path.toList.reverse.takeWhile (fun c => decide (c ≠ '/'))).reverse
  (String.mk (path.toList.take (path.toList.length - file.length)), String.mk file)

/-- Go `filepath.Dir`. -/
def filepathDir (path : String) : String := filepathClean (filepathSplit path).1

/-! ## `cmd/kerneldrv`: reconciliation of the per-device configuration -/

/-- Go struct `endpoint`. -/
structure endpoint where
  id : String
  processes : Int
  deriving Repr, DecidableEq

/-- Go struct `section` (a reserved word of Lean, hence the capital). -/
structure Section where
  endpoints : List endpoint
  cryptoEngines : Int
  compressionEngines : Int
  pinned : Bool
  deriving Repr, DecidableEq

/-- Go struct `device`. -/
structure device where
  id : String
  devtype : String
  bsf : String
  deriving Repr, DecidableEq

/-- Go type `driverConfig`, a `map[string]section`. -/
abbrev driverConfig := GoMap Section

/-- An `*ini.Section` seen through the three calls the plugin makes on it:
`Name()`, `Key(k).Int()` and `GetKey(k)` followed by `Bool()`.  `KeyInt k` is an
error when the key is missing or its value is not an integer; `GetKeyBool k` is
`none` when the key is missing, and an error when its value is not a boolean. -/
structure IniSection where
  Name : String
  KeyInt : String → Except String Int
  GetKeyBool : String → Option (Except String Bool)

/-- Go `errors.Wrapf(err, "Can't parse <key> in %s", name)`. -/
def cantParse (key name inner : String) : String :=
  "Can't parse " ++ key ++ " in " ++ name ++ ": " ++ inner

/-- The first half of `driverConfig.update`: the value of `pinned` after the
optional `LimitDevAccess` key was read. -/
def readPinned (iniSection : IniSection) : Result Bool :=
  match iniSection.GetKeyBool "LimitDevAccess" with
  | none => .ok false
  | some (.error e) => .error (cantParse "LimitDevAccess" iniSection.Name e)
  | some (.ok limitDevAccess) => .ok (if limitDevAccess then true else false)

/-- The second half of `driverConfig.update`: the consistency checks against the
stored section and the insertion of the new endpoint. -/
def reconcile (drvConfig : driverConfig) (devID name : String)
    (numProcesses cryptoEngines compressionEngines : Int) (pinned : Bool) : Result driverConfig :=
  match drvConfig.get name with
  | some old =>
    if old.pinned ≠ pinned then
      .error ("Value of LimitDevAccess must be consistent across all devices in " ++ name)
    else
      -- `!pinned && old.endpoints[0].processes != numProcesses`
      let procCheck : Result Bool :=
        if pinned then .ok false
        else match old.endpoints with
          | [] => .panic
          | e0 :: _ => .ok (decide (e0.processes ≠ numProcesses))
      procCheck.bind fun differs =>
        if differs then
          .error ("For not pinned section \"" ++ name ++ "\" NumProcesses must be equal for all devices")
        else if old.cryptoEngines ≠ cryptoEngines ∨ old.compressionEngines ≠ compressionEngines then
          .error ("NumberCyInstances and NumberDcInstances must be consistent across all devices in "
            ++ name)
        else
          .ok (drvConfig.set name
            { old with endpoints := old.endpoints ++ [{ id := devID, processes := numProcesses }] })
  | none =>
    .ok (drvConfig.set name
      { endpoints := [{ id := devID, processes := numProcesses }]
        cryptoEngines := cryptoEngines
        compressionEngines := compressionEngines
        pinned := pinned })

/-- Go `driverConfig.update`.  The map is changed in place by the Go code; here
the changed map is the result. -/
def update (drvConfig : driverConfig) (devID : String) (iniSection : IniSection) :
    Result driverConfig :=
  match iniSection.KeyInt "NumProcesses" with
  | .error e => .error (cantParse "NumProcesses" iniSection.Name e)
  | .ok numProcesses =>
    match iniSection.KeyInt "NumberCyInstances" with
    | .error e => .error (cantParse "NumberCyInstances" iniSection.Name e)
    | .ok cryptoEngines =>
      match iniSection.KeyInt "NumberDcInstances" with
      | .error e => .error (cantParse "NumberDcInstances" iniSection.Name e)
      | .ok compressionEngines =>
        (readPinned iniSection).bind fun pinned =>
          reconcile drvConfig devID iniSection.Name numProcesses cryptoEngines
            compressionEngines pinned

/-- The constant `ini.DefaultSection` of the ini library. -/
def iniDefaultSection : String := "DEFAULT"

/-- The test of `parseConfigs` that skips a section. -/
def isReservedSection (name : String) : Bool :=
  name == "GENERAL" || name == "SIOV" || name == "KERNEL" || name == "KERNEL_QAT"
    || name == iniDefaultSection

/-- The inner loop of `parseConfigs` over the sections of one file. -/
def parseSections (devID : String) : List IniSection → driverConfig → Result driverConfig
  | [], drvConfig => .ok drvConfig
  | sec :: rest, drvConfig =>
    if isReservedSection sec.Name then parseSections devID rest drvConfig
    else (update drvConfig devID sec).bind (parseSections devID rest)

/-- The name of the configuration file of a device. -/
def configPath (configDir : String) (dev : device) : String :=
  filepathJoin [configDir, dev.devtype ++ "_" ++ dev.id ++ ".conf"]

/-- The outer loop of `parseConfigs` over the devices; `iniLoad` is `ini.Load`
followed by `Sections()`.  The state is `devNum` and `drvConfig`. -/
def parseDevices (iniLoad : String → Except String (List IniSection)) (configDir : String) :
    List device → Int × driverConfig → Result (Int × driverConfig)
  | [], st => .ok st
  | dev :: rest, (devNum, drvConfig) =>
    match iniLoad (configPath configDir dev) with
    | .error e => .error ("failed to parse device config: " ++ e)
    | .ok sections =>
      (parseSections dev.id sections drvConfig).bind fun drvConfig1 =>
        parseDevices iniLoad configDir rest (devNum + 1, drvConfig1)

/-- The message of the final check of `parseConfigs`. -/
def mustBeDefinedForAll (sname : String) : String :=
  "Section [" ++ sname ++ "] must be defined for all QAT devices since it contains LimitDevAccess=1"

/-- The final loop of `parseConfigs` over the entries of the map, in the order
in which they are visited. -/
def checkPinned (devNum : Int) : List (String × Section) → Result Unit
  | [] => .ok ()
  | (sname, svalue) :: rest =>
    if svalue.pinned ∧ (svalue.endpoints.length : Int) ≠ devNum then
      .error (mustBeDefinedForAll sname)
    else checkPinned devNum rest

/-- Go `DevicePlugin.parseConfigs`. -/
def parseConfigs (ord : RangeOrder) (iniLoad : String → Except String (List IniSection))
    (configDir : String) (devices : List device) : Result driverConfig :=
  (parseDevices iniLoad configDir devices (0, [])).bind fun st =>
    (checkPinned st.1 (ord _ st.2)).bind fun _ => .ok st.2


/-- A sequence of `update` calls, each on the map the previous one left. -/
def updateAll : List (String × IniSection) → driverConfig → Result driverConfig
  | [], drvConfig => .ok drvConfig
  | (devID, sec) :: rest, drvConfig => (update drvConfig devID sec).bind (updateAll rest)

/-- Every unpinned section has a first endpoint and all its endpoints carry the
process count of the first one. -/
def UnpinnedUniform (m : driverConfig) : Prop :=
  ∀ e ∈ m, e.2.pinned = false →
    ∃ e0 rest, e.2.endpoints = e0 :: rest ∧ ∀ x ∈ e.2.endpoints, x.processes = e0.processes

/-- The pin flag a definition asks for: true exactly when `LimitDevAccess` is
present and reads as true. -/
def newPinFlag (sec : IniSection) : Bool :=
  match sec.GetKeyBool "LimitDevAccess" with
  | some (.ok true) => true
  | _ => false

/-- An ini section whose keys have the given typed readings. -/
def IniSection.ofValues (name : String) (numProcesses cy dc : Except String Int)
    (limitDevAccess : Option (Except String Bool)) : IniSection where
  Name := name
  KeyInt := fun k =>
    if k = "NumProcesses" then numProcesses
    else if k = "NumberCyInstances" then cy
    else if k = "NumberDcInstances" then dc
    else .error "strconv.ParseInt: parsing \"\": invalid syntax"
  GetKeyBool := fun k => if k = "LimitDevAccess" then limitDevAccess else none

/-- The section `dc1` of scenario B: two processes, no crypto engine, one
compression engine, `LimitDevAccess = false`. -/
def sampleDc1 : IniSection := IniSection.ofValues "dc1" (.ok 2) (.ok 0) (.ok 1) (some (.ok false))

/-- The section `dc1` with `LimitDevAccess = true`. -/
def sampleDc1Pinned : IniSection :=
  IniSection.ofValues "dc1" (.ok 2) (.ok 0) (.ok 1) (some (.ok true))

/-- Two online devices. -/
def sampleDevices : List device :=
  [{ id := "dev0", devtype := "c6xx", bsf := "3d:00.0" },
   { id := "dev1", devtype := "c6xx", bsf := "3f:00.0" }]

/-- A loader under which the first device defines `dc1` pinned and the second
one defines no workload section. -/
def sampleLoadPartial (path : String) : Except String (List IniSection) :=
  if path = "/etc/c6xx_dev0.conf" then .ok [sampleDc1Pinned] else .ok []

/-- A loader under which every device defines `dc1` pinned. -/
def sampleLoadPinned (_path : String) : Except String (List IniSection) := .ok [sampleDc1Pinned]

/-- The reconciled section `dc1` over both devices. -/
def sampleDc1Both (pinned : Bool) : driverConfig :=
  [("dc1", { endpoints := [⟨"dev0", 2⟩, ⟨"dev1", 2⟩], cryptoEngines := 0,
             compressionEngines := 1, pinned := pinned })]

/-- Go `unicode.IsSpace`. -/
def unicodeIsSpace (c : Char) : Bool :=
  decide (c.toNat ∈ [0x09, 0x0a, 0x0b, 0x0c, 0x0d, 0x20, 0x85, 0xa0, 0x1680, 0x2028, 0x2029,
    0x202f, 0x205f, 0x3000]) || (decide (0x2000 ≤ c.toNat) && decide (c.toNat ≤ 0x200a))

/-- Go `strings.TrimSpace`. -/
def stringsTrimSpace (s : String) : String :=
  String.mk ((s.toList.dropWhile unicodeIsSpace).reverse.dropWhile unicodeIsSpace).reverse

/-- The elements of a cleaned path as `filepath.Rel` walks them: the text
between slashes, without the empty text after a final slash. -/
def relElements (p : String) : List String :=
  if p = "" then []
  else if stringsHasSuffix p "/" then (stringsSplit p '/').dropLast
  else stringsSplit p '/'

/-- The comparison loop of `filepath.Rel`: equal leading elements are dropped;
at the first difference a base element `..` is an error; what is left of the
base is climbed with `..` and what is left of the target is appended. -/
def relLoop : List String → List String → Option (List String)
  | b :: bs, t :: ts =>
    if b = t then relLoop bs ts
    else if b = ".." then none
    else some (List.replicate (b :: bs).length ".." ++ t :: ts)
  | bs, ts => some (List.replicate bs.length ".." ++ ts)

/-- Go `filepath.Rel`; `none` is the error "can't make relative".  The plugin
calls it with the rooted base `/sys/devices/virtual` only; for a rooted base the
cleaned base holds no element `..` and the result is what is left of the target
after the common leading elements, climbed over what is left of the base. -/
def filepathRel (basepath targpath : String) : Option String :=
  let base := filepathClean basepath
  let targ := filepathClean targpath
  if targ = base then some "."
  else
    let base := if base = "." then "" else base
    if stringsHasPrefix base "/" ≠ stringsHasPrefix targ "/" then none
    else (relLoop (relElements base) (relElements targ)).map fun es => stringsJoin es "/"

/-! ## The operating system as the resolver sees it -/

/-- Result of `os.ReadFile`. -/
inductive ReadFileResult where
  | ok (content : String)
  | notExist
  | error (msg : String)
  deriving Repr, DecidableEq

/-- What `FindSysFsDevice` reads off an `os.FileInfo`: the two mode bits and the
device numbers of the `syscall.Stat_t`. -/
structure FileInfo where
  isDevice : Bool
  isCharDevice : Bool
  Dev : Nat
  Rdev : Nat
  deriving Repr, DecidableEq

/-- Result of `os.Stat`. -/
inductive StatResult where
  | ok (fi : FileInfo)
  | notExist
  | error (msg : String)
  deriving Repr, DecidableEq

/-- The file-system calls of the plugin.  `ReadDir` yields the names of the
entries; `Glob` yields the matches of `filepath.Glob`, whose error the code
drops. -/
structure FileSystem where
  ReadFile : String → ReadFileResult
  ReadDir : String → Except String (List String)
  EvalSymlinks : String → Except String String
  Glob : String → List String
  Stat : String → StatResult

/-! ## `pkg/topology` -/

/-- Go struct `Hint`. -/
structure Hint where
  Provider : String
  CPUs : String
  NUMAs : String
  Sockets : String
  deriving Repr, DecidableEq

/-- Go type `Hints`, a `map[string]Hint`. -/
abbrev Hints := GoMap Hint

/-- The loop of `MergeTopologyHints`: a key that `res` holds already is skipped. -/
def mergeLoop : List (String × Hint) → Hints → Hints
  | [], res => res
  | (k, v) :: rest, res =>
    match res.get k with
    | some _ => mergeLoop rest res
    | none => mergeLoop rest (res.set k v)

/-- Go `MergeTopologyHints`; a nil `org` is `none`. -/
def MergeTopologyHints (ord : RangeOrder) (org : Option Hints) (hints : Hints) : Hints :=
  let res : Hints := match org with
    | some o => o
    | none => []
  mergeLoop (ord _ hints) res

/-- Go `readFilesInDirectory`: the file map gives, for each file name, the field
of the hint that receives the trimmed content. -/
def readFilesInDirectory (fs : FileSystem) (dir : String) :
    List (String × (Hint → String → Hint)) → Hint → Result Hint
  | [], hint => .ok hint
  | (k, v) :: rest, hint =>
    match fs.ReadFile (filepathJoin [dir, k]) with
    | .notExist => readFilesInDirectory fs dir rest hint
    | .error msg => .error (dir ++ ": unable to read file \"" ++ k ++ "\": " ++ msg)
    | .ok b => readFilesInDirectory fs dir rest (v hint (stringsTrimSpace b))

/-- Go `mapKeys`. -/
def mapKeys (ord : RangeOrder) (m : GoMap Bool) : List String := (ord _ m).map Prod.fst

/-- The file map of `getTopologyHint`. -/
def hintFileMap : GoMap (Hint → String → Hint) :=
  [("local_cpulist", fun hint s => { hint with CPUs := s }),
   ("numa_node", fun hint s => { hint with NUMAs := s })]

/-- The part of `getTopologyHint` that uses the hints of the parent: the CPU
lists and NUMA values found there replace the fields of the hint when their
comma-joined list is not empty. -/
def applyParentHints (ord : RangeOrder) (hint : Hint) (parentHints : Hints) : Hint :=
  let lists : GoMap Bool × GoMap Bool :=
    (ord _ parentHints).foldl
      (fun acc kh =>
        (if kh.2.CPUs ≠ "" then acc.1.set kh.2.CPUs true else acc.1,
         if kh.2.NUMAs ≠ "" then acc.2.set kh.2.NUMAs true else acc.2))
      ([], [])
  let cpus := stringsJoin (mapKeys ord lists.1) ","
  let hint1 := if cpus ≠ "" then { hint with CPUs := cpus } else hint
  let numas := stringsJoin (mapKeys ord lists.2) ","
  if numas ≠ "" then { hint1 with NUMAs := numas } else hint1

/-- The last step of the workaround of `getTopologyHint`: without CPUs the NUMA
value becomes the socket hint. -/
def numaAsSockets (hint : Hint) : Hint :=
  if hint.CPUs = "" ∧ hint.NUMAs ≠ "" then { hint with Sockets := hint.NUMAs, NUMAs := "" }
  else hint

/-- Go `getDevicesFromVirtual`. -/
def getDevicesFromVirtual (fs : FileSystem) (mockRoot realDevPath : String) :
    Except String (List String) :=
  match filepathRel "/sys/devices/virtual" realDevPath with
  | none => .error "unable to find relative path"
  | some relPath =>
    if stringsHasPrefix relPath ".." then .error (realDevPath ++ " is not a virtual device")
    else
      let (dir, file) := filepathSplit relPath
      if dir = "vfio/" then
        let iommuGroup := filepathJoin [mockRoot, "/sys/kernel/iommu_groups", file, "devices"]
        match fs.ReadDir iommuGroup with
        | .error e => .error ("failed to read IOMMU group " ++ iommuGroup ++ ": " ++ e)
        | .ok files =>
          files.foldlM
            (fun devs name =>
              match fs.EvalSymlinks (filepathJoin [iommuGroup, name]) with
              | .error e => .error ("failed to get real path for " ++ name ++ ": " ++ e)
              | .ok realDev => .ok (devs ++ [realDev]))
            []
      else .ok []

mutual

/-- Go `getTopologyHint`.  `fuel` bounds the number of nested calls and loop
rounds of the resolver; a call that needs more ends in `outOfFuel`. -/
def getTopologyHint (fs : FileSystem) (ord : RangeOrder) (mockRoot : String) :
    Nat → String → Result Hint
  | fuel, sysFSPath =>
    (readFilesInDirectory fs sysFSPath (ord _ hintFileMap)
        { Provider := sysFSPath, CPUs := "", NUMAs := "", Sockets := "" }).bind fun hint0 =>
      let hint := if hint0.NUMAs = "-1" then { hint0 with NUMAs := "" } else hint0
      if hint.NUMAs ≠ "" ∧ hint.CPUs = "" then
        match fuel with
        | 0 => .outOfFuel
        | n + 1 =>
          match NewTopologyHints fs ord mockRoot n (filepathDir sysFSPath) with
          | .ok parentHints => .ok (numaAsSockets (applyParentHints ord hint parentHints))
          | .error _ => .ok (numaAsSockets hint)
          | .panic => .panic
          | .outOfFuel => .outOfFuel
      else .ok hint

/-- The upward walk of `NewTopologyHints`, from `p` on. -/
def walkUp (fs : FileSystem) (ord : RangeOrder) (mockRoot : String) :
    Nat → String → Hints → Result Hints
  | fuel, p, hints =>
    if stringsHasPrefix p (mockRoot ++ "/sys/devices/") then
      match fuel with
      | 0 => .outOfFuel
      | n + 1 =>
        (getTopologyHint fs ord mockRoot n p).bind fun hint =>
          if hint.CPUs ≠ "" ∨ hint.NUMAs ≠ "" ∨ hint.Sockets ≠ "" then
            .ok (hints.set hint.Provider hint)
          else walkUp fs ord mockRoot n (filepathDir p) hints
    else .ok hints

/-- The loop of `NewTopologyHints` over the dependent devices. -/
def dependentsLoop (fs : FileSystem) (ord : RangeOrder) (mockRoot : String) :
    Nat → List String → Hints → Result Hints
  | _, [], hints => .ok hints
  | 0, _ :: _, _ => .outOfFuel
  | n + 1, dev :: rest, hints =>
    (NewTopologyHints fs ord mockRoot n dev).bind fun deviceHints =>
      dependentsLoop fs ord mockRoot n rest (MergeTopologyHints ord (some hints) deviceHints)

/-- Go `NewTopologyHints`. -/
def NewTopologyHints (fs : FileSystem) (ord : RangeOrder) (mockRoot : String) :
    Nat → String → Result Hints
  | 0, _ => .outOfFuel
  | n + 1, devPath =>
    match fs.EvalSymlinks devPath with
    | .error e => .error ("failed get realpath for " ++ devPath ++ ": " ++ e)
    | .ok realDevPath =>
      (walkUp fs ord mockRoot n realDevPath []).bind fun hints =>
        let fromVirtual := match getDevicesFromVirtual fs mockRoot realDevPath with
          | .ok devs => devs
          | .error _ => []
        let deps := fs.Glob (filepathJoin [realDevPath, "slaves/*"])
        dependentsLoop fs ord mockRoot n (deps ++ fromVirtual) hints

end

/-- A file system with one PCI device directory whose `numa_node` reads `-1`
and which has no `local_cpulist` (scenario D). -/
def sampleFsNoNuma : FileSystem where
  ReadFile := fun p =>
    if p = "/sys/devices/pci0000:3d/0000:3d:00.0/numa_node" then .ok "-1\n" else .notExist
  ReadDir := fun _ => .error "no such file or directory"
  EvalSymlinks := fun p => .ok p
  Glob := fun _ => []
  Stat := fun _ => .notExist

/-- The map a nil or non-nil `org` stands for. -/
def orgMap (org : Option Hints) : Hints :=
  match org with
  | some o => o
  | none => []

/-- Two hints for one provider. -/
def sampleHint1 : Hint := { Provider := "/sys/devices/a", CPUs := "0-3", NUMAs := "0", Sockets := "" }

/-- A second hint for the provider of `sampleHint1`. -/
def sampleHint2 : Hint := { Provider := "/sys/devices/a", CPUs := "4-7", NUMAs := "1", Sockets := "" }

/-- A hint for another provider. -/
def sampleHint3 : Hint := { Provider := "/sys/devices/b", CPUs := "", NUMAs := "", Sockets := "1" }

/-- The CPU list `getTopologyHint` reads in a directory: the trimmed content of
`local_cpulist`, or the empty string when the file is absent. -/
def localCpulist (fs : FileSystem) (sysFSPath : String) : String :=
  match fs.ReadFile (filepathJoin [sysFSPath, "local_cpulist"]) with
  | .ok b => stringsTrimSpace b
  | _ => ""

/-- The device directory of `sampleFsNoNuma`. -/
def sampleDevDir : String := "/sys/devices/pci0000:3d/0000:3d:00.0"

/-! ## `pkg/topology`: topology information of device nodes -/

/-- Go struct `pluginapi.NUMANode`. -/
structure NUMANode where
  ID : Int
  deriving Repr, DecidableEq

/-- Go struct `pluginapi.TopologyInfo`. -/
structure TopologyInfo where
  Nodes : List NUMANode
  deriving Repr, DecidableEq

/-- Go `unix.Major`. -/
def unixMajor (dev : Nat) : Nat :=
  ((dev &&& 0x00000000000fff00) >>> 8) ||| ((dev &&& 0xfffff00000000000) >>> 32)

/-- Go `unix.Minor`. -/
def unixMinor (dev : Nat) : Nat :=
  (dev &&& 0x00000000000000ff) ||| ((dev &&& 0x00000ffffff00000) >>> 12)

/-- Go `FindSysFsDevice`. -/
def FindSysFsDevice (fs : FileSystem) (mockRoot dev : String) : Result String :=
  match fs.Stat dev with
  | .notExist => .ok ""
  | .error e => .error ("unable to get stat for " ++ dev ++ ": " ++ e)
  | .ok fi =>
    let devType := if fi.isDevice && fi.isCharDevice then "char" else "block"
    let rdev := if fi.isDevice then fi.Rdev else fi.Dev
    let major := unixMajor rdev
    let minor := unixMinor rdev
    if major = 0 then .error (dev ++ " is a virtual device node")
    else
      let devPath := "/sys/dev/" ++ devType ++ "/" ++ fmtInt major ++ ":" ++ fmtInt minor
      match fs.EvalSymlinks devPath with
      | .error e => .error ("failed get realpath for " ++ devPath ++ ": " ++ e)
      | .ok realDevPath => .ok (filepathJoin [mockRoot, realDevPath])

/-- Go `strconv.ParseInt(s, 10, 64)`: an optional sign and decimal digits, within
the range of `int64`.  The message carries the text as it is, not quoted as Go
quotes it. -/
def strconvParseInt (s : String) : Except String Int :=
  let syntaxError : Except String Int :=
    .error ("strconv.ParseInt: parsing \"" ++ s ++ "\": invalid syntax")
  match s.toList with
  | [] => syntaxError
  | c :: rest =>
    let neg := decide (c = '-')
    let digits := if c = '+' ∨ c = '-' then rest else c :: rest
    if digits = [] ∨ ¬ digits.all Char.isDigit then syntaxError
    else
      let n : Nat := digits.foldl (fun acc d => acc * 10 + (d.toNat - '0'.toNat)) 0
      let v : Int := if neg then -(n : Int) else n
      if v < -(2 ^ 63) ∨ 2 ^ 63 - 1 < v then
        .error ("strconv.ParseInt: parsing \"" ++ s ++ "\": value out of range")
      else .ok v

/-- The state of the loops of `GetTopologyInfo`: `result.Nodes` and the set
`nodeIDs`.  A loop ends either with the next state or with the values that a
`return` inside it gives to the caller. -/
abbrev TopologyLoop := Except (Result (Option TopologyInfo)) (List NUMANode × List Int)

/-- The loop of `GetTopologyInfo` over the comma-separated values of one NUMAs
field.  A negative value returns `errors.Wrapf(err, ...)` with a nil `err`,
which is nil: the caller gets no information and no error. -/
def numaValuesLoop : List String → List NUMANode × List Int → TopologyLoop
  | [], st => .ok st
  | nNode :: rest, (nodes, nodeIDs) =>
    match strconvParseInt (stringsTrimSpace nNode) with
    | .error e => .error (.error ("unable to convert numa node " ++ nNode ++ " into int64: " ++ e))
    | .ok nNodeID =>
      if nNodeID < 0 then .error (.ok none)
      else if nNodeID ∈ nodeIDs then numaValuesLoop rest (nodes, nodeIDs)
      else numaValuesLoop rest (nodes ++ [{ ID := nNodeID }], nodeIDs ++ [nNodeID])

/-- The loop of `GetTopologyInfo` over the hints of one device. -/
def hintsLoop : List (String × Hint) → List NUMANode × List Int → TopologyLoop
  | [], st => .ok st
  | (_, hint) :: rest, st =>
    if hint.NUMAs ≠ "" then
      match numaValuesLoop (stringsSplit hint.NUMAs ',') st with
      | .error r => .error r
      | .ok st1 => hintsLoop rest st1
    else hintsLoop rest st

/-- The loop of `GetTopologyInfo` over the device nodes. -/
def devsLoop (fs : FileSystem) (ord : RangeOrder) (mockRoot : String) (fuel : Nat) :
    List String → List NUMANode × List Int → TopologyLoop
  | [], st => .ok st
  | dev :: rest, st =>
    match FindSysFsDevice fs mockRoot dev with
    | .ok sysfsDevice =>
      if sysfsDevice = "" then .error (.error ("device " ++ dev ++ " doesn't exist"))
      else
        match NewTopologyHints fs ord mockRoot fuel sysfsDevice with
        | .ok hints =>
          match hintsLoop (ord _ hints) st with
          | .error r => .error r
          | .ok st1 => devsLoop fs ord mockRoot fuel rest st1
        | .error e => .error (.error e)
        | .panic => .error .panic
        | .outOfFuel => .error .outOfFuel
    | .error e => .error (.error e)
    | .panic => .error .panic
    | .outOfFuel => .error .outOfFuel

/-- Go `GetTopologyInfo`.  The value is `none` for a nil `*TopologyInfo`. -/
def GetTopologyInfo (fs : FileSystem) (ord : RangeOrder) (mockRoot : String) (fuel : Nat)
    (devs : List String) : Result (Option TopologyInfo) :=
  match devsLoop fs ord mockRoot fuel devs ([], []) with
  | .error r => r
  | .ok (nodes, _) => .ok (some { Nodes := nodes.insertionSort (fun a b => a.ID ≤ b.ID) })

/-! ## `pkg/deviceplugin` -/

/-- Go struct `pluginapi.DeviceSpec`. -/
structure DeviceSpec where
  ContainerPath : String
  HostPath : String
  Permissions : String
  deriving Repr, DecidableEq

/-- Go struct `pluginapi.Mount`. -/
structure Mount where
  ContainerPath : String
  HostPath : String
  ReadOnly : Bool
  deriving Repr, DecidableEq

/-- Go struct `DeviceInfo`. -/
structure DeviceInfo where
  mounts : List Mount
  envs : GoMap String
  annotations : GoMap String
  topology : Option TopologyInfo
  state : String
  nodes : List DeviceSpec
  deriving Repr, DecidableEq

/-- Go `NewDeviceInfo`: an error of `GetTopologyInfo` is logged and leaves the
topology nil. -/
def NewDeviceInfo (fs : FileSystem) (ord : RangeOrder) (mockRoot : String) (fuel : Nat)
    (state : String) (nodes : List DeviceSpec) (mounts : List Mount) (envs : GoMap String)
    (annotations : GoMap String) : Result DeviceInfo :=
  let deviceInfo : DeviceInfo :=
    { state := state, nodes := nodes, mounts := mounts, envs := envs,
      annotations := annotations, topology := none }
  let devPaths := nodes.map fun node => node.HostPath
  match GetTopologyInfo fs ord mockRoot fuel devPaths with
  | .ok topologyInfo => .ok { deviceInfo with topology := topologyInfo }
  | .error _ => .ok deviceInfo
  | .panic => .panic
  | .outOfFuel => .outOfFuel

/-- Go type `DeviceTree`: device type, then device id, then device info. -/
abbrev DeviceTree := GoMap (GoMap DeviceInfo)

/-- Go `NewDeviceTree`. -/
def NewDeviceTree : DeviceTree := []

/-- Go `DeviceTree.AddDevice`. -/
def DeviceTree.AddDevice (tree : DeviceTree) (devType id : String) (info : DeviceInfo) :
    DeviceTree :=
  let tree1 : DeviceTree :=
    match tree.get devType with
    | some _ => tree
    | none => tree.set devType []
  match tree1.get devType with
  | some inner => tree1.set devType (inner.set id info)
  | none => tree1

/-- Go `DeviceTree.DeviceTypeCount`. -/
def DeviceTree.DeviceTypeCount (tree : DeviceTree) (devType : String) : Nat :=
  match tree.get devType with
  | some inner => inner.length
  | none => 0

/-! ## `cmd/kerneldrv`: the device catalog -/

/-- Go `newDeviceSpec`. -/
def newDeviceSpec (devPath : String) : DeviceSpec :=
  { HostPath := devPath, ContainerPath := devPath, Permissions := "rw" }

/-- Go `getUIODeviceListPath`; the index expressions panic when `bsf` has no
colon. -/
def getUIODeviceListPath (sysfs _devtype bsf : String) : Result String :=
  match stringsSplit bsf ':' with
  | b0 :: b1 :: _ =>
    let pcicode := "pci" ++ b0 ++ ":" ++ b1
    .ok (filepathJoin [sysfs, "devices", pcicode, bsf, "uio"])
  | _ => .panic

/-- Go `getUIODevices`. -/
def getUIODevices (fs : FileSystem) (sysfs devtype bsf : String) : Result (List String) :=
  (getUIODeviceListPath sysfs devtype bsf).bind fun sysfsDir =>
    match fs.ReadDir sysfsDir with
    | .error e => .error ("Can't read " ++ sysfsDir ++ ": " ++ e)
    | .ok devFiles => .ok (devFiles.foldl (fun devices devFile => devices ++ [devFile]) [])

/-- The first loop of `getDevTree`: the device nodes of all devices. -/
def collectDevs (fs : FileSystem) (sysfs : String) :
    List device → List DeviceSpec → Result (List DeviceSpec)
  | [], devs => .ok devs
  | qatDev :: rest, devs =>
    (getUIODevices fs sysfs qatDev.devtype qatDev.bsf).bind fun uiodevs =>
      collectDevs fs sysfs rest
        (uiodevs.foldl (fun devs uiodev => devs ++ [newDeviceSpec (filepathJoin ["/dev/", uiodev])])
          devs)

/-- The value `pluginapi.Healthy`. -/
def pluginapiHealthy : String := "Healthy"

/-- The body of the innermost loop of `getDevTree`: one unit is allocated.  The
state is `uniqID` and `devTree`. -/
def allocateUnit (fs : FileSystem) (ord : RangeOrder) (mockRoot : String) (fuel : Nat)
    (devs : List DeviceSpec) (devType sname : String) (st : Nat × DeviceTree) :
    Result (Nat × DeviceTree) :=
  let envs : GoMap String :=
    [("QAT_SECTION_NAME_" ++ devType ++ "_" ++ fmtInt st.1, sname), ("QAT_SECTION_NAME", sname)]
  (NewDeviceInfo fs ord mockRoot fuel pluginapiHealthy devs [] envs []).bind fun deviceInfo =>
    let uniqID := st.1 + 1
    .ok (uniqID, st.2.AddDevice devType (sname ++ "_" ++ fmtInt uniqID) deviceInfo)

/-- The loop `for i := 0; i < ep.processes; i++` of `getDevTree`, with the rounds
that are left to run. -/
def processLoop (fs : FileSystem) (ord : RangeOrder) (mockRoot : String) (fuel : Nat)
    (devs : List DeviceSpec) (devType sname : String) :
    Nat → Nat × DeviceTree → Result (Nat × DeviceTree)
  | 0, st => .ok st
  | n + 1, st =>
    (allocateUnit fs ord mockRoot fuel devs devType sname st).bind
      (processLoop fs ord mockRoot fuel devs devType sname n)

/-- The loop of `getDevTree` over the endpoints of a section; it stops after the
first endpoint when the section is not pinned. -/
def endpointsLoop (fs : FileSystem) (ord : RangeOrder) (mockRoot : String) (fuel : Nat)
    (devs : List DeviceSpec) (devType sname : String) (pinned : Bool) :
    List endpoint → Nat × DeviceTree → Result (Nat × DeviceTree)
  | [], st => .ok st
  | ep :: rest, st =>
    (processLoop fs ord mockRoot fuel devs devType sname ep.processes.toNat st).bind fun st1 =>
      if !pinned then .ok st1
      else endpointsLoop fs ord mockRoot fuel devs devType sname pinned rest st1

/-- The synthetic device type of a section, `cy<N>_dc<M>`. -/
def sectionDevType (svalue : Section) : String :=
  "cy" ++ fmtInt svalue.cryptoEngines ++ "_dc" ++ fmtInt svalue.compressionEngines

/-- The loop of `getDevTree` over the sections, in the order in which the map is
visited. -/
def sectionsLoop (fs : FileSystem) (ord : RangeOrder) (mockRoot : String) (fuel : Nat)
    (devs : List DeviceSpec) :
    List (String × Section) → Nat × DeviceTree → Result (Nat × DeviceTree)
  | [], st => .ok st
  | (sname, svalue) :: rest, st =>
    (endpointsLoop fs ord mockRoot fuel devs (sectionDevType svalue) sname svalue.pinned
        svalue.endpoints st).bind
      (sectionsLoop fs ord mockRoot fuel devs rest)

/-- The three fixed device nodes of `getDevTree`. -/
def fixedDevs : List DeviceSpec :=
  [newDeviceSpec "/dev/qat_adf_ctl", newDeviceSpec "/dev/qat_dev_processes",
   newDeviceSpec "/dev/usdm_drv"]

/-- Go `getDevTree`.  `mockRoot` and `fuel` belong to the topology resolver that
`NewDeviceInfo` calls. -/
def getDevTree (fs : FileSystem) (ord : RangeOrder) (mockRoot : String) (fuel : Nat)
    (sysfs : String) (qatDevs : List device) (config : GoMap Section) : Result DeviceTree :=
  (collectDevs fs sysfs qatDevs fixedDevs).bind fun devs =>
    (sectionsLoop fs ord mockRoot fuel devs (ord _ config) (0, NewDeviceTree)).bind fun st =>
      .ok st.2

/-! ## `cmd/kerneldrv`: online devices -/

/-- The deny list of `getOnlineDevices`, empty in the source. -/
def devicesDenyList : GoMap Unit := []

/-- The first loop of `getOnlineDevices`: `vfOn` after the scan of the lines.
`find` is `adfCtlRegex.FindStringSubmatch`. -/
def scanVf (find : String → List String) : List String → Bool
  | [] => false
  | line :: rest =>
    let matched := find line
    if matched.length ≠ 6 then scanVf find rest
    else if stringsHasSuffix (matched.getD 1 "") "vf" then true
    else scanVf find rest

/-- The second loop of `getOnlineDevices`. -/
def scanDevices (find : String → List String) (iommuOn vfOn : Bool) :
    List String → List device → List device
  | [], devices => devices
  | line :: rest, devices =>
    let matched := find line
    if matched.length ≠ 6 then scanDevices find iommuOn vfOn rest devices
    else if matched.getD 5 "" ≠ "up" then scanDevices find iommuOn vfOn rest devices
    else if (devicesDenyList.get (matched.getD 1 "")).isSome then
      scanDevices find iommuOn vfOn rest devices
    else if iommuOn && !stringsHasSuffix (matched.getD 1 "") "vf" then
      scanDevices find iommuOn vfOn rest devices
    else if vfOn && !stringsHasSuffix (matched.getD 1 "") "vf" then
      scanDevices find iommuOn vfOn rest devices
    else
      scanDevices find iommuOn vfOn rest
        (devices ++ [{ id := "dev" ++ matched.getD 2 "", devtype := matched.getD 1 "",
                       bsf := matched.getD 3 "" ++ matched.getD 4 "" }])

/-- Go `DevicePlugin.getOnlineDevices`; `output` is what `adf_ctl status` gave. -/
def getOnlineDevices (find : String → List String) (output : Except String String)
    (iommuOn : Bool) : Result (List device) :=
  match output with
  | .error e => .error ("Can't get driver status: " ++ e)
  | .ok outputBytes =>
    let vfOn := scanVf find (stringsSplit outputBytes '\n')
    .ok (scanDevices find iommuOn vfOn (stringsSplit outputBytes '\n') [])

/-! ## `cmd/kerneldrv`: renumbering after allocation -/

/-- Go struct `pluginapi.ContainerAllocateResponse`. -/
structure ContainerAllocateResponse where
  Envs : GoMap String
  Mounts : List Mount
  Devices : List DeviceSpec
  Annotations : GoMap String
  deriving Repr, DecidableEq

/-- The state of the first loop of `PostAllocate` over one container. -/
structure RenumberState where
  envsToDelete : List String
  envsToAdd : GoMap String
  counter : Nat
  deriving Repr, DecidableEq

/-- The first loop of `PostAllocate` over the environment of a container. -/
def renumberLoop : List (String × String) → RenumberState → Result RenumberState
  | [], st => .ok st
  | (key, value) :: rest, st =>
    if !stringsHasPrefix key "QAT_SECTION_NAME_" then renumberLoop rest st
    else
      let parts := stringsSplit key '_'
      if parts.length ≠ 6 then .error ("Wrong format of env variable name " ++ key)
      else
        let pfx := stringsJoin (parts.take 5) "_"
        renumberLoop rest
          { envsToDelete := st.envsToDelete ++ [key]
            envsToAdd := st.envsToAdd.set (pfx ++ "_" ++ fmtInt st.counter) value
            counter := st.counter + 1 }

/-- The body of the loop of `PostAllocate` over the containers. -/
def postAllocateContainer (ord : RangeOrder) (containerResponse : ContainerAllocateResponse) :
    Result ContainerAllocateResponse :=
  (renumberLoop (ord _ containerResponse.Envs)
      { envsToDelete := [], envsToAdd := [], counter := 0 }).bind fun st =>
    let envs1 := st.envsToDelete.foldl (fun envs key => envs.del key) containerResponse.Envs
    let envs2 := (ord _ st.envsToAdd).foldl (fun envs kv => envs.set kv.1 kv.2) envs1
    .ok { containerResponse with Envs := envs2 }

/-- Go `DevicePlugin.PostAllocate`.  The Go code changes the containers of the
response in place; here the changed containers are the result. -/
def PostAllocate (ord : RangeOrder) :
    List ContainerAllocateResponse → Result (List ContainerAllocateResponse)
  | [] => .ok []
  | containerResponse :: rest =>
    (postAllocateContainer ord containerResponse).bind fun c =>
      (PostAllocate ord rest).bind fun cs => .ok (c :: cs)

/-- A file system in which the `uio` directory of each sample device holds the
entry `uio0` and nothing else exists. -/
def sampleFsUio : FileSystem where
  ReadFile := fun _ => .notExist
  ReadDir := fun p =>
    if p = "/sys/devices/pci3d:00.0/3d:00.0/uio" ∨ p = "/sys/devices/pci3f:00.0/3f:00.0/uio" then
      .ok ["uio0"]
    else .error "no such file or directory"
  EvalSymlinks := fun p => .ok p
  Glob := fun _ => []
  Stat := fun _ => .notExist

/-- A line that matches the record pattern with a device type ending in `vf`. -/
def isVfLine (find : String → List String) (line : String) : Bool :=
  decide ((find line).length = 6) && stringsHasSuffix ((find line).getD 1 "") "vf"

/-- The device list as the specification words it: one device per line that
matches the pattern, is `up`, and has a virtual-function type whenever the IOMMU
is on or some matching line of the text has a virtual-function type. -/
def onlineDevicesSpec (find : String → List String) (text : String) (iommuOn : Bool) :
    List device :=
  let lines := stringsSplit text '\n'
  let vfOnly := iommuOn || lines.any (isVfLine find)
  lines.filterMap fun line =>
    let m := find line
    if m.length = 6 ∧ m.getD 5 "" = "up" ∧
        (vfOnly = true → stringsHasSuffix (m.getD 1 "") "vf" = true) then
      some { id := "dev" ++ m.getD 2 "", devtype := m.getD 1 "",
             bsf := m.getD 3 "" ++ m.getD 4 "" }
    else none

/-- The status line of scenario A. -/
def sampleStatusLine : String :=
  " qat_dev0 - type: c4xxx,  inst_id: 0,  node_id: 0,  bsf: 3d:00.0,  #accel: 1 #engines: 1 state: up"

/-- The submatches of the record pattern on the lines of the sample status text:
the line of scenario A matches, the heading does not. -/
def sampleFind (line : String) : List String :=
  if line = sampleStatusLine then
    ["type: c4xxx,  inst_id: 0,  node_id: 0,  bsf: 3d:00.0,  #accel: 1 #engines: 1 state: up",
     "c4xxx", "0", "", "3d:00.0", "up"]
  else []

/-- An environment key that begins with `QAT_SECTION_NAME_`. -/
def isSectionKey (key : String) : Bool := stringsHasPrefix key "QAT_SECTION_NAME_"

/-- A key that begins with `QAT_SECTION_NAME_` and does not split on `_` into
exactly six fields. -/
def isMalformedKey (key : String) : Bool :=
  isSectionKey key && decide ((stringsSplit key '_').length ≠ 6)

/-- A container with two numbered section variables, the plain variable and an
unrelated one. -/
def sampleContainer : ContainerAllocateResponse :=
  { Envs := [("QAT_SECTION_NAME_cy0_dc1_7", "dc1"), ("QAT_SECTION_NAME", "dc1"),
             ("QAT_SECTION_NAME_cy1_dc0_3", "ssl"), ("PATH", "/bin")]
    Mounts := [], Devices := [], Annotations := [] }

/-- A container with a section variable of five fields. -/
def sampleBadContainer : ContainerAllocateResponse :=
  { Envs := [("QAT_SECTION_NAME_cy0_7", "dc1")], Mounts := [], Devices := [], Annotations := [] }

/-- The key of a renumbered variable: the first five fields of the old key and
the number. -/
def renumberedKey (key : String) (n : Nat) : String :=
  stringsJoin ((stringsSplit key '_').take 5 ++ [fmtInt n]) "_"

/-- The entries `olds` renumbered in their order from `n` on, values kept. -/
def renumberedFrom : Nat → List (String × String) → List (String × String)
  | _, [] => []
  | n, (key, value) :: rest => (renumberedKey key n, value) :: renumberedFrom (n + 1) rest

/-- The last of the fields of a key that are separated by `_`. -/
def lastField (key : String) : Option String := (stringsSplit key '_').getLast?

/-- What `PostAllocate` does to a container: for some enumeration `olds` of the
old variables with the prefix, the new variables with the prefix are `olds`
renumbered from 0; the variables without the prefix, the other fields of the
container and the distinctness of the keys are kept. -/
def Renumbered (c c' : ContainerAllocateResponse) : Prop :=
  ∃ olds : List (String × String),
    olds.Perm (c.Envs.filter fun kv => isSectionKey kv.1) ∧
    (c'.Envs.filter fun kv => isSectionKey kv.1).Perm (renumberedFrom 0 olds) ∧
    (c'.Envs.filter fun kv => !isSectionKey kv.1) = (c.Envs.filter fun kv => !isSectionKey kv.1) ∧
    GoMap.WF c'.Envs ∧ c'.Mounts = c.Mounts ∧ c'.Devices = c.Devices ∧
    c'.Annotations = c.Annotations

/-- The units of a catalog: device type, unit id and unit. -/
def DeviceTree.units (tree : DeviceTree) : List (String × String × DeviceInfo) :=
  tree.flatMap fun tyInner => tyInner.2.map fun idInfo => (tyInner.1, idInfo.1, idInfo.2)

/-- The units of a catalog whose `QAT_SECTION_NAME` is `sname`. -/
def DeviceTree.unitsOfSection (tree : DeviceTree) (sname : String) :
    List (String × String × DeviceInfo) :=
  tree.units.filter fun u => decide (u.2.2.envs.get "QAT_SECTION_NAME" = some sname)

/-- The number of units the claim states for a section: the sum of the process
counts of its endpoints when it is pinned, the process count of its first
endpoint when it is not. -/
def claimedUnits (svalue : Section) : Int :=
  if svalue.pinned then (svalue.endpoints.map fun ep => ep.processes).sum
  else (svalue.endpoints.head?.map fun ep => ep.processes).getD 0

/-- The number of units of a section: as `claimedUnits`, with a process count
below zero counted as zero and a section without endpoints counted as zero. -/
def expectedUnits (svalue : Section) : Int :=
  if svalue.pinned then (svalue.endpoints.map fun ep => max ep.processes 0).sum
  else (svalue.endpoints.head?.map fun ep => max ep.processes 0).getD 0

/-- The number of rounds of the innermost loop of `getDevTree` that the loop
over the endpoints of a section runs. -/
def slotCount (pinned : Bool) : List endpoint → Nat
  | [] => 0
  | ep :: rest => ep.processes.toNat + if pinned then slotCount pinned rest else 0

/-- What the counting looks at in a unit: its type and its `QAT_SECTION_NAME`. -/
def unitTag (u : String × String × DeviceInfo) : String × Option String :=
  (u.1, u.2.2.envs.get "QAT_SECTION_NAME")

/-- The tags of the units that `getDevTree` allocates for the sections `l`. -/
def sectionTags (l : List (String × Section)) : List (String × Option String) :=
  l.flatMap fun e =>
    List.replicate (slotCount e.2.pinned e.2.endpoints) (sectionDevType e.2, some e.1)

/-- The invariant of the loops of `getDevTree`: the tags of the units of the
catalog are `tags` in some order, and every unit id ends in `_` and a number
from 1 to `uniqID`. -/
def CatalogInv (st : Nat × DeviceTree) (tags : List (String × Option String)) : Prop :=
  (st.2.units.map unitTag).Perm tags ∧
  ∀ u ∈ st.2.units, ∃ s k, k ≤ st.1 ∧ u.2.1 = s ++ "_" ++ fmtInt (k : Nat)

/-- A section with one endpoint whose process count is below zero, pinned. -/
def sampleNegative : driverConfig :=
  [("ssl", { endpoints := [⟨"dev0", -1⟩], cryptoEngines := 1, compressionEngines := 0,
             pinned := true })]

/-- A loader under which the device defines the section `ssl` pinned, with
`NumProcesses = -1`. -/
def sampleLoadNegative (_path : String) : Except String (List IniSection) :=
  .ok [IniSection.ofValues "ssl" (.ok (-1)) (.ok 1) (.ok 0) (some (.ok true))]

/-- The catalog of scenario B. -/
def sampleTree : DeviceTree :=
  match getDevTree sampleFsUio RangeOrder.backwards "" 3 "/sys" sampleDevices
      (sampleDc1Both false) with
  | .ok tree => tree
  | _ => []

/-- The section an `update` call stores for a name the map does not hold yet. -/
def freshSection (devID : String) (numProcesses cryptoEngines compressionEngines : Int)
    (pinned : Bool) : Section :=
  { endpoints := [{ id := devID, processes := numProcesses }]
    cryptoEngines := cryptoEngines
    compressionEngines := compressionEngines
    pinned := pinned }

/-- The section an `update` call stores for a name the map holds as `old`. -/
def extendedSection (old : Section) (devID : String) (numProcesses : Int) : Section :=
  { old with endpoints := old.endpoints ++ [{ id := devID, processes := numProcesses }] }

/-- A name as a directory listing yields it: not empty, not `.` or `..`, and
without a slash. -/
def isFileName (name : String) : Bool :=
  name != "" && name != "." && name != ".." && !name.toList.contains '/'

/-- The rounds of the innermost loop of `getDevTree` over the sections `l`, in
the order in which they run: one entry per round, holding the section the round
allocates a unit for. -/
def allocationSlots (l : List (String × Section)) : List (String × Section) :=
  l.flatMap fun e => List.replicate (slotCount e.2.pinned e.2.endpoints) e

/-- The topology `NewDeviceInfo` stores for the device nodes `devs`: what
`GetTopologyInfo` returns, nil when it returns an error. -/
def unitTopology (fs : FileSystem) (ord : RangeOrder) (mockRoot : String) (fuel : Nat)
    (devs : List DeviceSpec) : Option TopologyInfo :=
  match GetTopologyInfo fs ord mockRoot fuel (devs.map fun node => node.HostPath) with
  | .ok topologyInfo => topologyInfo
  | _ => none

/-- The environment of the unit allocated for the section `sname` of type
`devType` while `uniqID` is `n`. -/
def unitEnvs (devType sname : String) (n : Nat) : GoMap String :=
  [("QAT_SECTION_NAME_" ++ devType ++ "_" ++ fmtInt (n : Nat), sname), ("QAT_SECTION_NAME", sname)]

/-- The unit allocated for the section `e` while `uniqID` is `n`, with its type
and its id. -/
def allocatedUnit (topo : Option TopologyInfo) (devs : List DeviceSpec) (n : Nat)
    (e : String × Section) : String × String × DeviceInfo :=
  (sectionDevType e.2, e.1 ++ "_" ++ fmtInt ((n + 1 : Nat) : Nat),
    { state := pluginapiHealthy, nodes := devs, mounts := [],
      envs := unitEnvs (sectionDevType e.2) e.1 n, annotations := [], topology := topo })

/-- The units allocated in the rounds `slots`, the first of them while `uniqID`
is `n`. -/
def allocatedUnitsFrom (topo : Option TopologyInfo) (devs : List DeviceSpec) :
    Nat → List (String × Section) → List (String × String × DeviceInfo)
  | _, [] => []
  | n, e :: rest => allocatedUnit topo devs n e :: allocatedUnitsFrom topo devs (n + 1) rest

/-- The state of the loops of `getDevTree` after the rounds `slots`: `uniqID`
counts the rounds and the catalog holds the units allocated in them. -/
def AllocInv (topo : Option TopologyInfo) (devs : List DeviceSpec) (st : Nat × DeviceTree)
    (slots : List (String × Section)) : Prop :=
  st.1 = slots.length ∧ st.2.units.Perm (allocatedUnitsFrom topo devs 0 slots)

/-- The entries of the auxiliary `uio` directory of a device as `getUIODevices`
returns them; none when the call fails. -/
def uioEntries (fs : FileSystem) (sysfs : String) (qatDev : device) : List String :=
  match getUIODevices fs sysfs qatDev.devtype qatDev.bsf with
  | .ok uiodevs => uiodevs
  | _ => []

/-- The device nodes `getDevTree` hands to every unit: the fixed ones and one
per `uio` entry of each device, in device order. -/
def deviceNodes (fs : FileSystem) (sysfs : String) (qatDevs : List device) : List DeviceSpec :=
  fixedDevs ++ qatDevs.flatMap fun qatDev =>
    (uioEntries fs sysfs qatDev).map fun uiodev => newDeviceSpec (filepathJoin ["/dev/", uiodev])

/-- Two devices of which the first has an empty `uio` directory. -/
def sampleFsUioEmpty : FileSystem where
  ReadFile := fun _ => .notExist
  ReadDir := fun p =>
    if p = "/sys/devices/pci3d:00.0/3d:00.0/uio" then .ok []
    else if p = "/sys/devices/pci3f:00.0/3f:00.0/uio" then .ok ["uio0", "uio1"]
    else .error "no such file or directory"
  EvalSymlinks := fun p => .ok p
  Glob := fun _ => []
  Stat := fun _ => .notExist

/-- The catalog of scenario B over `sampleFsUioEmpty`. -/
def sampleTreeUioEmpty : DeviceTree :=
  match getDevTree sampleFsUioEmpty RangeOrder.inOrder "" 3 "/sys" sampleDevices
      (sampleDc1Both false) with
  | .ok tree => tree
  | _ => []

/-- The sections of a configuration file that `parseConfigs` hands to `update`:
those whose name is not reserved. -/
def workloadSections (secs : List IniSection) : List IniSection :=
  secs.filter fun sec => !isReservedSection sec.Name

/-- A section without any key. -/
def emptySection (name : String) : IniSection :=
  IniSection.ofValues name (.error "strconv.ParseInt: parsing \"\": invalid syntax")
    (.error "strconv.ParseInt: parsing \"\": invalid syntax")
    (.error "strconv.ParseInt: parsing \"\": invalid syntax") none

/-- A loader under which every file holds the five reserved sections without
any key, and the section `dc1`. -/
def sampleLoadReserved (_path : String) : Except String (List IniSection) :=
  .ok [emptySection "DEFAULT", emptySection "GENERAL", emptySection "SIOV", sampleDc1,
       emptySection "KERNEL", emptySection "KERNEL_QAT"]

/-- A loader under which every file holds a section `general` without any key,
and the section `dc1`. -/
def sampleLoadLowerCase (_path : String) : Except String (List IniSection) :=
  .ok [emptySection "general", sampleDc1]

/-- A loader under which every file holds the section `dc1` only. -/
def sampleLoadPlain (_path : String) : Except String (List IniSection) := .ok [sampleDc1]

/-- The first workaround of `getTopologyHint`: a NUMAs field that reads `-1` is
cleared. -/
def clearNoNuma (hint0 : Hint) : Hint :=
  if hint0.NUMAs = "-1" then { hint0 with NUMAs := "" } else hint0

/-- The second workaround of `getTopologyHint`, given what the lookup of the
parent directory returned. -/
def parentWorkaround (ord : RangeOrder) (hint : Hint) (r : Result Hints) : Result Hint :=
  match r with
  | .ok parentHints => .ok (numaAsSockets (applyParentHints ord hint parentHints))
  | .error _ => .ok (numaAsSockets hint)
  | .panic => .panic
  | .outOfFuel => .outOfFuel

/-- The hint of a directory as its two files give it, before the workarounds. -/
def readHint (fs : FileSystem) (ord : RangeOrder) (sysFSPath : String) : Result Hint :=
  readFilesInDirectory fs sysFSPath (ord _ hintFileMap)
    { Provider := sysFSPath, CPUs := "", NUMAs := "", Sockets := "" }

/-- The dependent devices of `NewTopologyHints`: the matches of `slaves/*`
followed by the devices `getDevicesFromVirtual` returns, none when it fails. -/
def dependents (fs : FileSystem) (mockRoot realDevPath : String) : List String :=
  fs.Glob (filepathJoin [realDevPath, "slaves/*"]) ++
    (match getDevicesFromVirtual fs mockRoot realDevPath with
      | .ok devs => devs
      | .error _ => [])

/-- One round of the loop of `getTopologyHint` over the hints of the parent:
a CPU list and a NUMA value that are not empty are put into the two sets. -/
def parentStep (acc : GoMap Bool × GoMap Bool) (kh : String × Hint) : GoMap Bool × GoMap Bool :=
  (if kh.2.CPUs ≠ "" then acc.1.set kh.2.CPUs true else acc.1,
   if kh.2.NUMAs ≠ "" then acc.2.set kh.2.NUMAs true else acc.2)

/-- The two sets `cpulist` and `numalist` that `getTopologyHint` collects from
the hints of the parent. -/
def parentLists (ord : RangeOrder) (parentHints : Hints) : GoMap Bool × GoMap Bool :=
  (ord _ parentHints).foldl parentStep ([], [])

/-- The string `cpus` of `getTopologyHint`: the CPU lists of the parent hints,
joined with commas. -/
def parentCpus (ord : RangeOrder) (parentHints : Hints) : String :=
  stringsJoin (mapKeys ord (parentLists ord parentHints).1) ","

/-- The string `numas` of `getTopologyHint`: the NUMA values of the parent hints,
joined with commas. -/
def parentNumas (ord : RangeOrder) (parentHints : Hints) : String :=
  stringsJoin (mapKeys ord (parentLists ord parentHints).2) ","

/-- A hint set in which every hint with a NUMA value has a CPU list. -/
def NumaWithCpus (hints : Hints) : Prop :=
  ∀ kv ∈ hints, kv.2.NUMAs ≠ "" → kv.2.CPUs ≠ ""

/-- A file system with the directory `/sys/devices/a/b`, which gives the NUMA
value 1 and no CPU list, under the directory `/sys/devices/a`, which gives the
CPU list `0-3` and the NUMA value 0. -/
def sampleFsParent : FileSystem where
  ReadFile := fun p =>
    if p = "/sys/devices/a/b/numa_node" then .ok "1\n"
    else if p = "/sys/devices/a/local_cpulist" then .ok "0-3\n"
    else if p = "/sys/devices/a/numa_node" then .ok "0\n"
    else .notExist
  ReadDir := fun _ => .error "no such file or directory"
  EvalSymlinks := fun p => .ok p
  Glob := fun _ => []
  Stat := fun _ => .notExist

/-- A file system with the directory `/sys/devices/a/b`, which gives the NUMA
value 1 and no CPU list, and no other file. -/
def sampleFsBareNuma : FileSystem where
  ReadFile := fun p => if p = "/sys/devices/a/b/numa_node" then .ok "1\n" else .notExist
  ReadDir := fun _ => .error "no such file or directory"
  EvalSymlinks := fun p => .ok p
  Glob := fun _ => []
  Stat := fun _ => .notExist

/-- The room an element takes in a joined path: its length and one slash; an
empty element, which `filepath.Clean` drops, takes none. -/
def elementWeight (c : String) : Nat := if c = "" then 0 else c.length + 1

/-- The room the elements of a stack take in a joined path. -/
def stackWeight (stack : List String) : Nat := (stack.map fun s => s.length + 1).sum

/-- The paths on which the call of `NewTopologyHints` for the resolved path `r`
may call `NewTopologyHints` again: the parent of a directory that the upward
walk from `r` reaches, and the dependent devices of `r`. -/
def Calls (fs : FileSystem) (mockRoot r t : String) : Prop :=
  (∃ i : Nat, (∀ j, j ≤ i →
      stringsHasPrefix (filepathDir^[j] r) (mockRoot ++ "/sys/devices/") = true) ∧
    t = filepathDir^[i + 1] r) ∨
  t ∈ dependents fs mockRoot r

/-- A file system in which the device `dm-0` lists itself among its `slaves`. -/
def sampleFsLoop : FileSystem where
  ReadFile := fun _ => .notExist
  ReadDir := fun _ => .error "no such file or directory"
  EvalSymlinks := fun p =>
    if p = "/sys/devices/virtual/block/dm-0/slaves/dm-0" then .ok "/sys/devices/virtual/block/dm-0"
    else .ok p
  Glob := fun pattern =>
    if pattern = "/sys/devices/virtual/block/dm-0/slaves/*" then
      ["/sys/devices/virtual/block/dm-0/slaves/dm-0"]
    else []
  Stat := fun _ => .notExist

/-- The hint of a directory that gives neither CPUs nor a NUMA value. -/
def emptyHint (sysFSPath : String) : Hint :=
  { Provider := sysFSPath, CPUs := "", NUMAs := "", Sockets := "" }

/-- A section with a negative number of crypto engines. -/
def sampleNegativeEngines : driverConfig :=
  [("ssl", { endpoints := [⟨"dev0", 2⟩], cryptoEngines := -1, compressionEngines := 0,
             pinned := false })]

/-- The catalog of `sampleNegativeEngines`. -/
def sampleTreeNegativeEngines : DeviceTree :=
  match getDevTree sampleFsUio RangeOrder.backwards "" 3 "/sys" sampleDevices
      sampleNegativeEngines with
  | .ok tree => tree
  | _ => []

/-- A container whose environment is put together from the environments of the
two units of `sampleTreeNegativeEngines`. -/
def sampleCatalogContainer : ContainerAllocateResponse :=
  { Envs := [("QAT_SECTION_NAME_cy-1_dc0_0", "ssl"), ("QAT_SECTION_NAME", "ssl"),
             ("QAT_SECTION_NAME_cy-1_dc0_1", "ssl")]
    Mounts := [], Devices := [], Annotations := [] }

/-- The file information of the character device with the numbers `243:minor`. -/
def uioFileInfo (minor : Nat) : FileInfo :=
  { isDevice := true, isCharDevice := true, Dev := 5, Rdev := 243 * 256 + minor }

/-- A file system with the device node `/dev/uio0` of the PCI device
`0000:3d:00.0`, whose directory gives the CPU list `0-3` and the NUMA value
`-2`. -/
def sampleFsNegativeNuma : FileSystem where
  ReadFile := fun p =>
    if p = "/sys/devices/pci0000:3d/0000:3d:00.0/local_cpulist" then .ok "0-3\n"
    else if p = "/sys/devices/pci0000:3d/0000:3d:00.0/numa_node" then .ok "-2\n"
    else .notExist
  ReadDir := fun _ => .error "no such file or directory"
  EvalSymlinks := fun p =>
    if p = "/sys/dev/char/243:0" then .ok "/sys/devices/pci0000:3d/0000:3d:00.0/uio/uio0"
    else .ok p
  Glob := fun _ => []
  Stat := fun p => if p = "/dev/uio0" then .ok (uioFileInfo 0) else .notExist

/-- The integer a value of a NUMAs field stands for, when it is one. -/
def numaValue (nNode : String) : Option Int :=
  match strconvParseInt (stringsTrimSpace nNode) with
  | .ok n => some n
  | .error _ => none

/-- The integers that occur in the comma-separated NUMAs field of a hint. -/
def numaIDs (hint : Hint) : List Int := (stringsSplit hint.NUMAs ',').filterMap numaValue

/-- The state of the loops of `GetTopologyInfo` is consistent: the set `nodeIDs`
holds the IDs of `result.Nodes`, and none of them twice. -/
def NodesInv (st : List NUMANode × List Int) : Prop :=
  st.1.map NUMANode.ID = st.2 ∧ st.2.Nodup

/-- A file system with the device nodes `/dev/uio0` and `/dev/uio1` of two PCI
devices, the first on NUMA node 1 and the second on NUMA node 0. -/
def sampleFsTwoNuma : FileSystem where
  ReadFile := fun p =>
    if p = "/sys/devices/pci0000:3d/0000:3d:00.0/local_cpulist" then .ok "4-7\n"
    else if p = "/sys/devices/pci0000:3d/0000:3d:00.0/numa_node" then .ok "1\n"
    else if p = "/sys/devices/pci0000:3f/0000:3f:00.0/local_cpulist" then .ok "0-3\n"
    else if p = "/sys/devices/pci0000:3f/0000:3f:00.0/numa_node" then .ok "0\n"
    else .notExist
  ReadDir := fun _ => .error "no such file or directory"
  EvalSymlinks := fun p =>
    if p = "/sys/dev/char/243:0" then .ok "/sys/devices/pci0000:3d/0000:3d:00.0/uio/uio0"
    else if p = "/sys/dev/char/243:1" then .ok "/sys/devices/pci0000:3f/0000:3f:00.0/uio/uio1"
    else .ok p
  Glob := fun _ => []
  Stat := fun p =>
    if p = "/dev/uio0" then .ok { isDevice := true, isCharDevice := true, Dev := 5, Rdev := 62208 }
    else if p = "/dev/uio1" then
      .ok { isDevice := true, isCharDevice := true, Dev := 5, Rdev := 62209 }
    else .notExist

/-- The device path of the IOMMU group `g` under the virtual devices. -/
def vfioPath (g : String) : String := "/sys/devices/virtual/vfio/" ++ g

/-- The directory that lists the devices of the IOMMU group `g`. -/
def iommuGroupDir (mockRoot g : String) : String :=
  filepathJoin [mockRoot, "/sys/kernel/iommu_groups", g, "devices"]

/-- The hint of the first of the hint sets `hs` that holds the key `k`. -/
def firstHint (k : String) : List Hints → Option Hint
  | [] => none
  | h :: rest =>
    match GoMap.get h k with
    | some v => some v
    | none => firstHint k rest

/-- A file system with the IOMMU group 12, which holds two PCI devices on
different NUMA nodes (scenario E). -/
def sampleFsVfio : FileSystem where
  ReadFile := fun p =>
    if p = "/sys/devices/pci0000:3d/0000:3d:00.0/local_cpulist" then .ok "0-3\n"
    else if p = "/sys/devices/pci0000:3d/0000:3d:00.0/numa_node" then .ok "0\n"
    else if p = "/sys/devices/pci0000:3f/0000:3f:00.0/local_cpulist" then .ok "4-7\n"
    else if p = "/sys/devices/pci0000:3f/0000:3f:00.0/numa_node" then .ok "1\n"
    else .notExist
  ReadDir := fun p =>
    if p = "/sys/kernel/iommu_groups/12/devices" then .ok ["0000:3d:00.0", "0000:3f:00.0"]
    else .error "no such file or directory"
  EvalSymlinks := fun p =>
    if p = "/sys/kernel/iommu_groups/12/devices/0000:3d:00.0" then
      .ok "/sys/devices/pci0000:3d/0000:3d:00.0"
    else if p = "/sys/kernel/iommu_groups/12/devices/0000:3f:00.0" then
      .ok "/sys/devices/pci0000:3f/0000:3f:00.0"
    else .ok p
  Glob := fun _ => []
  Stat := fun _ => .notExist

/-- As `sampleFsVfio`, but the second entry of the group directory is a link
that does not resolve. -/
def sampleFsVfioBroken : FileSystem where
  ReadFile := sampleFsVfio.ReadFile
  ReadDir := sampleFsVfio.ReadDir
  EvalSymlinks := fun p =>
    if p = "/sys/kernel/iommu_groups/12/devices/0000:3f:00.0" then
      .error "no such file or directory"
    else sampleFsVfio.EvalSymlinks p
  Glob := fun _ => []
  Stat := fun _ => .notExist

/-- The hint of the first device of the sample group. -/
def sampleHint3d : Hint :=
  { Provider := "/sys/devices/pci0000:3d/0000:3d:00.0", CPUs := "0-3", NUMAs := "0",
    Sockets := "" }

/-- The hint of the second device of the sample group. -/
def sampleHint3f : Hint :=
  { Provider := "/sys/devices/pci0000:3f/0000:3f:00.0", CPUs := "4-7", NUMAs := "1",
    Sockets := "" }

/-- A file system with one PCI device directory whose `numa_node` reads `-1`
and whose `local_cpulist` exists but cannot be read. -/
def sampleFsCpulistUnreadable : FileSystem where
  ReadFile := fun p =>
    if p = "/sys/devices/pci0000:3d/0000:3d:00.0/numa_node" then .ok "-1\n"
    else if p = "/sys/devices/pci0000:3d/0000:3d:00.0/local_cpulist" then
      .error "permission denied"
    else .notExist
  ReadDir := fun _ => .error "no such file or directory"
  EvalSymlinks := fun p => .ok p
  Glob := fun _ => []
  Stat := fun _ => .notExist

/-- A file system with the aggregated block device `md0`, whose `slaves`
directory holds a link to the disk `sda` of the bus `pci0000:00`; the directory
of the bus gives the CPU list `0-3` and the NUMA value 0. -/
def sampleFsRaid : FileSystem where
  ReadFile := fun p =>
    if p = "/sys/devices/pci0000:00/local_cpulist" then .ok "0-3\n"
    else if p = "/sys/devices/pci0000:00/numa_node" then .ok "0\n"
    else .notExist
  ReadDir := fun _ => .error "no such file or directory"
  EvalSymlinks := fun p =>
    if p = "/sys/devices/virtual/block/md0/slaves/sda" then .ok "/sys/devices/pci0000:00/sda"
    else .ok p
  Glob := fun pattern =>
    if pattern = "/sys/devices/virtual/block/md0/slaves/*" then
      ["/sys/devices/virtual/block/md0/slaves/sda"]
    else []
  Stat := fun _ => .notExist

/-! ## Theorems -/

/-! ### Go maps -/

theorem Result.bind_eq_ok {α β : Type} {r : Result α} {f : α → Result β} {b : β} :
    r.bind f = .ok b ↔ ∃ a, r = .ok a ∧ f a = .ok b := by
  cases r <;> simp [Result.bind]

theorem GoMap.mem_of_get {V : Type} {m : GoMap V} {k : String} {v : V}
    (h : GoMap.get m k = some v) : (k, v) ∈ m := by
  induction m with
  | nil => simp [GoMap.get] at h
  | cons e rest ih =>
    obtain ⟨k', v'⟩ := e
    simp only [GoMap.get] at h
    split at h
    · rename_i hk
      subst hk
      simp at h
      simp [h]
    · exact List.mem_cons_of_mem _ (ih h)

theorem GoMap.get_of_mem {V : Type} {m : GoMap V} {k : String} {v : V}
    (hwf : GoMap.WF m) (h : (k, v) ∈ m) : GoMap.get m k = some v := by
  induction m with
  | nil => simp at h
  | cons e rest ih =>
    obtain ⟨k', v'⟩ := e
    simp only [GoMap.WF, GoMap.keys, List.map_cons, List.nodup_cons] at hwf
    simp only [GoMap.get]
    rcases List.mem_cons.1 h with heq | hmem
    · cases heq
      simp
    · have hne : k' ≠ k := by
        rintro rfl
        exact hwf.1 (List.mem_map_of_mem Prod.fst hmem)
      simp [hne, ih hwf.2 hmem]

theorem GoMap.get_eq_none_iff {V : Type} {m : GoMap V} {k : String} :
    GoMap.get m k = none ↔ k ∉ GoMap.keys m := by
  induction m with
  | nil => simp [GoMap.get, GoMap.keys]
  | cons e rest ih =>
    obtain ⟨k', v'⟩ := e
    simp only [GoMap.get, GoMap.keys, List.map_cons, List.mem_cons, not_or]
    by_cases hk : k' = k
    · simp [hk]
    · simp [hk, ih, GoMap.keys, Ne.symm hk]

theorem GoMap.get_set {V : Type} (m : GoMap V) (k k' : String) (v : V) :
    GoMap.get (GoMap.set m k v) k' = if k = k' then some v else GoMap.get m k' := by
  induction m with
  | nil => simp [GoMap.set, GoMap.get]
  | cons e rest ih =>
    obtain ⟨k0, v0⟩ := e
    simp only [GoMap.set]
    by_cases h0 : k0 = k
    · subst h0
      by_cases h1 : k0 = k' <;> simp [GoMap.get, h1]
    · by_cases h1 : k = k'
      · subst h1
        simp [GoMap.get, h0, ih]
      · by_cases h2 : k0 = k'
        · subst h2
          simp [GoMap.get, h0, h1]
        · simp [GoMap.get, h0, h1, h2, ih]

theorem GoMap.set_of_absent {V : Type} {m : GoMap V} {k : String} (v : V)
    (h : k ∉ GoMap.keys m) : GoMap.set m k v = m ++ [(k, v)] := by
  induction m with
  | nil => rfl
  | cons e rest ih =>
    obtain ⟨k0, v0⟩ := e
    simp only [GoMap.keys, List.map_cons, List.mem_cons, not_or] at h
    have h0 : k0 ≠ k := fun hh => h.1 hh.symm
    simp [GoMap.set, h0, ih h.2]

theorem GoMap.keys_set_of_present {V : Type} {m : GoMap V} {k : String} (v : V)
    (h : k ∈ GoMap.keys m) : GoMap.keys (GoMap.set m k v) = GoMap.keys m := by
  induction m with
  | nil => simp [GoMap.keys] at h
  | cons e rest ih =>
    obtain ⟨k0, v0⟩ := e
    by_cases h0 : k0 = k
    · simp [GoMap.set, GoMap.keys, h0]
    · have hr : k ∈ GoMap.keys rest := by
        simp only [GoMap.keys, List.map_cons, List.mem_cons] at h
        rcases h with h | h
        · exact absurd h.symm h0
        · exact h
      have := ih hr
      simp only [GoMap.keys] at this
      simp [GoMap.set, GoMap.keys, h0, this]

theorem GoMap.wf_set {V : Type} {m : GoMap V} (k : String) (v : V) (hwf : GoMap.WF m) :
    GoMap.WF (GoMap.set m k v) := by
  by_cases h : k ∈ GoMap.keys m
  · simpa [GoMap.WF, GoMap.keys_set_of_present v h] using hwf
  · rw [GoMap.set_of_absent v h]
    simp only [GoMap.WF, GoMap.keys, List.map_append, List.map_cons, List.map_nil]
    refine List.Nodup.append hwf (by simp) ?_
    simpa [GoMap.keys] using h

theorem GoMap.mem_set {V : Type} {m : GoMap V} {k : String} {v : V} {e : String × V}
    (h : e ∈ GoMap.set m k v) : e = (k, v) ∨ e ∈ m := by
  induction m with
  | nil => simp [GoMap.set] at h; simp [h]
  | cons e0 rest ih =>
    obtain ⟨k0, v0⟩ := e0
    simp only [GoMap.set] at h
    split at h
    · rcases List.mem_cons.1 h with heq | hmem
      · exact Or.inl heq
      · exact Or.inr (List.mem_cons_of_mem _ hmem)
    · rcases List.mem_cons.1 h with heq | hmem
      · exact Or.inr (heq ▸ List.mem_cons_self _ _)
      · rcases ih hmem with h1 | h1
        · exact Or.inl h1
        · exact Or.inr (List.mem_cons_of_mem _ h1)

/-! ### Reconciliation -/

theorem update_eq_ok {drvConfig m : driverConfig} {devID : String} {sec : IniSection}
    (h : update drvConfig devID sec = .ok m) :
    ∃ np ce de p, sec.KeyInt "NumProcesses" = .ok np ∧ sec.KeyInt "NumberCyInstances" = .ok ce ∧
      sec.KeyInt "NumberDcInstances" = .ok de ∧ readPinned sec = .ok p ∧
      reconcile drvConfig devID sec.Name np ce de p = .ok m := by
  unfold update at h
  split at h
  · simp at h
  · rename_i np hnp
    split at h
    · simp at h
    · rename_i ce hce
      split at h
      · simp at h
      · rename_i de hde
        obtain ⟨p, hp, hr⟩ := Result.bind_eq_ok.1 h
        exact ⟨np, ce, de, p, hnp, hce, hde, hp, hr⟩

theorem reconcile_eq_ok {drvConfig m : driverConfig} {devID name : String} {np ce de : Int}
    {p : Bool} (h : reconcile drvConfig devID name np ce de p = .ok m) :
    (drvConfig.get name = none ∧
        m = drvConfig.set name
          { endpoints := [{ id := devID, processes := np }], cryptoEngines := ce,
            compressionEngines := de, pinned := p }) ∨
    (∃ old, drvConfig.get name = some old ∧ old.pinned = p ∧
        (p = false → ∃ e0 rest, old.endpoints = e0 :: rest ∧ e0.processes = np) ∧
        old.cryptoEngines = ce ∧ old.compressionEngines = de ∧
        m = drvConfig.set name
          { old with endpoints := old.endpoints ++ [{ id := devID, processes := np }] }) := by
  unfold reconcile at h
  split at h
  · rename_i old hold
    right
    split at h
    · simp at h
    · rename_i hpin
      have hpin : old.pinned = p := by simpa using hpin
      obtain ⟨differs, hd, h2⟩ := Result.bind_eq_ok.1 h
      split at h2
      · simp at h2
      · rename_i hdf
        split at h2
        · simp at h2
        · rename_i heng
          have heng : old.cryptoEngines = ce ∧ old.compressionEngines = de := by
            constructor <;> by_contra hc <;> simp [hc] at heng
          refine ⟨old, hold, hpin, ?_, heng.1, heng.2, ?_⟩
          · intro hp
            subst hp
            simp only [Bool.false_eq_true, if_false] at hd
            split at hd
            · simp at hd
            · rename_i e0 rest he
              refine ⟨e0, rest, he, ?_⟩
              simp only [Result.ok.injEq] at hd
              subst hd
              simpa using hdf
          · simpa using h2.symm
  · rename_i hnone
    left
    exact ⟨hnone, by simpa using h.symm⟩

theorem update_unpinnedUniform {drvConfig m : driverConfig} {devID : String} {sec : IniSection}
    (h : update drvConfig devID sec = .ok m) (hinv : UnpinnedUniform drvConfig) :
    UnpinnedUniform m := by
  obtain ⟨np, ce, de, p, -, -, -, -, hr⟩ := update_eq_ok h
  rcases reconcile_eq_ok hr with ⟨-, hm⟩ | ⟨old, hold, hpin, hproc, -, -, hm⟩
  · subst hm
    intro e he hp
    rcases GoMap.mem_set he with heq | hmem
    · subst heq
      exact ⟨_, [], rfl, by simp⟩
    · exact hinv e hmem hp
  · subst hm
    intro e he hp
    rcases GoMap.mem_set he with heq | hmem
    · subst heq
      have hp : p = false := by simpa [hpin] using hp
      obtain ⟨e0, rest, he0, hnp⟩ := hproc hp
      obtain ⟨e0', rest', he0', hall⟩ :=
        hinv (sec.Name, old) (GoMap.mem_of_get hold) (by simpa [hpin] using hp)
      have : e0' = e0 := by
        rw [he0] at he0'
        cases he0'
        rfl
      subst this
      refine ⟨e0', rest ++ [{ id := devID, processes := np }], by simp [he0], ?_⟩
      intro x hx
      simp only [List.mem_append, List.mem_singleton] at hx
      rcases hx with hx | hx
      · exact hall x hx
      · subst hx
        exact hnp.symm
    · exact hinv e hmem hp

theorem update_wf {drvConfig m : driverConfig} {devID : String} {sec : IniSection}
    (h : update drvConfig devID sec = .ok m) (hwf : GoMap.WF drvConfig) : GoMap.WF m := by
  obtain ⟨np, ce, de, p, -, -, -, -, hr⟩ := update_eq_ok h
  rcases reconcile_eq_ok hr with ⟨-, hm⟩ | ⟨old, -, -, -, -, -, hm⟩ <;> subst hm <;>
    exact GoMap.wf_set _ _ hwf

theorem updateAll_unpinnedUniform {calls : List (String × IniSection)} :
    ∀ {drvConfig m : driverConfig}, updateAll calls drvConfig = .ok m →
      UnpinnedUniform drvConfig → UnpinnedUniform m := by
  induction calls with
  | nil =>
    intro drvConfig m h hinv
    simp only [updateAll, Result.ok.injEq] at h
    exact h ▸ hinv
  | cons c rest ih =>
    intro drvConfig m h hinv
    obtain ⟨devID, sec⟩ := c
    obtain ⟨m1, h1, h2⟩ := Result.bind_eq_ok.1 h
    exact ih h2 (update_unpinnedUniform h1 hinv)

theorem parseSections_unpinnedUniform {devID : String} {secs : List IniSection} :
    ∀ {drvConfig m : driverConfig}, parseSections devID secs drvConfig = .ok m →
      UnpinnedUniform drvConfig → UnpinnedUniform m := by
  induction secs with
  | nil =>
    intro drvConfig m h hinv
    simp only [parseSections, Result.ok.injEq] at h
    exact h ▸ hinv
  | cons sec rest ih =>
    intro drvConfig m h hinv
    simp only [parseSections] at h
    split at h
    · exact ih h hinv
    · obtain ⟨m1, h1, h2⟩ := Result.bind_eq_ok.1 h
      exact ih h2 (update_unpinnedUniform h1 hinv)

theorem parseDevices_eq_ok {iniLoad : String → Except String (List IniSection)}
    {configDir : String} {devices : List device} :
    ∀ {n devNum : Int} {drvConfig m : driverConfig},
      parseDevices iniLoad configDir devices (n, drvConfig) = .ok (devNum, m) →
      devNum = n + devices.length ∧ (UnpinnedUniform drvConfig → UnpinnedUniform m) := by
  induction devices with
  | nil =>
    intro n devNum drvConfig m h
    simp only [parseDevices, Result.ok.injEq, Prod.mk.injEq] at h
    obtain ⟨rfl, rfl⟩ := h
    simp
  | cons dev rest ih =>
    intro n devNum drvConfig m h
    simp only [parseDevices] at h
    split at h
    · simp at h
    · obtain ⟨m1, h1, h2⟩ := Result.bind_eq_ok.1 h
      obtain ⟨hn, hi⟩ := ih h2
      refine ⟨?_, fun hinv => hi (parseSections_unpinnedUniform h1 hinv)⟩
      rw [hn, List.length_cons]
      push_cast
      ring

theorem checkPinned_eq_ok {devNum : Int} {l : List (String × Section)}
    (h : checkPinned devNum l = .ok ()) :
    ∀ e ∈ l, e.2.pinned = true → (e.2.endpoints.length : Int) = devNum := by
  induction l with
  | nil => simp
  | cons e rest ih =>
    obtain ⟨sname, svalue⟩ := e
    simp only [checkPinned] at h
    split at h
    · simp at h
    · rename_i hc
      intro e he hp
      rcases List.mem_cons.1 he with heq | hmem
      · subst heq
        by_contra hne
        exact hc ⟨hp, hne⟩
      · exact ih h e hmem hp

theorem checkPinned_of_offender {devNum : Int} {l : List (String × Section)}
    (h : ∃ e ∈ l, e.2.pinned = true ∧ (e.2.endpoints.length : Int) ≠ devNum) :
    ∃ e ∈ l, e.2.pinned = true ∧ (e.2.endpoints.length : Int) ≠ devNum ∧
      checkPinned devNum l = .error (mustBeDefinedForAll e.1) := by
  induction l with
  | nil => simp at h
  | cons e rest ih =>
    obtain ⟨sname, svalue⟩ := e
    by_cases hc : svalue.pinned = true ∧ (svalue.endpoints.length : Int) ≠ devNum
    · exact ⟨(sname, svalue), List.mem_cons_self _ _, hc.1, hc.2, by simp [checkPinned, hc]⟩
    · obtain ⟨e, he, hp, hn⟩ := h
      have hmem : e ∈ rest := by
        rcases List.mem_cons.1 he with heq | hmem
        · subst heq
          exact absurd ⟨hp, hn⟩ hc
        · exact hmem
      obtain ⟨e', he', hp', hn', hr⟩ := ih ⟨e, hmem, hp, hn⟩
      refine ⟨e', List.mem_cons_of_mem _ he', hp', hn', ?_⟩
      simp only [checkPinned]
      rw [if_neg hc]
      exact hr

theorem RangeOrder.valid_inOrder : RangeOrder.Valid RangeOrder.inOrder :=
  fun _ l => List.Perm.refl l

theorem RangeOrder.valid_backwards : RangeOrder.Valid RangeOrder.backwards :=
  fun _ l => List.reverse_perm l

/-- C1: when `parseConfigs` succeeds every pinned section of the returned map
has one endpoint per device; and when the device loop succeeds but some pinned
section has another number of endpoints, `parseConfigs` returns no map but the
error whose message is `Section [<name>] must be defined for all QAT devices
since it contains LimitDevAccess=1` with the name of such a section. -/
theorem parseConfigs_pinned_complete (ord : RangeOrder) (hord : ord.Valid)
    (iniLoad : String → Except String (List IniSection)) (configDir : String)
    (devices : List device) :
    (∀ m, parseConfigs ord iniLoad configDir devices = .ok m →
      ∀ e ∈ m, e.2.pinned = true → e.2.endpoints.length = devices.length) ∧
    (∀ devNum m, parseDevices iniLoad configDir devices (0, []) = .ok (devNum, m) →
      (∃ e ∈ m, e.2.pinned = true ∧ e.2.endpoints.length ≠ devices.length) →
      ∃ e ∈ m, e.2.pinned = true ∧ e.2.endpoints.length ≠ devices.length ∧
        parseConfigs ord iniLoad configDir devices =
          .error ("Section [" ++ e.1 ++
            "] must be defined for all QAT devices since it contains LimitDevAccess=1")) := by
  constructor
  · intro m h e he hp
    obtain ⟨st, hst, h2⟩ := Result.bind_eq_ok.1 h
    obtain ⟨devNum, m1⟩ := st
    obtain ⟨u, hu, h3⟩ := Result.bind_eq_ok.1 h2
    simp only [Result.ok.injEq] at h3
    subst h3
    obtain ⟨hn, -⟩ := parseDevices_eq_ok hst
    have := checkPinned_eq_ok hu e ((hord _ _).mem_iff.2 he) hp
    rw [hn] at this
    simpa using this
  · intro devNum m hst hoff
    obtain ⟨hn, -⟩ := parseDevices_eq_ok hst
    have hn : devNum = (devices.length : Int) := by simpa using hn
    have hoff2 : ∃ e ∈ ord _ m, e.2.pinned = true ∧ (e.2.endpoints.length : Int) ≠ devNum := by
      obtain ⟨e, he, hp, hl⟩ := hoff
      refine ⟨e, (hord _ _).mem_iff.2 he, hp, ?_⟩
      rw [hn]
      exact_mod_cast hl
    obtain ⟨e, he, hp, hl, hr⟩ := checkPinned_of_offender hoff2
    refine ⟨e, (hord _ _).mem_iff.1 he, hp, ?_, ?_⟩
    · rw [hn] at hl
      exact_mod_cast hl
    · have hmsg : mustBeDefinedForAll e.1 = "Section [" ++ e.1 ++
          "] must be defined for all QAT devices since it contains LimitDevAccess=1" := rfl
      rw [← hmsg]
      simp [parseConfigs, hst, Result.bind, hr]

/-- Witness of C1: with two devices and `dc1` pinned on both, reconciliation
succeeds with two endpoints; pinned on the first device only, the device loop
ends with one endpoint for `dc1` and `parseConfigs` fails with the error naming
`dc1`. -/
theorem parseConfigs_pinned_complete_witness :
    RangeOrder.Valid RangeOrder.backwards ∧
    parseConfigs RangeOrder.backwards sampleLoadPinned "/etc" sampleDevices =
      .ok (sampleDc1Both true) ∧
    parseDevices sampleLoadPartial "/etc" sampleDevices (0, []) =
      .ok (2, [("dc1", { endpoints := [⟨"dev0", 2⟩], cryptoEngines := 0,
                         compressionEngines := 1, pinned := true })]) ∧
    parseConfigs RangeOrder.backwards sampleLoadPartial "/etc" sampleDevices =
      .error "Section [dc1] must be defined for all QAT devices since it contains LimitDevAccess=1" ∧
    ∃ e ∈ ([("dc1", { endpoints := [⟨"dev0", 2⟩], cryptoEngines := 0,
                      compressionEngines := 1, pinned := true })] : driverConfig),
      e.2.pinned = true ∧ e.2.endpoints.length ≠ sampleDevices.length ∧
      parseConfigs RangeOrder.backwards sampleLoadPartial "/etc" sampleDevices =
        .error ("Section [" ++ e.1 ++
          "] must be defined for all QAT devices since it contains LimitDevAccess=1") :=
  ⟨RangeOrder.valid_backwards, by decide, by decide, by decide,
    (parseConfigs_pinned_complete RangeOrder.backwards RangeOrder.valid_backwards
      sampleLoadPartial "/etc" sampleDevices).2 2 _ (by decide)
      ⟨_, List.mem_singleton_self _, rfl, by decide⟩⟩

/-- C2: in every map built from the empty one by successful `update` calls, and
in every map `parseConfigs` returns, each unpinned section has a first endpoint
and all its endpoints carry the process count of that first endpoint. -/
theorem unpinned_sections_uniform :
    (∀ (calls : List (String × IniSection)) (m : driverConfig),
      updateAll calls [] = .ok m → UnpinnedUniform m) ∧
    (∀ (ord : RangeOrder) (iniLoad : String → Except String (List IniSection))
      (configDir : String) (devices : List device) (m : driverConfig),
      parseConfigs ord iniLoad configDir devices = .ok m → UnpinnedUniform m) := by
  have h0 : UnpinnedUniform [] := by
    intro e he
    simp at he
  constructor
  · intro calls m h
    exact updateAll_unpinnedUniform h h0
  · intro ord iniLoad configDir devices m h
    obtain ⟨st, hst, h2⟩ := Result.bind_eq_ok.1 h
    obtain ⟨devNum, m1⟩ := st
    obtain ⟨u, hu, h3⟩ := Result.bind_eq_ok.1 h2
    simp only [Result.ok.injEq] at h3
    subst h3
    exact (parseDevices_eq_ok hst).2 h0

/-- Witness of C2: the two definitions of `dc1` of scenario B give one unpinned
section with two endpoints of two processes each. -/
theorem unpinned_sections_uniform_witness :
    updateAll [("dev0", sampleDc1), ("dev1", sampleDc1)] [] =
      .ok (sampleDc1Both false) ∧
    UnpinnedUniform (sampleDc1Both false) :=
  ⟨by decide, unpinned_sections_uniform.1 [("dev0", sampleDc1), ("dev1", sampleDc1)] _ (by decide)⟩

theorem readPinned_eq_ok {sec : IniSection}
    (h : ∀ e, sec.GetKeyBool "LimitDevAccess" ≠ some (.error e)) :
    readPinned sec = .ok (newPinFlag sec) := by
  unfold readPinned newPinFlag
  cases hg : sec.GetKeyBool "LimitDevAccess" with
  | none => rfl
  | some r =>
    cases r with
    | error e => exact absurd hg (h e)
    | ok b => cases b <;> rfl

theorem update_eq_reconcile {drvConfig : driverConfig} {devID : String} {sec : IniSection}
    {np ce de : Int} (h1 : sec.KeyInt "NumProcesses" = .ok np)
    (h2 : sec.KeyInt "NumberCyInstances" = .ok ce) (h3 : sec.KeyInt "NumberDcInstances" = .ok de)
    (h4 : ∀ e, sec.GetKeyBool "LimitDevAccess" ≠ some (.error e)) :
    update drvConfig devID sec = reconcile drvConfig devID sec.Name np ce de (newPinFlag sec) := by
  simp [update, h1, h2, h3, readPinned_eq_ok h4, Result.bind]

theorem reconcile_of_stored {drvConfig : driverConfig} {devID name : String} {np ce de : Int}
    {p : Bool} {old : Section} {e0 : endpoint} {rest : List endpoint}
    (hget : drvConfig.get name = some old) (hep : old.endpoints = e0 :: rest) :
    reconcile drvConfig devID name np ce de p =
      if old.pinned ≠ p then
        .error ("Value of LimitDevAccess must be consistent across all devices in " ++ name)
      else if p = false ∧ e0.processes ≠ np then
        .error ("For not pinned section \"" ++ name ++ "\" NumProcesses must be equal for all devices")
      else if old.cryptoEngines ≠ ce ∨ old.compressionEngines ≠ de then
        .error ("NumberCyInstances and NumberDcInstances must be consistent across all devices in "
          ++ name)
      else
        .ok (drvConfig.set name
          { old with endpoints := old.endpoints ++ [{ id := devID, processes := np }] }) := by
  unfold reconcile
  simp only [hget, hep]
  by_cases hp : old.pinned = p
  · cases p <;> by_cases hproc : e0.processes = np <;> simp [hp, hproc, Result.bind]
  · simp [hp]

/-- C3: on a map whose stored sections all have an endpoint, `update` returns an
error exactly when a required integer key cannot be read, or `LimitDevAccess` is
present but not a boolean, or the name is stored already and the pin flag, the
process count of an unpinned section, or an engine count differs; it never
panics; and a definition whose pin flag differs from the stored one is rejected
with the message that ends in the section name. -/
theorem update_error_iff (drvConfig : driverConfig) (devID : String) (sec : IniSection)
    (hne : ∀ e ∈ drvConfig, e.2.endpoints ≠ []) :
    ((∃ msg, update drvConfig devID sec = .error msg) ↔
      ((∃ e, sec.KeyInt "NumProcesses" = .error e) ∨
       (∃ e, sec.KeyInt "NumberCyInstances" = .error e) ∨
       (∃ e, sec.KeyInt "NumberDcInstances" = .error e) ∨
       (∃ e, sec.GetKeyBool "LimitDevAccess" = some (.error e)) ∨
       (∃ np ce de old, sec.KeyInt "NumProcesses" = .ok np ∧
          sec.KeyInt "NumberCyInstances" = .ok ce ∧ sec.KeyInt "NumberDcInstances" = .ok de ∧
          drvConfig.get sec.Name = some old ∧
          (old.pinned ≠ newPinFlag sec ∨
           (old.pinned = false ∧ ∃ e0, old.endpoints.head? = some e0 ∧ e0.processes ≠ np) ∨
           old.cryptoEngines ≠ ce ∨ old.compressionEngines ≠ de)))) ∧
    update drvConfig devID sec ≠ .panic ∧
    (∀ np ce de old, sec.KeyInt "NumProcesses" = .ok np →
      sec.KeyInt "NumberCyInstances" = .ok ce → sec.KeyInt "NumberDcInstances" = .ok de →
      (∀ e, sec.GetKeyBool "LimitDevAccess" ≠ some (.error e)) →
      drvConfig.get sec.Name = some old → old.pinned ≠ newPinFlag sec →
      update drvConfig devID sec =
        .error ("Value of LimitDevAccess must be consistent across all devices in " ++ sec.Name)) := by
  cases h1 : sec.KeyInt "NumProcesses" with
  | error e1 => simp [update, h1]
  | ok np =>
  cases h2 : sec.KeyInt "NumberCyInstances" with
  | error e2 => simp [update, h1, h2]
  | ok ce =>
  cases h3 : sec.KeyInt "NumberDcInstances" with
  | error e3 => simp [update, h1, h2, h3]
  | ok de =>
  by_cases h4 : ∃ e, sec.GetKeyBool "LimitDevAccess" = some (.error e)
  · obtain ⟨e4, h4⟩ := h4
    have hu : update drvConfig devID sec = .error (cantParse "LimitDevAccess" sec.Name e4) := by
      simp [update, h1, h2, h3, readPinned, h4, Result.bind]
    refine ⟨⟨fun _ => Or.inr (Or.inr (Or.inr (Or.inl ⟨e4, h4⟩))), fun _ => ⟨_, hu⟩⟩, ?_, ?_⟩
    · simp [hu]
    · intro _ _ _ _ _ _ _ hno
      exact absurd h4 (hno e4)
  · have h4' : ∀ e, sec.GetKeyBool "LimitDevAccess" ≠ some (.error e) := fun e he => h4 ⟨e, he⟩
    rw [update_eq_reconcile h1 h2 h3 h4']
    cases hget : drvConfig.get sec.Name with
    | none =>
      have hr : ∀ p, reconcile drvConfig devID sec.Name np ce de p =
          .ok (drvConfig.set sec.Name
            { endpoints := [{ id := devID, processes := np }], cryptoEngines := ce,
              compressionEngines := de, pinned := p }) := by
        intro p
        simp [reconcile, hget]
      rw [hr]
      refine ⟨⟨fun h => by simp at h, ?_⟩, by simp, ?_⟩
      · rintro (⟨e, he⟩ | ⟨e, he⟩ | ⟨e, he⟩ | h | ⟨_, _, _, _, _, _, _, ho, _⟩)
        · simp at he
        · simp at he
        · simp at he
        · exact absurd h h4
        · simp at ho
      · intro _ _ _ _ _ _ _ _ ho
        simp at ho
    | some old =>
      obtain ⟨e0, rest, hep⟩ : ∃ e0 rest, old.endpoints = e0 :: rest := by
        have := hne _ (GoMap.mem_of_get hget)
        cases hh : old.endpoints with
        | nil => exact absurd hh this
        | cons e0 rest => exact ⟨e0, rest, rfl⟩
      rw [reconcile_of_stored hget hep]
      refine ⟨⟨?_, ?_⟩, ?_, ?_⟩
      · intro herr
        refine Or.inr (Or.inr (Or.inr (Or.inr ⟨np, ce, de, old, rfl, rfl, rfl, rfl, ?_⟩)))
        by_cases c1 : old.pinned ≠ newPinFlag sec
        · exact Or.inl c1
        · by_cases c2 : newPinFlag sec = false ∧ e0.processes ≠ np
          · have c1 : old.pinned = newPinFlag sec := by simpa using c1
            exact Or.inr (Or.inl ⟨c1.trans c2.1, e0, by simp [hep], c2.2⟩)
          · by_cases c3 : old.cryptoEngines ≠ ce ∨ old.compressionEngines ≠ de
            · exact Or.inr (Or.inr c3)
            · rw [if_neg c1, if_neg c2, if_neg c3] at herr
              simp at herr
      · rintro (⟨e, he⟩ | ⟨e, he⟩ | ⟨e, he⟩ | h | ⟨np', ce', de', old', hnp, hce, hde, ho, hc⟩)
        · simp at he
        · simp at he
        · simp at he
        · exact absurd h h4
        · simp only [Except.ok.injEq] at hnp hce hde
          simp only [Option.some.injEq] at ho
          subst hnp hce hde ho
          by_cases c1 : old.pinned ≠ newPinFlag sec
          · rw [if_pos c1]
            exact ⟨_, rfl⟩
          · rw [if_neg c1]
            have c1 : old.pinned = newPinFlag sec := by simpa using c1
            by_cases c2 : newPinFlag sec = false ∧ e0.processes ≠ np
            · rw [if_pos c2]
              exact ⟨_, rfl⟩
            · rw [if_neg c2]
              by_cases c3 : old.cryptoEngines ≠ ce ∨ old.compressionEngines ≠ de
              · rw [if_pos c3]
                exact ⟨_, rfl⟩
              · exfalso
                rcases hc with hc | ⟨hc, e0', he0', hne'⟩ | hc
                · exact hc c1
                · simp only [hep, List.head?_cons, Option.some.injEq] at he0'
                  subst he0'
                  exact c2 ⟨c1 ▸ hc, hne'⟩
                · exact c3 hc
      · split_ifs <;> simp
      · intro _ _ _ old' _ _ _ _ ho hpin
        simp only [Option.some.injEq] at ho
        subst ho
        rw [if_pos hpin]

/-- Witness of C3 (scenario C): `dc1` is stored unpinned and a second
device brings `LimitDevAccess = true`; the call is rejected with the message
about `LimitDevAccess` ending in `dc1`. -/
theorem update_error_iff_witness :
    (∀ e ∈ ([("dc1", { endpoints := [⟨"dev0", 2⟩], cryptoEngines := 0,
                        compressionEngines := 1, pinned := false })] : driverConfig),
      e.2.endpoints ≠ []) ∧
    update [("dc1", { endpoints := [⟨"dev0", 2⟩], cryptoEngines := 0,
                      compressionEngines := 1, pinned := false })] "dev1" sampleDc1Pinned =
      .error "Value of LimitDevAccess must be consistent across all devices in dc1" :=
  ⟨by decide,
   (update_error_iff _ "dev1" sampleDc1Pinned (by decide)).2.2 2 0 1 _ rfl rfl rfl
     (by intro e h; simp [sampleDc1Pinned, IniSection.ofValues] at h) rfl (by decide)⟩

/-! ### Merging of hint sets -/

theorem GoMap.get_eq_some_iff {V : Type} {m : GoMap V} (hwf : GoMap.WF m) {k : String} {v : V} :
    GoMap.get m k = some v ↔ (k, v) ∈ m :=
  ⟨GoMap.mem_of_get, GoMap.get_of_mem hwf⟩

theorem GoMap.wf_of_perm {V : Type} {m m' : GoMap V} (hp : m.Perm m') (hwf : GoMap.WF m') :
    GoMap.WF m :=
  (hp.map Prod.fst).nodup_iff.2 hwf

theorem GoMap.get_of_perm {V : Type} {m m' : GoMap V} (hp : m.Perm m') (hwf : GoMap.WF m')
    (k : String) : GoMap.get m k = GoMap.get m' k := by
  have hwf1 : GoMap.WF m := GoMap.wf_of_perm hp hwf
  cases h : GoMap.get m' k with
  | none =>
    rw [GoMap.get_eq_none_iff] at h ⊢
    intro hk
    exact h ((hp.map Prod.fst).mem_iff.1 hk)
  | some v =>
    exact GoMap.get_of_mem hwf1 (hp.mem_iff.2 (GoMap.mem_of_get h))

theorem GoMap.mem_keys_iff {V : Type} {m : GoMap V} {k : String} :
    k ∈ GoMap.keys m ↔ ∃ v, GoMap.get m k = some v := by
  constructor
  · intro hk
    cases h : GoMap.get m k with
    | none => exact absurd hk (GoMap.get_eq_none_iff.1 h)
    | some v => exact ⟨v, rfl⟩
  · rintro ⟨v, hv⟩
    by_contra hk
    rw [GoMap.get_eq_none_iff.2 hk] at hv
    cases hv

theorem GoMap.perm_of_get_eq {V : Type} {m m' : GoMap V} (hwf : GoMap.WF m) (hwf' : GoMap.WF m')
    (h : ∀ k, GoMap.get m k = GoMap.get m' k) : m.Perm m' := by
  refine (List.perm_ext_iff_of_nodup (List.Nodup.of_map _ hwf) (List.Nodup.of_map _ hwf')).2 ?_
  rintro ⟨k, v⟩
  rw [← GoMap.get_eq_some_iff hwf, ← GoMap.get_eq_some_iff hwf', h]

theorem mergeLoop_get (l : List (String × Hint)) :
    ∀ (res : Hints) (k : String),
      GoMap.get (mergeLoop l res) k =
        match GoMap.get res k with
        | some h => some h
        | none => GoMap.get l k := by
  induction l with
  | nil =>
    intro res k
    simp only [mergeLoop, GoMap.get]
    cases GoMap.get res k <;> rfl
  | cons e rest ih =>
    intro res k
    obtain ⟨k0, v0⟩ := e
    simp only [mergeLoop]
    cases h0 : GoMap.get res k0 with
    | some h =>
      simp only [ih, GoMap.get]
      by_cases hk : k0 = k
      · subst hk
        simp [h0]
      · simp [hk]
    | none =>
      simp only [ih, GoMap.get, GoMap.get_set]
      by_cases hk : k0 = k
      · subst hk
        simp [h0]
      · simp [hk]

theorem mergeLoop_wf (l : List (String × Hint)) :
    ∀ (res : Hints), GoMap.WF res → GoMap.WF (mergeLoop l res) := by
  induction l with
  | nil => exact fun res h => h
  | cons e rest ih =>
    intro res h
    obtain ⟨k0, v0⟩ := e
    simp only [mergeLoop]
    cases GoMap.get res k0 with
    | some _ => exact ih res h
    | none => exact ih _ (GoMap.wf_set _ _ h)

theorem mergeTopologyHints_get (ord : RangeOrder) (hord : ord.Valid) (org : Option Hints)
    (hints : Hints) (hwf : GoMap.WF hints) (k : String) :
    GoMap.get (MergeTopologyHints ord org hints) k =
      match GoMap.get (orgMap org) k with
      | some h => some h
      | none => GoMap.get hints k := by
  have : MergeTopologyHints ord org hints = mergeLoop (ord _ hints) (orgMap org) := by
    cases org <;> rfl
  rw [this, mergeLoop_get, GoMap.get_of_perm (hord _ hints) hwf]

theorem mergeTopologyHints_wf (ord : RangeOrder) (org : Option Hints) (hints : Hints)
    (hwf : GoMap.WF (orgMap org)) : GoMap.WF (MergeTopologyHints ord org hints) := by
  have : MergeTopologyHints ord org hints = mergeLoop (ord _ hints) (orgMap org) := by
    cases org <;> rfl
  rw [this]
  exact mergeLoop_wf _ _ hwf

/-- C6: the merged set holds exactly the keys of `org` and of `hints`; a key of
`org` keeps the hint of `org`, a key of `hints` alone gets the hint of `hints`;
merging `{p: h2}` into `{p: h1}` gives `{p: h1}`; a nil `org` behaves as the
empty set. -/
theorem mergeTopologyHints_first_writer_wins (ord : RangeOrder) (hord : ord.Valid)
    (org : Option Hints) (hints : Hints) (hwf : GoMap.WF hints) :
    (∀ k, k ∈ GoMap.keys (MergeTopologyHints ord org hints) ↔
      k ∈ GoMap.keys (orgMap org) ∨ k ∈ GoMap.keys hints) ∧
    (∀ k h, GoMap.get (orgMap org) k = some h →
      GoMap.get (MergeTopologyHints ord org hints) k = some h) ∧
    (∀ k, GoMap.get (orgMap org) k = none →
      GoMap.get (MergeTopologyHints ord org hints) k = GoMap.get hints k) ∧
    (∀ p h1 h2, MergeTopologyHints ord (some [(p, h1)]) [(p, h2)] = [(p, h1)]) ∧
    MergeTopologyHints ord none hints = MergeTopologyHints ord (some []) hints := by
  refine ⟨?_, ?_, ?_, ?_, rfl⟩
  · intro k
    simp only [GoMap.mem_keys_iff, mergeTopologyHints_get ord hord org hints hwf]
    cases h : GoMap.get (orgMap org) k with
    | none => simp
    | some v => simp
  · intro k h hk
    rw [mergeTopologyHints_get ord hord org hints hwf, hk]
  · intro k hk
    rw [mergeTopologyHints_get ord hord org hints hwf, hk]
  · intro p h1 h2
    have : ord _ [(p, h2)] = [(p, h2)] := List.perm_singleton.1 (hord _ _)
    simp [MergeTopologyHints, this, mergeLoop, GoMap.get]

/-- Witness of C6: merging a second hint for the provider of the first one and a
hint for a new provider keeps the first hint and adds the new provider. -/
theorem mergeTopologyHints_first_writer_wins_witness :
    RangeOrder.Valid RangeOrder.backwards ∧
    GoMap.WF ([("/sys/devices/a", sampleHint2), ("/sys/devices/b", sampleHint3)] : Hints) ∧
    MergeTopologyHints RangeOrder.backwards (some [("/sys/devices/a", sampleHint1)])
      [("/sys/devices/a", sampleHint2), ("/sys/devices/b", sampleHint3)] =
      [("/sys/devices/a", sampleHint1), ("/sys/devices/b", sampleHint3)] ∧
    GoMap.get (MergeTopologyHints RangeOrder.backwards (some [("/sys/devices/a", sampleHint1)])
      [("/sys/devices/a", sampleHint2), ("/sys/devices/b", sampleHint3)]) "/sys/devices/a" =
      some sampleHint1 :=
  ⟨RangeOrder.valid_backwards, by decide, by decide,
    (mergeTopologyHints_first_writer_wins RangeOrder.backwards RangeOrder.valid_backwards
      (some [("/sys/devices/a", sampleHint1)])
      [("/sys/devices/a", sampleHint2), ("/sys/devices/b", sampleHint3)] (by decide)).2.1
      "/sys/devices/a" sampleHint1 (by decide)⟩

/-- C10: merging `A` again into the merge of `A` and `B` changes nothing: the
result maps every key as the merge of `A` and `B` does and has the same
entries. -/
theorem mergeTopologyHints_idempotent (ord : RangeOrder) (hord : ord.Valid)
    (A : Option Hints) (B : Hints) (hA : GoMap.WF (orgMap A)) (hB : GoMap.WF B) :
    (∀ k, GoMap.get (MergeTopologyHints ord A (MergeTopologyHints ord A B)) k =
      GoMap.get (MergeTopologyHints ord A B) k) ∧
    (MergeTopologyHints ord A (MergeTopologyHints ord A B)).Perm (MergeTopologyHints ord A B) := by
  have hAB : GoMap.WF (MergeTopologyHints ord A B) := mergeTopologyHints_wf ord A B hA
  have hget : ∀ k, GoMap.get (MergeTopologyHints ord A (MergeTopologyHints ord A B)) k =
      GoMap.get (MergeTopologyHints ord A B) k := by
    intro k
    rw [mergeTopologyHints_get ord hord A _ hAB, mergeTopologyHints_get ord hord A B hB]
    cases GoMap.get (orgMap A) k <;> rfl
  exact ⟨hget, GoMap.perm_of_get_eq (mergeTopologyHints_wf ord A _ hA) hAB hget⟩

/-- Witness of C10 on two hint sets that share a provider. -/
theorem mergeTopologyHints_idempotent_witness :
    RangeOrder.Valid RangeOrder.backwards ∧
    GoMap.WF (orgMap (some [("/sys/devices/a", sampleHint1)])) ∧
    GoMap.WF ([("/sys/devices/a", sampleHint2), ("/sys/devices/b", sampleHint3)] : Hints) ∧
    MergeTopologyHints RangeOrder.backwards (some [("/sys/devices/a", sampleHint1)])
      (MergeTopologyHints RangeOrder.backwards (some [("/sys/devices/a", sampleHint1)])
        [("/sys/devices/a", sampleHint2), ("/sys/devices/b", sampleHint3)]) =
      [("/sys/devices/a", sampleHint1), ("/sys/devices/b", sampleHint3)] ∧
    (MergeTopologyHints RangeOrder.backwards (some [("/sys/devices/a", sampleHint1)])
      (MergeTopologyHints RangeOrder.backwards (some [("/sys/devices/a", sampleHint1)])
        [("/sys/devices/a", sampleHint2), ("/sys/devices/b", sampleHint3)])).Perm
      (MergeTopologyHints RangeOrder.backwards (some [("/sys/devices/a", sampleHint1)])
        [("/sys/devices/a", sampleHint2), ("/sys/devices/b", sampleHint3)]) :=
  ⟨RangeOrder.valid_backwards, by decide, by decide, by decide,
    (mergeTopologyHints_idempotent RangeOrder.backwards RangeOrder.valid_backwards
      (some [("/sys/devices/a", sampleHint1)])
      [("/sys/devices/a", sampleHint2), ("/sys/devices/b", sampleHint3)]
      (by decide) (by decide)).2⟩

/-! ### Topology hints of one directory -/

theorem perm_pair_cases {α : Type} {l : List α} {a b : α} (h : l.Perm [a, b]) :
    l = [a, b] ∨ l = [b, a] := by
  classical
  have hlen := h.length_eq
  match l, hlen with
  | [x, y], _ =>
    have hx : x ∈ [a, b] := h.subset (List.mem_cons_self _ _)
    simp only [List.mem_cons, List.mem_singleton, List.not_mem_nil, or_false] at hx
    rcases hx with rfl | rfl
    · have := List.perm_singleton.1 (List.Perm.cons_inv h)
      exact Or.inl (by rw [this])
    · have h2 : [x, y].Perm [x, a] := h.trans (List.Perm.swap _ _ _)
      have := List.perm_singleton.1 (List.Perm.cons_inv h2)
      exact Or.inr (by rw [this])

theorem readFilesInDirectory_hintFileMap (fs : FileSystem) (ord : RangeOrder) (hord : ord.Valid)
    (sysFSPath content : String) (hint : Hint)
    (hnuma : fs.ReadFile (filepathJoin [sysFSPath, "numa_node"]) = .ok content)
    (hcpu : ∀ msg, fs.ReadFile (filepathJoin [sysFSPath, "local_cpulist"]) ≠ .error msg) :
    readFilesInDirectory fs sysFSPath (ord _ hintFileMap) hint =
      .ok { hint with
            CPUs := (match fs.ReadFile (filepathJoin [sysFSPath, "local_cpulist"]) with
              | .ok b => stringsTrimSpace b
              | _ => hint.CPUs)
            NUMAs := stringsTrimSpace content } := by
  rcases perm_pair_cases (hord _ hintFileMap) with h | h <;> rw [h] <;>
    simp only [readFilesInDirectory, hnuma] <;>
    cases hc : fs.ReadFile (filepathJoin [sysFSPath, "local_cpulist"]) with
    | ok b => rfl
    | notExist => rfl
    | error msg => exact absurd hc (hcpu msg)

/-- C7, amended: in a directory whose `numa_node` reads `-1` after trimming and
whose `local_cpulist` can be read or is absent, `getTopologyHint` returns, with
any budget, the hint with empty NUMAs and Sockets whose CPUs is the trimmed
`local_cpulist` (empty when absent); with `local_cpulist` absent the hint is
empty and the upward walk goes on to the parent directory without recording
this level. -/
theorem getTopologyHint_numa_minus_one (fs : FileSystem) (ord : RangeOrder) (hord : ord.Valid)
    (mockRoot sysFSPath content : String) (fuel : Nat)
    (hnuma : fs.ReadFile (filepathJoin [sysFSPath, "numa_node"]) = .ok content)
    (htrim : stringsTrimSpace content = "-1")
    (hcpu : ∀ msg, fs.ReadFile (filepathJoin [sysFSPath, "local_cpulist"]) ≠ .error msg) :
    getTopologyHint fs ord mockRoot fuel sysFSPath =
      .ok { Provider := sysFSPath, CPUs := localCpulist fs sysFSPath, NUMAs := "", Sockets := "" } ∧
    (fs.ReadFile (filepathJoin [sysFSPath, "local_cpulist"]) = .notExist →
      getTopologyHint fs ord mockRoot fuel sysFSPath =
        .ok { Provider := sysFSPath, CPUs := "", NUMAs := "", Sockets := "" } ∧
      ∀ hints, stringsHasPrefix sysFSPath (mockRoot ++ "/sys/devices/") = true →
        walkUp fs ord mockRoot (fuel + 1) sysFSPath hints =
          walkUp fs ord mockRoot fuel (filepathDir sysFSPath) hints) := by
  have hget : getTopologyHint fs ord mockRoot fuel sysFSPath =
      .ok { Provider := sysFSPath, CPUs := localCpulist fs sysFSPath, NUMAs := "",
            Sockets := "" } := by
    unfold getTopologyHint
    rw [readFilesInDirectory_hintFileMap fs ord hord sysFSPath content _ hnuma hcpu]
    simp only [Result.bind, htrim, if_true]
    rw [if_neg (by simp)]
    rfl
  refine ⟨hget, fun habs => ?_⟩
  have hl : localCpulist fs sysFSPath = "" := by simp [localCpulist, habs]
  rw [hl] at hget
  refine ⟨hget, fun hints hpre => ?_⟩
  rw [walkUp, if_pos hpre]
  simp [hget, Result.bind]

/-- Witness of C7 (scenario D): `numa_node` holds `-1` and a newline,
`local_cpulist` is absent; the hint is empty and the resolver records nothing
for the device. -/
theorem getTopologyHint_numa_minus_one_witness :
    RangeOrder.Valid RangeOrder.backwards ∧
    sampleFsNoNuma.ReadFile (filepathJoin [sampleDevDir, "numa_node"]) = .ok "-1\n" ∧
    stringsTrimSpace "-1\n" = "-1" ∧
    getTopologyHint sampleFsNoNuma RangeOrder.backwards "" 0 sampleDevDir =
      .ok { Provider := sampleDevDir, CPUs := "", NUMAs := "", Sockets := "" } ∧
    NewTopologyHints sampleFsNoNuma RangeOrder.backwards "" 10 sampleDevDir = .ok [] :=
  ⟨RangeOrder.valid_backwards, by decide, by decide,
    ((getTopologyHint_numa_minus_one sampleFsNoNuma RangeOrder.backwards
      RangeOrder.valid_backwards "" sampleDevDir "-1\n" 0 (by decide) (by decide)
      (fun msg h => by
        rw [show sampleFsNoNuma.ReadFile (filepathJoin [sampleDevDir, "local_cpulist"]) =
          .notExist from by decide] at h
        cases h)).2 (by decide)).1,
    by decide⟩

/-- C7 as stated fails: `numa_node` reads `-1` and `local_cpulist` exists but
cannot be read; `getTopologyHint` returns the read error and no hint, in
whichever order the two files are visited. -/
theorem getTopologyHint_numa_minus_one_counterexample :
    sampleFsCpulistUnreadable.ReadFile (filepathJoin [sampleDevDir, "numa_node"]) = .ok "-1\n" ∧
    stringsTrimSpace "-1\n" = "-1" ∧
    sampleFsCpulistUnreadable.ReadFile (filepathJoin [sampleDevDir, "local_cpulist"]) =
      .error "permission denied" ∧
    getTopologyHint sampleFsCpulistUnreadable RangeOrder.inOrder "" 10 sampleDevDir =
      .error ("/sys/devices/pci0000:3d/0000:3d:00.0: unable to read file \"local_cpulist\": " ++
        "permission denied") ∧
    getTopologyHint sampleFsCpulistUnreadable RangeOrder.backwards "" 10 sampleDevDir =
      .error ("/sys/devices/pci0000:3d/0000:3d:00.0: unable to read file \"local_cpulist\": " ++
        "permission denied") ∧
    ¬ ∃ hint, getTopologyHint sampleFsCpulistUnreadable RangeOrder.inOrder "" 10 sampleDevDir =
      .ok hint := by
  refine ⟨by decide, by decide, by decide, by decide, by decide, ?_⟩
  rintro ⟨hint, h⟩
  rw [show getTopologyHint sampleFsCpulistUnreadable RangeOrder.inOrder "" 10 sampleDevDir =
    .error ("/sys/devices/pci0000:3d/0000:3d:00.0: unable to read file \"local_cpulist\": " ++
      "permission denied") by decide] at h
  cases h

/-! ### Online devices -/

theorem scanVf_eq_any (find : String → List String) (lines : List String) :
    scanVf find lines = lines.any (isVfLine find) := by
  induction lines with
  | nil => rfl
  | cons line rest ih =>
    simp only [scanVf, List.any_cons, isVfLine, ih]
    generalize find line = m
    generalize m.getD 1 "" = ty
    by_cases h6 : m.length = 6
    · cases hvf : stringsHasSuffix ty "vf" <;> simp [h6, isVfLine]
    · simp [h6, isVfLine]

theorem scanDevices_eq_filterMap (find : String → List String) (iommuOn vfOn : Bool)
    (lines : List String) :
    ∀ devices : List device,
      scanDevices find iommuOn vfOn lines devices =
        devices ++ lines.filterMap fun line =>
          if (find line).length = 6 ∧ (find line).getD 5 "" = "up" ∧
              ((iommuOn || vfOn) = true →
                stringsHasSuffix ((find line).getD 1 "") "vf" = true) then
            some { id := "dev" ++ (find line).getD 2 "", devtype := (find line).getD 1 "",
                   bsf := (find line).getD 3 "" ++ (find line).getD 4 "" }
          else none := by
  induction lines with
  | nil => intro devices; simp [scanDevices]
  | cons line rest ih =>
    intro devices
    simp only [scanDevices, List.filterMap_cons, ih]
    have hdeny : ∀ t, (devicesDenyList.get t).isSome = false := fun _ => rfl
    simp only [hdeny]
    generalize find line = m
    generalize m.getD 1 "" = ty
    generalize m.getD 2 "" = inst
    generalize m.getD 3 "" = dom
    generalize m.getD 4 "" = bsf
    generalize m.getD 5 "" = state
    by_cases h6 : m.length = 6
    · by_cases hup : state = "up"
      · cases hvf : stringsHasSuffix ty "vf" <;> cases iommuOn <;> cases vfOn <;>
          simp [h6, hup]
      · simp [h6, hup]
    · simp [h6]

/-- C5: on every status text and IOMMU flag `getOnlineDevices` returns, in line
order, one device for each line that matches the pattern, is `up` and, when the
IOMMU is on or any matching line has a type ending in `vf`, has a type ending
in `vf`; the device has id `dev` followed by the instance id, the type token
as device type and the two bus-address groups concatenated as bsf. -/
theorem getOnlineDevices_eq_spec (find : String → List String) (text : String)
    (iommuOn : Bool) :
    getOnlineDevices find (.ok text) iommuOn = .ok (onlineDevicesSpec find text iommuOn) := by
  unfold getOnlineDevices onlineDevicesSpec
  simp only
  rw [scanVf_eq_any, scanDevices_eq_filterMap]
  simp only [List.nil_append]

theorem getOnlineDevices_scenarioA :
    getOnlineDevices sampleFind (.ok ("Checking status of all devices.\n" ++ sampleStatusLine ++
      "\n")) false = .ok [{ id := "dev0", devtype := "c4xxx", bsf := "3d:00.0" }] := by
  decide

/-! ### Strings: decimal numbers and fields -/

theorem digitChar_isDigit {k : Nat} (hk : k < 10) : (Nat.digitChar k).isDigit = true := by
  interval_cases k <;> decide

theorem digitChar_value {k : Nat} (hk : k < 10) : (Nat.digitChar k).toNat - '0'.toNat = k := by
  interval_cases k <;> decide

theorem toDigitsCore_isDigit (fuel : Nat) :
    ∀ (n : Nat) (ds : List Char), (∀ c ∈ ds, c.isDigit = true) →
      ∀ c ∈ Nat.toDigitsCore 10 fuel n ds, c.isDigit = true := by
  induction fuel with
  | zero => intro n ds h c hc; exact h c hc
  | succ fuel ih =>
    intro n ds h c hc
    simp only [Nat.toDigitsCore] at hc
    have hd : ∀ c ∈ Nat.digitChar (n % 10) :: ds, c.isDigit = true := by
      intro c hc
      rcases List.mem_cons.1 hc with rfl | hc
      · exact digitChar_isDigit (Nat.mod_lt _ (by decide))
      · exact h c hc
    split at hc
    · exact hd c hc
    · exact ih _ _ hd c hc

theorem toDigits_isDigit (n : Nat) : ∀ c ∈ Nat.toDigits 10 n, c.isDigit = true :=
  toDigitsCore_isDigit _ _ _ (by simp)

theorem toDigitsCore_value (fuel : Nat) :
    ∀ (n : Nat) (ds : List Char), n < fuel →
      (Nat.toDigitsCore 10 fuel n ds).foldl (fun acc d => acc * 10 + (d.toNat - '0'.toNat)) 0 =
        ds.foldl (fun acc d => acc * 10 + (d.toNat - '0'.toNat)) n := by
  induction fuel with
  | zero => intro n ds h; exact absurd h (Nat.not_lt_zero _)
  | succ fuel ih =>
    intro n ds h
    simp only [Nat.toDigitsCore]
    split
    · rename_i h0
      have hn : n % 10 = n := Nat.mod_eq_of_lt (by omega)
      simp only [List.foldl_cons, Nat.zero_mul, Nat.zero_add]
      rw [digitChar_value (Nat.mod_lt _ (by decide)), hn]
    · rename_i h0
      have hlt : n / 10 < fuel := by omega
      rw [ih _ _ hlt]
      simp only [List.foldl_cons]
      rw [digitChar_value (Nat.mod_lt _ (by decide)), Nat.div_add_mod' n 10]

theorem toDigits_value (n : Nat) :
    (Nat.toDigits 10 n).foldl (fun acc d => acc * 10 + (d.toNat - '0'.toNat)) 0 = n := by
  unfold Nat.toDigits
  rw [toDigitsCore_value _ _ _ (Nat.lt_succ_self n)]
  rfl

theorem toDigits_injective {m n : Nat} (h : Nat.toDigits 10 m = Nat.toDigits 10 n) : m = n := by
  rw [← toDigits_value m, ← toDigits_value n, h]

theorem fmtInt_natCast (n : Nat) : (fmtInt (n : Int)).toList = Nat.toDigits 10 n := rfl

theorem isDigit_ne_underscore {c : Char} (h : c.isDigit = true) : c ≠ '_' := by
  rintro rfl
  exact absurd h (by decide)

theorem fmtInt_natCast_no_underscore (n : Nat) : '_' ∉ (fmtInt (n : Int)).toList := by
  rw [fmtInt_natCast]
  intro h
  exact isDigit_ne_underscore (toDigits_isDigit n _ h) rfl

theorem fmtInt_natCast_injective {m n : Nat} (h : fmtInt (m : Int) = fmtInt (n : Int)) : m = n := by
  apply toDigits_injective
  rw [← fmtInt_natCast, ← fmtInt_natCast, h]

theorem append_sep_cancel {α : Type} {c : α} :
    ∀ {xs xs' ys ys' : List α}, c ∉ xs → c ∉ xs' → xs ++ c :: ys = xs' ++ c :: ys' →
      xs = xs' ∧ ys = ys' := by
  intro xs
  induction xs with
  | nil =>
    intro xs' ys ys' _ h' h
    cases xs' with
    | nil => simpa using h
    | cons x' t' =>
      simp only [List.nil_append, List.cons_append, List.cons.injEq] at h
      exact absurd (List.mem_cons_self _ _) (h.1 ▸ h')
  | cons x t ih =>
    intro xs' ys ys' h0 h' h
    cases xs' with
    | nil =>
      simp only [List.nil_append, List.cons_append, List.cons.injEq] at h
      exact absurd (List.mem_cons_self _ _) (h.1 ▸ h0)
    | cons x' t' =>
      simp only [List.cons_append, List.cons.injEq] at h
      have ht : c ∉ t := fun hc => h0 (List.mem_cons_of_mem _ hc)
      have ht' : c ∉ t' := fun hc => h' (List.mem_cons_of_mem _ hc)
      obtain ⟨h1, h2⟩ := ih ht ht' h.2
      exact ⟨by rw [h.1, h1], h2⟩

theorem append_sep_cancel_right {α : Type} {c : α} {xs xs' ys ys' : List α}
    (h0 : c ∉ ys) (h' : c ∉ ys') (h : xs ++ c :: ys = xs' ++ c :: ys') :
    xs = xs' ∧ ys = ys' := by
  have hr := congrArg List.reverse h
  simp only [List.reverse_append, List.reverse_cons, List.append_assoc, List.singleton_append]
    at hr
  obtain ⟨h1, h2⟩ := append_sep_cancel (c := c) (by simpa using h0) (by simpa using h') hr
  exact ⟨List.reverse_injective h2, List.reverse_injective h1⟩

theorem numbered_key_injective {a b : String} {m n : Nat}
    (h : a ++ "_" ++ fmtInt (m : Int) = b ++ "_" ++ fmtInt (n : Int)) : a = b ∧ m = n := by
  have hl := congrArg String.toList h
  simp only [String.toList, String.data_append] at hl
  have hl : a.data ++ '_' :: (fmtInt (m : Int)).data = b.data ++ '_' :: (fmtInt (n : Int)).data := by
    simpa using hl
  obtain ⟨h1, h2⟩ := append_sep_cancel_right (fmtInt_natCast_no_underscore m)
    (fmtInt_natCast_no_underscore n) hl
  exact ⟨String.ext h1, fmtInt_natCast_injective (String.ext h2)⟩

theorem splitOnP_no_sep {α : Type} (p : α → Bool) (xs : List α) :
    ∀ l ∈ xs.splitOnP p, ∀ x ∈ l, p x = false := by
  induction xs with
  | nil => simp
  | cons a t ih =>
    rw [List.splitOnP_cons]
    split
    · intro l hl
      rcases List.mem_cons.1 hl with rfl | hl
      · simp
      · exact ih l hl
    · rename_i hp
      cases hs : List.splitOnP p t with
      | nil => exact absurd hs (List.splitOnP_ne_nil p t)
      | cons h r =>
        rw [hs] at ih
        intro l hl
        simp only [List.modifyHead_cons, List.mem_cons] at hl
        rcases hl with rfl | hl
        · intro x hx
          rcases List.mem_cons.1 hx with rfl | hx
          · simpa using hp
          · exact ih h (List.mem_cons_self _ _) x hx
        · exact ih l (List.mem_cons_of_mem _ hl)

theorem stringsSplit_no_sep (s : String) (c : Char) :
    ∀ part ∈ stringsSplit s c, c ∉ part.toList := by
  intro part hpart hc
  simp only [stringsSplit, List.mem_map] at hpart
  obtain ⟨l, hl, rfl⟩ := hpart
  have := splitOnP_no_sep (· == c) s.toList l hl c hc
  simp at this

theorem stringsJoin_stringsSplit (s : String) (c : Char) :
    stringsJoin (stringsSplit s c) (String.singleton c) = s := by
  apply String.ext
  simp only [stringsJoin, stringsSplit, List.map_map]
  have : (String.toList ∘ String.mk) = (id : List Char → List Char) := by
    funext l
    rfl
  rw [this, List.map_id]
  exact List.intercalate_splitOn s.toList c

theorem stringsSplit_stringsJoin (parts : List String) (c : Char) (hne : parts ≠ [])
    (h : ∀ part ∈ parts, c ∉ part.toList) :
    stringsSplit (stringsJoin parts (String.singleton c)) c = parts := by
  simp only [stringsJoin, stringsSplit]
  have hs : (String.singleton c).toList = [c] := rfl
  rw [hs]
  show List.map String.mk (List.splitOn c (List.intercalate [c] (List.map String.toList parts))) = _
  rw [List.splitOn_intercalate]
  · rw [List.map_map]
    have : (String.mk ∘ String.toList) = (id : String → String) := by
      funext s
      rfl
    rw [this, List.map_id]
  · intro l hl
    obtain ⟨part, hp, rfl⟩ := List.mem_map.1 hl
    exact h part hp
  · simpa using hne

/-! ### Renumbering after allocation: errors -/

theorem renumberLoop_cases (l : List (String × String)) :
    ∀ st : RenumberState,
      ((∀ kv ∈ l, isMalformedKey kv.1 = false) ∧ ∃ st', renumberLoop l st = .ok st') ∨
      (∃ kv ∈ l, isMalformedKey kv.1 = true ∧
        renumberLoop l st = .error ("Wrong format of env variable name " ++ kv.1)) := by
  induction l with
  | nil => intro st; exact Or.inl ⟨by simp, st, rfl⟩
  | cons e rest ih =>
    intro st
    obtain ⟨key, value⟩ := e
    simp only [renumberLoop]
    by_cases hp : stringsHasPrefix key "QAT_SECTION_NAME_" = true
    · by_cases h6 : (stringsSplit key '_').length = 6
      · have hm : isMalformedKey key = false := by simp [isMalformedKey, h6]
        simp only [hp, h6, Bool.not_true, Bool.false_eq_true, if_false, ne_eq, not_true_eq_false]
        rcases ih { envsToDelete := st.envsToDelete ++ [key],
                    envsToAdd := st.envsToAdd.set
                      (stringsJoin ((stringsSplit key '_').take 5) "_" ++ "_" ++ fmtInt st.counter)
                      value,
                    counter := st.counter + 1 } with ⟨hall, hok⟩ | ⟨kv, hkv, hbad, herr⟩
        · refine Or.inl ⟨?_, hok⟩
          intro kv hkv
          rcases List.mem_cons.1 hkv with rfl | hkv
          · exact hm
          · exact hall kv hkv
        · exact Or.inr ⟨kv, List.mem_cons_of_mem _ hkv, hbad, herr⟩
      · refine Or.inr ⟨(key, value), List.mem_cons_self _ _, ?_, ?_⟩
        · simp [isMalformedKey, isSectionKey, hp, h6]
        · simp [hp, h6]
    · have hm : isMalformedKey key = false := by simp [isMalformedKey, isSectionKey, hp]
      simp only [hp, Bool.not_false, if_true]
      rcases ih st with ⟨hall, hok⟩ | ⟨kv, hkv, hbad, herr⟩
      · refine Or.inl ⟨?_, hok⟩
        intro kv hkv
        rcases List.mem_cons.1 hkv with rfl | hkv
        · exact hm
        · exact hall kv hkv
      · exact Or.inr ⟨kv, List.mem_cons_of_mem _ hkv, hbad, herr⟩

theorem postAllocateContainer_cases (ord : RangeOrder) (hord : ord.Valid)
    (c : ContainerAllocateResponse) :
    ((∀ kv ∈ c.Envs, isMalformedKey kv.1 = false) ∧ ∃ c', postAllocateContainer ord c = .ok c') ∨
    (∃ kv ∈ c.Envs, isMalformedKey kv.1 = true ∧
      postAllocateContainer ord c = .error ("Wrong format of env variable name " ++ kv.1)) := by
  unfold postAllocateContainer
  rcases renumberLoop_cases (ord _ c.Envs) { envsToDelete := [], envsToAdd := [], counter := 0 }
    with ⟨hall, st', hok⟩ | ⟨kv, hkv, hbad, herr⟩
  · left
    refine ⟨fun kv hkv => hall kv ((hord _ _).mem_iff.2 hkv), ?_⟩
    rw [hok]
    exact ⟨_, rfl⟩
  · right
    refine ⟨kv, (hord _ _).mem_iff.1 hkv, hbad, ?_⟩
    rw [herr]
    rfl

theorem postAllocate_cases (ord : RangeOrder) (hord : ord.Valid)
    (response : List ContainerAllocateResponse) :
    ((∀ c ∈ response, ∀ kv ∈ c.Envs, isMalformedKey kv.1 = false) ∧
      ∃ r, PostAllocate ord response = .ok r) ∨
    (∃ c ∈ response, ∃ kv ∈ c.Envs, isMalformedKey kv.1 = true ∧
      PostAllocate ord response = .error ("Wrong format of env variable name " ++ kv.1)) := by
  induction response with
  | nil => exact Or.inl ⟨by simp, [], rfl⟩
  | cons c rest ih =>
    simp only [PostAllocate]
    rcases postAllocateContainer_cases ord hord c with ⟨hall, c', hok⟩ | ⟨kv, hkv, hbad, herr⟩
    · rcases ih with ⟨hall2, r, hr⟩ | ⟨c2, hc2, kv, hkv, hbad, herr⟩
      · refine Or.inl ⟨?_, c' :: r, by simp [hok, hr, Result.bind]⟩
        intro c0 hc0
        rcases List.mem_cons.1 hc0 with rfl | hc0
        · exact hall
        · exact hall2 c0 hc0
      · exact Or.inr ⟨c2, List.mem_cons_of_mem _ hc2, kv, hkv, hbad,
          by simp [hok, herr, Result.bind]⟩
    · exact Or.inr ⟨c, List.mem_cons_self _ _, kv, hkv, hbad, by simp [herr, Result.bind]⟩

/-- C9: `PostAllocate` returns an error exactly when some container has an
environment key that begins with `QAT_SECTION_NAME_` and does not split on `_`
into six fields; the message of the error names such a key; the call never
panics. -/
theorem postAllocate_error_iff (ord : RangeOrder) (hord : ord.Valid)
    (response : List ContainerAllocateResponse) :
    ((∃ msg, PostAllocate ord response = .error msg) ↔
      ∃ c ∈ response, ∃ kv ∈ c.Envs, isMalformedKey kv.1 = true) ∧
    (∀ msg, PostAllocate ord response = .error msg →
      ∃ c ∈ response, ∃ kv ∈ c.Envs, isMalformedKey kv.1 = true ∧
        msg = "Wrong format of env variable name " ++ kv.1) ∧
    PostAllocate ord response ≠ .panic ∧ PostAllocate ord response ≠ .outOfFuel := by
  rcases postAllocate_cases ord hord response with ⟨hall, r, hr⟩ | ⟨c, hc, kv, hkv, hbad, herr⟩
  · refine ⟨⟨?_, ?_⟩, ?_, ?_, ?_⟩
    · rintro ⟨msg, hmsg⟩
      rw [hr] at hmsg
      cases hmsg
    · rintro ⟨c, hc, kv, hkv, hbad⟩
      rw [hall c hc kv hkv] at hbad
      cases hbad
    · intro msg hmsg
      rw [hr] at hmsg
      cases hmsg
    · rw [hr]
      exact fun h => by cases h
    · rw [hr]
      exact fun h => by cases h
  · refine ⟨⟨fun _ => ⟨c, hc, kv, hkv, hbad⟩, fun _ => ⟨_, herr⟩⟩, ?_, ?_, ?_⟩
    · intro msg hmsg
      rw [herr] at hmsg
      cases hmsg
      exact ⟨c, hc, kv, hkv, hbad, rfl⟩
    · rw [herr]
      exact fun h => by cases h
    · rw [herr]
      exact fun h => by cases h

/-- Witness of C9: a container with the key `QAT_SECTION_NAME_cy0_7`, which has
five fields, makes `PostAllocate` fail with the message naming that key. -/
theorem postAllocate_error_iff_witness :
    RangeOrder.Valid RangeOrder.backwards ∧
    PostAllocate RangeOrder.backwards [sampleContainer, sampleBadContainer] =
      .error "Wrong format of env variable name QAT_SECTION_NAME_cy0_7" ∧
    ∃ c ∈ [sampleContainer, sampleBadContainer], ∃ kv ∈ c.Envs, isMalformedKey kv.1 = true :=
  ⟨RangeOrder.valid_backwards, by decide,
    (postAllocate_error_iff RangeOrder.backwards RangeOrder.valid_backwards
      [sampleContainer, sampleBadContainer]).1.1
      ⟨"Wrong format of env variable name QAT_SECTION_NAME_cy0_7", by decide⟩⟩

/-! ### Renumbering after allocation: the result -/

theorem stringsJoin_append_singleton (xs : List String) (y sep : String) (hne : xs ≠ []) :
    stringsJoin (xs ++ [y]) sep = stringsJoin xs sep ++ sep ++ y := by
  apply String.ext
  simp only [stringsJoin, String.data_append, String.toList, List.map_append, List.map_cons,
    List.map_nil]
  induction xs with
  | nil => exact absurd rfl hne
  | cons x t ih =>
    cases t with
    | nil => simp [List.intercalate, List.intersperse]
    | cons x' t' =>
      have := ih (by simp)
      simp only [List.intercalate, List.map_cons, List.cons_append, List.intersperse_cons_cons,
        List.flatten_cons, List.append_assoc] at this ⊢
      rw [this]

theorem renumberedKey_eq (key : String) (n : Nat) (h6 : (stringsSplit key '_').length = 6) :
    stringsJoin ((stringsSplit key '_').take 5) "_" ++ "_" ++ fmtInt n = renumberedKey key n := by
  unfold renumberedKey
  rw [stringsJoin_append_singleton]
  intro h
  have := congrArg List.length h
  simp [h6] at this

theorem stringsSplit_renumberedKey (key : String) (n : Nat) :
    stringsSplit (renumberedKey key n) '_' = (stringsSplit key '_').take 5 ++ [fmtInt n] := by
  unfold renumberedKey
  refine stringsSplit_stringsJoin _ '_' (by simp) ?_
  intro part hpart
  rcases List.mem_append.1 hpart with h | h
  · exact stringsSplit_no_sep key '_' part (List.mem_of_mem_take h)
  · rw [List.mem_singleton.1 h]
    exact fmtInt_natCast_no_underscore n

theorem lastField_renumberedKey (key : String) (n : Nat) :
    lastField (renumberedKey key n) = some (fmtInt n) := by
  simp [lastField, stringsSplit_renumberedKey]

theorem renumberedKey_injective {k k' : String} {m n : Nat}
    (h : renumberedKey k m = renumberedKey k' n) : m = n := by
  have := congrArg lastField h
  rw [lastField_renumberedKey, lastField_renumberedKey, Option.some.injEq] at this
  exact fmtInt_natCast_injective this

theorem stringsSplit_of_sectionKey {key : String} (h : isSectionKey key = true) :
    ∃ rest : List Char, (stringsSplit key '_') =
      "QAT" :: "SECTION" :: "NAME" :: (rest.splitOn '_').map String.mk := by
  simp only [isSectionKey, stringsHasPrefix] at h
  obtain ⟨rest, hrest⟩ := List.isPrefixOf_iff_prefix.1 h
  refine ⟨rest, ?_⟩
  simp only [stringsSplit, ← hrest]
  have : List.splitOn '_' ("QAT_SECTION_NAME_".toList ++ rest) =
      ['Q', 'A', 'T'] :: ['S', 'E', 'C', 'T', 'I', 'O', 'N'] :: ['N', 'A', 'M', 'E'] ::
        rest.splitOn '_' := by
    simp [List.splitOn, List.splitOnP_cons]
  rw [this]
  rfl

theorem isSectionKey_renumberedKey {key : String} (n : Nat) (h : isSectionKey key = true)
    (h6 : (stringsSplit key '_').length = 6) : isSectionKey (renumberedKey key n) = true := by
  obtain ⟨rest, hrest⟩ := stringsSplit_of_sectionKey h
  rw [hrest] at h6
  unfold renumberedKey
  rw [hrest]
  match hm : (rest.splitOn '_').map String.mk, h6 with
  | [p4, p5, p6], _ =>
    simp only [isSectionKey, stringsHasPrefix, stringsJoin]
    simp [List.intercalate, List.intersperse]

theorem renumberLoop_eq_ok (l : List (String × String)) :
    ∀ st : RenumberState, (∀ kv ∈ l, isMalformedKey kv.1 = false) →
      (∀ k ∈ GoMap.keys st.envsToAdd, ∃ k0 i, i < st.counter ∧ k = renumberedKey k0 i) →
      renumberLoop l st = .ok
        { envsToDelete := st.envsToDelete ++ (l.filter fun kv => isSectionKey kv.1).map Prod.fst
          envsToAdd := st.envsToAdd ++
            renumberedFrom st.counter (l.filter fun kv => isSectionKey kv.1)
          counter := st.counter + (l.filter fun kv => isSectionKey kv.1).length } := by
  induction l with
  | nil => intro st _ _; simp [renumberLoop, renumberedFrom]
  | cons e rest ih =>
    intro st hall hinv
    obtain ⟨key, value⟩ := e
    have hrest : ∀ kv ∈ rest, isMalformedKey kv.1 = false :=
      fun kv hkv => hall kv (List.mem_cons_of_mem _ hkv)
    simp only [renumberLoop]
    by_cases hp : isSectionKey key = true
    · have h6 : (stringsSplit key '_').length = 6 := by
        have := hall (key, value) (List.mem_cons_self _ _)
        simpa [isMalformedKey, hp] using this
      have hp' : stringsHasPrefix key "QAT_SECTION_NAME_" = true := hp
      simp only [hp', h6, Bool.not_true, Bool.false_eq_true, if_false, ne_eq, not_true_eq_false]
      rw [renumberedKey_eq key st.counter h6]
      have habs : renumberedKey key st.counter ∉ GoMap.keys st.envsToAdd := by
        intro hk
        obtain ⟨k0, i, hi, hk0⟩ := hinv _ hk
        have := renumberedKey_injective hk0
        omega
      rw [GoMap.set_of_absent value habs, ih _ hrest]
      · simp [List.filter_cons, hp, renumberedFrom, Nat.add_assoc, Nat.add_comm 1]
      · intro k hk
        simp only [GoMap.keys, List.map_append, List.map_cons, List.map_nil, List.mem_append,
          List.mem_singleton] at hk
        rcases hk with hk | rfl
        · obtain ⟨k0, i, hi, hk0⟩ := hinv k hk
          exact ⟨k0, i, Nat.lt_succ_of_lt hi, hk0⟩
        · exact ⟨key, st.counter, Nat.lt_succ_self _, rfl⟩
    · have hp' : stringsHasPrefix key "QAT_SECTION_NAME_" = false := by
        simpa [isSectionKey] using hp
      simp only [hp', Bool.not_false, if_true]
      rw [ih st hrest hinv]
      simp [List.filter_cons, hp]

theorem keys_renumberedFrom (olds : List (String × String)) :
    ∀ n, ∀ k ∈ GoMap.keys (renumberedFrom n olds),
      ∃ kv ∈ olds, ∃ i, n ≤ i ∧ k = renumberedKey kv.1 i := by
  induction olds with
  | nil => intro n k hk; simp [renumberedFrom, GoMap.keys] at hk
  | cons e rest ih =>
    intro n k hk
    obtain ⟨key, value⟩ := e
    simp only [renumberedFrom, GoMap.keys, List.map_cons, List.mem_cons] at hk
    rcases hk with rfl | hk
    · exact ⟨(key, value), List.mem_cons_self _ _, n, le_refl _, rfl⟩
    · obtain ⟨kv, hkv, i, hi, hk⟩ := ih (n + 1) k hk
      exact ⟨kv, List.mem_cons_of_mem _ hkv, i, by omega, hk⟩

theorem wf_renumberedFrom (olds : List (String × String)) :
    ∀ n, GoMap.WF (renumberedFrom n olds) := by
  induction olds with
  | nil => intro n; simp [renumberedFrom, GoMap.WF, GoMap.keys]
  | cons e rest ih =>
    intro n
    obtain ⟨key, value⟩ := e
    simp only [renumberedFrom, GoMap.WF, GoMap.keys, List.map_cons, List.nodup_cons]
    refine ⟨?_, ih (n + 1)⟩
    intro hk
    obtain ⟨kv, -, i, hi, hk⟩ := keys_renumberedFrom rest (n + 1) _ hk
    have := renumberedKey_injective hk
    omega

theorem lastField_renumberedFrom (olds : List (String × String)) :
    ∀ n, (renumberedFrom n olds).map (fun kv => lastField kv.1) =
      (List.range' n olds.length).map fun i => some (fmtInt (i : Nat)) := by
  induction olds with
  | nil => intro n; simp [renumberedFrom]
  | cons e rest ih =>
    intro n
    obtain ⟨key, value⟩ := e
    simp [renumberedFrom, List.range', lastField_renumberedKey, ih (n + 1)]

theorem foldl_del_eq_filter {V : Type} (ks : List String) :
    ∀ m : GoMap V, ks.foldl (fun envs key => GoMap.del envs key) m =
      m.filter fun e => decide (e.1 ∉ ks) := by
  induction ks with
  | nil => intro m; simp
  | cons k rest ih =>
    intro m
    rw [List.foldl_cons, ih]
    simp only [GoMap.del, List.filter_filter]
    apply List.filter_congr
    intro e _
    simp only [List.mem_cons, not_or, ne_eq, decide_not, Bool.decide_and]
    exact Bool.and_comm _ _

theorem foldl_set_eq_append {V : Type} (l : List (String × V)) :
    ∀ m : GoMap V, GoMap.WF l → (∀ k ∈ GoMap.keys l, k ∉ GoMap.keys m) →
      l.foldl (fun envs kv => GoMap.set envs kv.1 kv.2) m = m ++ l := by
  induction l with
  | nil => intro m _ _; simp
  | cons e rest ih =>
    intro m hwf hdisj
    obtain ⟨k, v⟩ := e
    simp only [GoMap.WF, GoMap.keys, List.map_cons, List.nodup_cons] at hwf
    have hk : k ∉ GoMap.keys m := hdisj k (by simp [GoMap.keys])
    simp only [List.foldl_cons]
    rw [GoMap.set_of_absent v hk, ih _ hwf.2]
    · simp
    · intro k' hk' hmem
      simp only [GoMap.keys, List.map_append, List.map_cons, List.map_nil, List.mem_append,
        List.mem_singleton] at hmem
      rcases hmem with hmem | rfl
      · exact hdisj k' (by simp [GoMap.keys] at hk' ⊢; exact Or.inr hk') hmem
      · exact hwf.1 hk'

theorem postAllocateContainer_renumbered (ord : RangeOrder) (hord : ord.Valid)
    (c c' : ContainerAllocateResponse) (hwf : GoMap.WF c.Envs)
    (h : postAllocateContainer ord c = .ok c') : Renumbered c c' := by
  have hall : ∀ kv ∈ ord _ c.Envs, isMalformedKey kv.1 = false := by
    rcases postAllocateContainer_cases ord hord c with ⟨hall, -⟩ | ⟨kv, -, -, herr⟩
    · exact fun kv hkv => hall kv ((hord _ _).mem_iff.1 hkv)
    · rw [herr] at h
      cases h
  have hloop := renumberLoop_eq_ok (ord _ c.Envs)
    { envsToDelete := [], envsToAdd := [], counter := 0 } hall (by simp [GoMap.keys])
  simp only [List.nil_append, Nat.zero_add] at hloop
  unfold postAllocateContainer at h
  rw [hloop] at h
  simp only [Result.bind, Result.ok.injEq] at h
  set S := (ord _ c.Envs).filter fun kv => isSectionKey kv.1 with hS
  have hSmem : ∀ kv ∈ S, isSectionKey kv.1 = true ∧ (stringsSplit kv.1 '_').length = 6 := by
    intro kv hkv
    obtain ⟨hmem, hsec⟩ := List.mem_filter.1 hkv
    have := hall kv hmem
    exact ⟨hsec, by simpa [isMalformedKey, hsec] using this⟩
  -- the deletions leave the variables without the prefix
  have h1 : (S.map Prod.fst).foldl (fun envs key => GoMap.del envs key) c.Envs =
      c.Envs.filter fun kv => !isSectionKey kv.1 := by
    rw [foldl_del_eq_filter]
    apply List.filter_congr
    intro e he
    by_cases hsec : isSectionKey e.1 = true
    · have : e.1 ∈ S.map Prod.fst :=
        List.mem_map_of_mem _ (List.mem_filter.2 ⟨(hord _ _).mem_iff.2 he, hsec⟩)
      simp [this, hsec]
    · have : e.1 ∉ S.map Prod.fst := by
        intro hmem
        obtain ⟨e', he', heq⟩ := List.mem_map.1 hmem
        exact hsec (heq ▸ (hSmem e' he').1)
      simp [this, hsec]
  -- the additions are appended
  have hkeysA : ∀ k ∈ GoMap.keys (ord _ (renumberedFrom 0 S)), isSectionKey k = true := by
    intro k hk
    have hk' : k ∈ GoMap.keys (renumberedFrom 0 S) := ((hord _ _).map Prod.fst).mem_iff.1 hk
    obtain ⟨kv, hkv, i, -, rfl⟩ := keys_renumberedFrom S 0 k hk'
    exact isSectionKey_renumberedKey i (hSmem kv hkv).1 (hSmem kv hkv).2
  have hkeys1 : ∀ k ∈ GoMap.keys (c.Envs.filter fun kv => !isSectionKey kv.1),
      isSectionKey k = false := by
    intro k hk
    obtain ⟨e, he, rfl⟩ := List.mem_map.1 hk
    simpa using (List.mem_filter.1 he).2
  have hwfA : GoMap.WF (ord _ (renumberedFrom 0 S)) :=
    GoMap.wf_of_perm (hord _ _) (wf_renumberedFrom S 0)
  have h2 := foldl_set_eq_append (ord _ (renumberedFrom 0 S))
    (c.Envs.filter fun kv => !isSectionKey kv.1) hwfA
    (fun k hk hk1 => by
      have := hkeys1 k hk1
      rw [hkeysA k hk] at this
      cases this)
  rw [h1, h2] at h
  subst h
  refine ⟨S, (hord _ _).filter _, ?_, ?_, ?_, rfl, rfl, rfl⟩
  · simp only [List.filter_append, List.filter_filter]
    have e1 : (c.Envs.filter fun a => isSectionKey a.1 && !isSectionKey a.1) = [] := by
      rw [List.filter_eq_nil_iff]
      intro a _
      cases isSectionKey a.1 <;> simp
    have e2 : ((ord _ (renumberedFrom 0 S)).filter fun kv => isSectionKey kv.1) =
        ord _ (renumberedFrom 0 S) := by
      rw [List.filter_eq_self]
      intro a ha
      exact hkeysA a.1 (List.mem_map_of_mem _ ha)
    rw [e1, e2, List.nil_append]
    exact hord _ _
  · simp only [List.filter_append, List.filter_filter, Bool.and_self]
    have e2 : ((ord _ (renumberedFrom 0 S)).filter fun kv => !isSectionKey kv.1) = [] := by
      rw [List.filter_eq_nil_iff]
      intro a ha
      simp [hkeysA a.1 (List.mem_map_of_mem _ ha)]
    rw [e2, List.append_nil]
  · simp only [GoMap.WF, GoMap.keys, List.map_append]
    refine List.Nodup.append ?_ hwfA ?_
    · exact (List.filter_sublist _).map Prod.fst |>.nodup hwf
    · intro k hk1 hk
      have := hkeys1 k hk1
      rw [hkeysA k hk] at this
      cases this

theorem postAllocate_forall₂ (ord : RangeOrder) (hord : ord.Valid)
    (response : List ContainerAllocateResponse) :
    ∀ response', (∀ c ∈ response, GoMap.WF c.Envs) → PostAllocate ord response = .ok response' →
      List.Forall₂ Renumbered response response' := by
  induction response with
  | nil =>
    intro response' _ h
    simp only [PostAllocate, Result.ok.injEq] at h
    subst h
    exact List.Forall₂.nil
  | cons c rest ih =>
    intro response' hwf h
    simp only [PostAllocate] at h
    obtain ⟨c', hc', h2⟩ := Result.bind_eq_ok.1 h
    obtain ⟨cs, hcs, h3⟩ := Result.bind_eq_ok.1 h2
    simp only [Result.ok.injEq] at h3
    subst h3
    exact List.Forall₂.cons
      (postAllocateContainer_renumbered ord hord c c' (hwf c (List.mem_cons_self _ _)) hc')
      (ih cs (fun c0 hc0 => hwf c0 (List.mem_cons_of_mem _ hc0)) hcs)

/-- C8: when `PostAllocate` succeeds, every container is renumbered: its
variables with the prefix `QAT_SECTION_NAME_` correspond one to one to the old
ones, each with the value and the first five fields of its old key and with a
last field that is its number, the numbers being 0, 1, ..., k-1; the variables
without the prefix are unchanged. -/
theorem postAllocate_renumbers (ord : RangeOrder) (hord : ord.Valid)
    (response response' : List ContainerAllocateResponse)
    (hwf : ∀ c ∈ response, GoMap.WF c.Envs) (h : PostAllocate ord response = .ok response') :
    List.Forall₂ Renumbered response response' ∧
    (∀ c c', Renumbered c c' →
      (c'.Envs.filter fun kv => isSectionKey kv.1).length =
        (c.Envs.filter fun kv => isSectionKey kv.1).length ∧
      ((c'.Envs.filter fun kv => isSectionKey kv.1).map fun kv => lastField kv.1).Perm
        ((List.range (c.Envs.filter fun kv => isSectionKey kv.1).length).map
          fun i => some (fmtInt (i : Nat)))) ∧
    (∀ key n, stringsSplit (renumberedKey key n) '_' =
      (stringsSplit key '_').take 5 ++ [fmtInt (n : Nat)]) := by
  refine ⟨postAllocate_forall₂ ord hord response response' hwf h, ?_, stringsSplit_renumberedKey⟩
  rintro c c' ⟨olds, holds, hnew, -⟩
  have hlen : (renumberedFrom 0 olds).length = olds.length := by
    have := congrArg List.length (lastField_renumberedFrom olds 0)
    simpa using this
  constructor
  · rw [hnew.length_eq, hlen, holds.length_eq]
  · have := hnew.map fun kv => lastField kv.1
    rw [lastField_renumberedFrom, holds.length_eq, ← List.range_eq_range'] at this
    exact this

/-- Witness of C8: a container with the variables numbered 7 and 3 comes out
with the numbers 0 and 1; `QAT_SECTION_NAME` and `PATH` are untouched. -/
theorem postAllocate_renumbers_witness :
    RangeOrder.Valid RangeOrder.inOrder ∧
    (∀ c ∈ [sampleContainer], GoMap.WF c.Envs) ∧
    PostAllocate RangeOrder.inOrder [sampleContainer] =
      .ok [{ sampleContainer with
             Envs := [("QAT_SECTION_NAME", "dc1"), ("PATH", "/bin"),
                      ("QAT_SECTION_NAME_cy0_dc1_0", "dc1"),
                      ("QAT_SECTION_NAME_cy1_dc0_1", "ssl")] }] ∧
    List.Forall₂ Renumbered [sampleContainer]
      [{ sampleContainer with
         Envs := [("QAT_SECTION_NAME", "dc1"), ("PATH", "/bin"),
                  ("QAT_SECTION_NAME_cy0_dc1_0", "dc1"),
                  ("QAT_SECTION_NAME_cy1_dc0_1", "ssl")] }] :=
  ⟨RangeOrder.valid_inOrder, by decide, by decide,
    (postAllocate_renumbers RangeOrder.inOrder RangeOrder.valid_inOrder [sampleContainer] _
      (by decide) (by decide)).1⟩

/-! ### The device catalog: units per section -/

theorem units_set_append (ty id : String) (info : DeviceInfo) (inner : GoMap DeviceInfo) :
    ∀ tree : DeviceTree, GoMap.get tree ty = some inner →
      (DeviceTree.units (GoMap.set tree ty (inner ++ [(id, info)]))).Perm
        ((ty, id, info) :: DeviceTree.units tree) := by
  intro tree
  induction tree with
  | nil => intro h; simp [GoMap.get] at h
  | cons e rest ih =>
    intro h
    obtain ⟨k0, v0⟩ := e
    simp only [GoMap.get] at h
    by_cases hk : k0 = ty
    · subst hk
      simp only [if_true, Option.some.injEq] at h
      subst h
      simp only [GoMap.set, if_true, DeviceTree.units, List.flatMap_cons, List.map_append,
        List.map_cons, List.map_nil, List.append_assoc, List.singleton_append]
      exact List.perm_middle
    · simp only [hk, if_false] at h
      simp only [GoMap.set, hk, if_false, DeviceTree.units, List.flatMap_cons]
      have := ih h
      simp only [DeviceTree.units] at this
      exact (List.Perm.append_left _ this).trans List.perm_middle

theorem units_append_new (tree : DeviceTree) (ty : String) (inner : GoMap DeviceInfo) :
    DeviceTree.units (tree ++ [(ty, inner)]) =
      DeviceTree.units tree ++ inner.map fun idInfo => (ty, idInfo.1, idInfo.2) := by
  simp [DeviceTree.units, List.flatMap_append]

theorem mem_units_of_get {tree : DeviceTree} {ty id : String} {inner : GoMap DeviceInfo}
    (h : GoMap.get tree ty = some inner) (hid : id ∈ GoMap.keys inner) :
    ∃ info, (ty, id, info) ∈ DeviceTree.units tree := by
  obtain ⟨e, he, rfl⟩ := List.mem_map.1 hid
  refine ⟨e.2, ?_⟩
  simp only [DeviceTree.units, List.mem_flatMap, List.mem_map]
  exact ⟨(ty, inner), GoMap.mem_of_get h, e, he, rfl⟩

theorem addDevice_units (tree : DeviceTree) (ty id : String) (info : DeviceInfo)
    (hfresh : ∀ u ∈ DeviceTree.units tree, u.2.1 ≠ id) :
    (DeviceTree.units (DeviceTree.AddDevice tree ty id info)).Perm
      ((ty, id, info) :: DeviceTree.units tree) := by
  unfold DeviceTree.AddDevice
  cases hget : GoMap.get tree ty with
  | none =>
    have habs : ty ∉ GoMap.keys tree := GoMap.get_eq_none_iff.1 hget
    simp only [GoMap.set_of_absent _ habs]
    have hget1 : GoMap.get (tree ++ [(ty, ([] : GoMap DeviceInfo))]) ty = some [] := by
      rw [← GoMap.set_of_absent _ habs, GoMap.get_set]
      simp
    simp only [hget1]
    have := units_set_append ty id info [] _ hget1
    rw [units_append_new] at this
    simpa [GoMap.set] using this
  | some inner =>
    simp only [hget]
    have hid : id ∉ GoMap.keys inner := by
      intro hid
      obtain ⟨info', hmem⟩ := mem_units_of_get hget hid
      exact hfresh _ hmem rfl
    rw [GoMap.set_of_absent _ hid]
    exact units_set_append ty id info inner tree hget

theorem newDeviceInfo_envs {fs : FileSystem} {ord : RangeOrder} {mockRoot : String} {fuel : Nat}
    {state : String} {nodes : List DeviceSpec} {mounts : List Mount} {envs ann : GoMap String}
    {info : DeviceInfo}
    (h : NewDeviceInfo fs ord mockRoot fuel state nodes mounts envs ann = .ok info) :
    info.envs = envs := by
  unfold NewDeviceInfo at h
  simp only at h
  split at h <;> first | (cases h; rfl) | cases h

theorem sectionName_env_get (devType sname : String) (n : Nat) :
    GoMap.get ([("QAT_SECTION_NAME_" ++ devType ++ "_" ++ fmtInt (n : Nat), sname),
      ("QAT_SECTION_NAME", sname)] : GoMap String) "QAT_SECTION_NAME" = some sname := by
  have hne : "QAT_SECTION_NAME_" ++ devType ++ "_" ++ fmtInt (n : Nat) ≠ "QAT_SECTION_NAME" := by
    intro h
    have := congrArg String.length h
    simp only [String.length_append] at this
    have h1 : "QAT_SECTION_NAME_".length = 17 := by decide
    have h2 : "QAT_SECTION_NAME".length = 16 := by decide
    omega
  simp [GoMap.get, hne]

theorem allocateUnit_inv {fs : FileSystem} {ord : RangeOrder} {mockRoot : String} {fuel : Nat}
    {devs : List DeviceSpec} {devType sname : String} {st st' : Nat × DeviceTree}
    {tags : List (String × Option String)}
    (h : allocateUnit fs ord mockRoot fuel devs devType sname st = .ok st')
    (hinv : CatalogInv st tags) : CatalogInv st' (tags ++ [(devType, some sname)]) := by
  unfold allocateUnit at h
  obtain ⟨info, hinfo, h2⟩ := Result.bind_eq_ok.1 h
  simp only [Result.ok.injEq] at h2
  subst h2
  have henv := newDeviceInfo_envs hinfo
  have hfresh : ∀ u ∈ DeviceTree.units st.2, u.2.1 ≠ sname ++ "_" ++ fmtInt ((st.1 + 1 : Nat)) := by
    intro u hu heq
    obtain ⟨s, k, hk, hid⟩ := hinv.2 u hu
    rw [hid] at heq
    have := (numbered_key_injective heq).2
    omega
  have hperm := addDevice_units st.2 devType (sname ++ "_" ++ fmtInt ((st.1 + 1 : Nat))) info hfresh
  constructor
  · have h1 := hperm.map unitTag
    refine h1.trans ?_
    simp only [List.map_cons]
    have htag : unitTag (devType, sname ++ "_" ++ fmtInt ((st.1 + 1 : Nat)), info) =
        (devType, some sname) := by
      simp only [unitTag, henv]
      rw [sectionName_env_get]
    rw [htag]
    exact (List.Perm.cons _ hinv.1).trans (List.perm_append_singleton _ _).symm
  · intro u hu
    rcases List.mem_cons.1 (hperm.mem_iff.1 hu) with rfl | hu
    · exact ⟨sname, st.1 + 1, le_refl _, rfl⟩
    · obtain ⟨s, k, hk, hid⟩ := hinv.2 u hu
      exact ⟨s, k, Nat.le_succ_of_le hk, hid⟩

theorem processLoop_inv {fs : FileSystem} {ord : RangeOrder} {mockRoot : String} {fuel : Nat}
    {devs : List DeviceSpec} {devType sname : String} (n : Nat) :
    ∀ {st st' : Nat × DeviceTree} {tags : List (String × Option String)},
      processLoop fs ord mockRoot fuel devs devType sname n st = .ok st' →
      CatalogInv st tags → CatalogInv st' (tags ++ List.replicate n (devType, some sname)) := by
  induction n with
  | zero =>
    intro st st' tags h hinv
    simp only [processLoop, Result.ok.injEq] at h
    subst h
    simpa using hinv
  | succ n ih =>
    intro st st' tags h hinv
    simp only [processLoop] at h
    obtain ⟨st1, h1, h2⟩ := Result.bind_eq_ok.1 h
    have := ih h2 (allocateUnit_inv h1 hinv)
    simpa [List.replicate_succ, List.append_assoc] using this

theorem endpointsLoop_inv {fs : FileSystem} {ord : RangeOrder} {mockRoot : String} {fuel : Nat}
    {devs : List DeviceSpec} {devType sname : String} {pinned : Bool} (eps : List endpoint) :
    ∀ {st st' : Nat × DeviceTree} {tags : List (String × Option String)},
      endpointsLoop fs ord mockRoot fuel devs devType sname pinned eps st = .ok st' →
      CatalogInv st tags →
      CatalogInv st' (tags ++ List.replicate (slotCount pinned eps) (devType, some sname)) := by
  induction eps with
  | nil =>
    intro st st' tags h hinv
    simp only [endpointsLoop, Result.ok.injEq] at h
    subst h
    simpa [slotCount] using hinv
  | cons ep rest ih =>
    intro st st' tags h hinv
    simp only [endpointsLoop] at h
    obtain ⟨st1, h1, h2⟩ := Result.bind_eq_ok.1 h
    have hinv1 := processLoop_inv _ h1 hinv
    cases pinned with
    | false =>
      simp only [Bool.not_false, if_true, Result.ok.injEq] at h2
      subst h2
      have hs : slotCount false (ep :: rest) = ep.processes.toNat := rfl
      rw [hs]
      exact hinv1
    | true =>
      simp only [Bool.not_true, Bool.false_eq_true, if_false] at h2
      have := ih h2 hinv1
      have hs : slotCount true (ep :: rest) = ep.processes.toNat + slotCount true rest := rfl
      rw [hs, List.replicate_add, ← List.append_assoc]
      exact this

theorem sectionsLoop_inv {fs : FileSystem} {ord : RangeOrder} {mockRoot : String} {fuel : Nat}
    {devs : List DeviceSpec} (l : List (String × Section)) :
    ∀ {st st' : Nat × DeviceTree} {tags : List (String × Option String)},
      sectionsLoop fs ord mockRoot fuel devs l st = .ok st' →
      CatalogInv st tags → CatalogInv st' (tags ++ sectionTags l) := by
  induction l with
  | nil =>
    intro st st' tags h hinv
    simp only [sectionsLoop, Result.ok.injEq] at h
    subst h
    simpa [sectionTags] using hinv
  | cons e rest ih =>
    intro st st' tags h hinv
    obtain ⟨sname, svalue⟩ := e
    simp only [sectionsLoop] at h
    obtain ⟨st1, h1, h2⟩ := Result.bind_eq_ok.1 h
    have := ih h2 (endpointsLoop_inv _ h1 hinv)
    simpa [sectionTags, List.flatMap_cons, List.append_assoc] using this

theorem filter_sectionTags_absent (sname : String) (l : List (String × Section))
    (h : sname ∉ GoMap.keys l) :
    (sectionTags l).filter (fun t => decide (t.2 = some sname)) = [] := by
  rw [List.filter_eq_nil_iff]
  intro t ht
  simp only [sectionTags, List.mem_flatMap] at ht
  obtain ⟨e, he, hte⟩ := ht
  rw [List.eq_of_mem_replicate hte]
  have : e.1 ≠ sname := fun heq => h (heq ▸ List.mem_map_of_mem Prod.fst he)
  simpa using this

theorem filter_sectionTags (sname : String) (svalue : Section) (l : List (String × Section))
    (hwf : GoMap.WF l) (hmem : (sname, svalue) ∈ l) :
    (sectionTags l).filter (fun t => decide (t.2 = some sname)) =
      List.replicate (slotCount svalue.pinned svalue.endpoints)
        (sectionDevType svalue, some sname) := by
  induction l with
  | nil => simp at hmem
  | cons e rest ih =>
    simp only [GoMap.WF, GoMap.keys, List.map_cons, List.nodup_cons] at hwf
    have hsplit : sectionTags (e :: rest) =
        List.replicate (slotCount e.2.pinned e.2.endpoints) (sectionDevType e.2, some e.1) ++
          sectionTags rest := by
      simp [sectionTags, List.flatMap_cons]
    rw [hsplit, List.filter_append, List.filter_replicate]
    rcases List.mem_cons.1 hmem with heq | hrest
    · subst heq
      rw [filter_sectionTags_absent _ rest hwf.1]
      simp
    · have hne : e.1 ≠ sname := by
        intro heq
        exact hwf.1 (heq ▸ List.mem_map_of_mem Prod.fst hrest)
      rw [ih hwf.2 hrest]
      simp [hne]

theorem slotCount_cast (svalue : Section) :
    (slotCount svalue.pinned svalue.endpoints : Int) = expectedUnits svalue := by
  unfold expectedUnits
  cases hp : svalue.pinned with
  | false =>
    cases svalue.endpoints with
    | nil => simp [slotCount]
    | cons ep rest => simp [slotCount, Int.toNat_eq_max]
  | true =>
    simp only [if_true]
    induction svalue.endpoints with
    | nil => simp [slotCount]
    | cons ep rest ih =>
      have hs : slotCount true (ep :: rest) = ep.processes.toNat + slotCount true rest := rfl
      rw [hs]
      push_cast
      rw [ih, Int.toNat_eq_max]
      simp

theorem expectedUnits_of_nonneg (svalue : Section)
    (h : ∀ ep ∈ svalue.endpoints, 0 ≤ ep.processes) : expectedUnits svalue = claimedUnits svalue := by
  unfold expectedUnits claimedUnits
  have hmap : (svalue.endpoints.map fun ep => max ep.processes 0) =
      svalue.endpoints.map fun ep => ep.processes :=
    List.map_congr_left fun ep hep => max_eq_left (h ep hep)
  rw [hmap]
  cases hep : svalue.endpoints with
  | nil => rfl
  | cons ep rest =>
    have := h ep (hep ▸ List.mem_cons_self _ _)
    simp [max_eq_left this]

/-- C4, amended: on a section map and for each of its sections, the catalog
that `getDevTree` returns holds, for a pinned section, as many units as the sum
over its endpoints of the process count or of zero when the count is below
zero, and for an unpinned section as many as that of the first endpoint alone
(none without an endpoint); all of them are filed under the type of the section;
when no process count is below zero this is the number the claim states. -/
theorem getDevTree_unit_count (fs : FileSystem) (ord : RangeOrder) (hord : ord.Valid)
    (mockRoot : String) (fuel : Nat) (sysfs : String) (qatDevs : List device)
    (config : GoMap Section) (tree : DeviceTree) (hwf : GoMap.WF config)
    (h : getDevTree fs ord mockRoot fuel sysfs qatDevs config = .ok tree)
    (sname : String) (svalue : Section) (hmem : (sname, svalue) ∈ config) :
    ((tree.unitsOfSection sname).length : Int) = expectedUnits svalue ∧
    (∀ u ∈ tree.unitsOfSection sname, u.1 = sectionDevType svalue) ∧
    ((∀ ep ∈ svalue.endpoints, 0 ≤ ep.processes) →
      ((tree.unitsOfSection sname).length : Int) = claimedUnits svalue) := by
  unfold getDevTree at h
  obtain ⟨devs, -, h2⟩ := Result.bind_eq_ok.1 h
  obtain ⟨st, hst, h3⟩ := Result.bind_eq_ok.1 h2
  simp only [Result.ok.injEq] at h3
  subst h3
  have hinv0 : CatalogInv (0, NewDeviceTree) [] := by
    constructor
    · simp [NewDeviceTree, DeviceTree.units]
    · intro u hu
      simp [NewDeviceTree, DeviceTree.units] at hu
  have hinv := sectionsLoop_inv _ hst hinv0
  rw [List.nil_append] at hinv
  have hfilter := (hinv.1.filter fun t => decide (t.2 = some sname))
  rw [filter_sectionTags sname svalue (ord _ config) (GoMap.wf_of_perm (hord _ _) hwf)
    ((hord _ _).mem_iff.2 hmem)] at hfilter
  have hmapfilter : (st.2.units.map unitTag).filter (fun t => decide (t.2 = some sname)) =
      (st.2.unitsOfSection sname).map unitTag := by
    rw [List.filter_map]
    rfl
  rw [hmapfilter] at hfilter
  have hlen : ((st.2.unitsOfSection sname).length : Int) = expectedUnits svalue := by
    have := hfilter.length_eq
    rw [List.length_map, List.length_replicate] at this
    rw [this, slotCount_cast]
  refine ⟨hlen, ?_, fun hnn => by rw [hlen, expectedUnits_of_nonneg svalue hnn]⟩
  intro u hu
  have : unitTag u ∈ List.replicate (slotCount svalue.pinned svalue.endpoints)
      (sectionDevType svalue, some sname) :=
    hfilter.mem_iff.1 (List.mem_map_of_mem unitTag hu)
  have := List.eq_of_mem_replicate this
  exact congrArg Prod.fst this

/-- Witness of C4 (scenario B): two devices define `dc1` unpinned with two
processes each; the catalog holds two units for `dc1`, both of type `cy0_dc1`. -/
theorem getDevTree_unit_count_witness :
    RangeOrder.Valid RangeOrder.backwards ∧ GoMap.WF (sampleDc1Both false) ∧
    getDevTree sampleFsUio RangeOrder.backwards "" 3 "/sys" sampleDevices (sampleDc1Both false) =
      .ok sampleTree ∧
    (sampleTree.unitsOfSection "dc1").map (fun u => (u.1, u.2.1)) =
      [("cy0_dc1", "dc1_1"), ("cy0_dc1", "dc1_2")] ∧
    ((sampleTree.unitsOfSection "dc1").length : Int) = 2 :=
  ⟨RangeOrder.valid_backwards, by decide, by decide, by decide,
    (getDevTree_unit_count sampleFsUio RangeOrder.backwards RangeOrder.valid_backwards "" 3 "/sys"
      sampleDevices (sampleDc1Both false) sampleTree (by decide) (by decide) "dc1"
      { endpoints := [⟨"dev0", 2⟩, ⟨"dev1", 2⟩], cryptoEngines := 0, compressionEngines := 1,
        pinned := false } (by decide)).1⟩

/-- C4 as stated fails: with one device whose configuration defines the pinned
section `ssl` with `NumProcesses = -1`, reconciliation succeeds, the catalog
holds no unit for `ssl`, and the sum of the process counts is -1. -/
theorem getDevTree_unit_count_counterexample :
    parseConfigs RangeOrder.inOrder sampleLoadNegative "/etc" (sampleDevices.take 1) =
      .ok sampleNegative ∧
    getDevTree sampleFsUio RangeOrder.inOrder "" 3 "/sys" (sampleDevices.take 1) sampleNegative =
      .ok [] ∧
    ((DeviceTree.unitsOfSection [] "ssl").length : Int) = 0 ∧
    claimedUnits { endpoints := [⟨"dev0", -1⟩], cryptoEngines := 1, compressionEngines := 0,
                   pinned := true } = -1 ∧
    ¬ (((DeviceTree.unitsOfSection [] "ssl").length : Int) =
        claimedUnits { endpoints := [⟨"dev0", -1⟩], cryptoEngines := 1, compressionEngines := 0,
                       pinned := true }) := by
  refine ⟨by decide, by decide, by decide, by decide, by decide⟩

/-! ### Merging of hint sets: the order of the arguments -/

/-- C11: for hint sets `A` and `B` without a common provider key (a nil set
counts as the empty one), merging `B` into `A` and merging `A` into `B` give the
same mapping, whatever the visiting orders: every key has the same hint in both
results and both hold the same entries. -/
theorem mergeTopologyHints_comm_of_disjoint (ord1 ord2 : RangeOrder) (h1 : ord1.Valid)
    (h2 : ord2.Valid) (A B : Option Hints) (hA : GoMap.WF (orgMap A)) (hB : GoMap.WF (orgMap B))
    (hdisj : ∀ k, k ∈ GoMap.keys (orgMap A) → k ∉ GoMap.keys (orgMap B)) :
    (∀ k, GoMap.get (MergeTopologyHints ord1 A (orgMap B)) k =
      GoMap.get (MergeTopologyHints ord2 B (orgMap A)) k) ∧
    (MergeTopologyHints ord1 A (orgMap B)).Perm (MergeTopologyHints ord2 B (orgMap A)) := by
  have hget : ∀ k, GoMap.get (MergeTopologyHints ord1 A (orgMap B)) k =
      GoMap.get (MergeTopologyHints ord2 B (orgMap A)) k := by
    intro k
    rw [mergeTopologyHints_get ord1 h1 A _ hB, mergeTopologyHints_get ord2 h2 B _ hA]
    cases ha : GoMap.get (orgMap A) k with
    | none => cases GoMap.get (orgMap B) k <;> rfl
    | some v =>
      have hk : k ∈ GoMap.keys (orgMap A) := GoMap.mem_keys_iff.2 ⟨v, ha⟩
      rw [GoMap.get_eq_none_iff.2 (hdisj k hk)]
  exact ⟨hget, GoMap.perm_of_get_eq (mergeTopologyHints_wf ord1 A _ hA)
    (mergeTopologyHints_wf ord2 B _ hB) hget⟩

/-- Witness of C11 on the hint sets of two providers. -/
theorem mergeTopologyHints_comm_of_disjoint_witness :
    RangeOrder.Valid RangeOrder.inOrder ∧ RangeOrder.Valid RangeOrder.backwards ∧
    MergeTopologyHints RangeOrder.inOrder (some [("/sys/devices/a", sampleHint1)])
      [("/sys/devices/b", sampleHint3)] =
      [("/sys/devices/a", sampleHint1), ("/sys/devices/b", sampleHint3)] ∧
    MergeTopologyHints RangeOrder.backwards (some [("/sys/devices/b", sampleHint3)])
      [("/sys/devices/a", sampleHint1)] =
      [("/sys/devices/b", sampleHint3), ("/sys/devices/a", sampleHint1)] ∧
    (MergeTopologyHints RangeOrder.inOrder (some [("/sys/devices/a", sampleHint1)])
      (orgMap (some [("/sys/devices/b", sampleHint3)]))).Perm
      (MergeTopologyHints RangeOrder.backwards (some [("/sys/devices/b", sampleHint3)])
        (orgMap (some [("/sys/devices/a", sampleHint1)]))) :=
  ⟨RangeOrder.valid_inOrder, RangeOrder.valid_backwards, by decide, by decide,
    (mergeTopologyHints_comm_of_disjoint RangeOrder.inOrder RangeOrder.backwards
      RangeOrder.valid_inOrder RangeOrder.valid_backwards
      (some [("/sys/devices/a", sampleHint1)]) (some [("/sys/devices/b", sampleHint3)])
      (by decide) (by decide) (by decide)).2⟩

/-! ### Reconciliation: what a successful `update` changes -/

theorem readPinned_eq_newPinFlag {sec : IniSection} {p : Bool} (h : readPinned sec = .ok p) :
    p = newPinFlag sec := by
  unfold readPinned at h
  unfold newPinFlag
  cases hg : sec.GetKeyBool "LimitDevAccess" with
  | none =>
    rw [hg] at h
    simpa using h.symm
  | some r =>
    rw [hg] at h
    cases r with
    | error e => simp at h
    | ok b => cases b <;> simpa using h.symm

theorem GoMap.set_of_get_none {V : Type} {m : GoMap V} {k : String} (v : V)
    (h : GoMap.get m k = none) : GoMap.set m k v = m ++ [(k, v)] :=
  GoMap.set_of_absent v (GoMap.get_eq_none_iff.1 h)

/-- C12: a successful `update devID sec` leaves every section other than the
one named by `sec` as it was.  A name the map did not hold gets one entry, added
after the others, with the single endpoint of `devID` and the parsed process
count, engine counts and pin flag.  A name the map held keeps its place, its
engine counts and its pin flag, and its endpoints are the old ones in their
order followed by the endpoint of `devID`.  Two devices that define the same
section with the same values therefore give one section with the two endpoints
in device order. -/
theorem update_changes_one_section :
    (∀ (drvConfig m : driverConfig) (devID : String) (sec : IniSection),
      update drvConfig devID sec = .ok m →
      ∃ np ce de, sec.KeyInt "NumProcesses" = .ok np ∧
        sec.KeyInt "NumberCyInstances" = .ok ce ∧ sec.KeyInt "NumberDcInstances" = .ok de ∧
        (∀ k, k ≠ sec.Name → GoMap.get m k = GoMap.get drvConfig k) ∧
        (GoMap.get drvConfig sec.Name = none →
          GoMap.get m sec.Name = some (freshSection devID np ce de (newPinFlag sec)) ∧
          m = drvConfig ++ [(sec.Name, freshSection devID np ce de (newPinFlag sec))]) ∧
        (∀ old, GoMap.get drvConfig sec.Name = some old →
          GoMap.get m sec.Name = some (extendedSection old devID np) ∧
          GoMap.keys m = GoMap.keys drvConfig)) ∧
    (∀ (sec : IniSection) (np ce de : Int) (dev1 dev2 : String),
      sec.KeyInt "NumProcesses" = .ok np → sec.KeyInt "NumberCyInstances" = .ok ce →
      sec.KeyInt "NumberDcInstances" = .ok de →
      (∀ e, sec.GetKeyBool "LimitDevAccess" ≠ some (.error e)) →
      updateAll [(dev1, sec), (dev2, sec)] [] =
        .ok [(sec.Name, { endpoints := [⟨dev1, np⟩, ⟨dev2, np⟩], cryptoEngines := ce,
                          compressionEngines := de, pinned := newPinFlag sec })]) := by
  constructor
  · intro drvConfig m devID sec h
    obtain ⟨np, ce, de, p, hnp, hce, hde, hp, hr⟩ := update_eq_ok h
    have hpf := readPinned_eq_newPinFlag hp
    subst hpf
    refine ⟨np, ce, de, hnp, hce, hde, ?_, ?_, ?_⟩
    · intro k hk
      rcases reconcile_eq_ok hr with ⟨-, hm⟩ | ⟨old, -, -, -, -, -, hm⟩ <;>
        rw [hm, GoMap.get_set, if_neg (Ne.symm hk)]
    · intro hnone
      rcases reconcile_eq_ok hr with ⟨-, hm⟩ | ⟨old, hold, -, -, -, -, -⟩
      · refine ⟨?_, ?_⟩
        · rw [hm, GoMap.get_set, if_pos rfl]
          rfl
        · rw [hm, GoMap.set_of_get_none _ hnone]
          rfl
      · rw [hnone] at hold
        cases hold
    · intro old hold
      rcases reconcile_eq_ok hr with ⟨hnone, -⟩ | ⟨old', hold', -, -, -, -, hm⟩
      · rw [hnone] at hold
        cases hold
      · rw [hold] at hold'
        cases hold'
        refine ⟨?_, ?_⟩
        · rw [hm, GoMap.get_set, if_pos rfl]
          rfl
        · rw [hm]
          exact GoMap.keys_set_of_present _ (GoMap.mem_keys_iff.2 ⟨old, hold⟩)
  · intro sec np ce de dev1 dev2 hnp hce hde hl
    have hp := readPinned_eq_ok hl
    simp only [updateAll, update, hnp, hce, hde, hp, Result.bind, reconcile, GoMap.get, GoMap.set,
      if_true]
    cases newPinFlag sec <;> simp [Result.bind, GoMap.set]

/-- Witness of C12 (scenario B): the second definition of `dc1` extends the
section the first one made. -/
theorem update_changes_one_section_witness :
    update [("dc1", freshSection "dev0" 2 0 1 false)] "dev1" sampleDc1 =
      .ok (sampleDc1Both false) ∧
    ∃ np ce de, sampleDc1.KeyInt "NumProcesses" = .ok np ∧
      sampleDc1.KeyInt "NumberCyInstances" = .ok ce ∧
      sampleDc1.KeyInt "NumberDcInstances" = .ok de ∧
      (∀ k, k ≠ sampleDc1.Name → GoMap.get (sampleDc1Both false) k =
        GoMap.get ([("dc1", freshSection "dev0" 2 0 1 false)] : driverConfig) k) ∧
      (GoMap.get ([("dc1", freshSection "dev0" 2 0 1 false)] : driverConfig) sampleDc1.Name = none →
        GoMap.get (sampleDc1Both false) sampleDc1.Name =
          some (freshSection "dev1" np ce de (newPinFlag sampleDc1)) ∧
        sampleDc1Both false = [("dc1", freshSection "dev0" 2 0 1 false)] ++
          [(sampleDc1.Name, freshSection "dev1" np ce de (newPinFlag sampleDc1))]) ∧
      (∀ old, GoMap.get ([("dc1", freshSection "dev0" 2 0 1 false)] : driverConfig)
          sampleDc1.Name = some old →
        GoMap.get (sampleDc1Both false) sampleDc1.Name = some (extendedSection old "dev1" np) ∧
        GoMap.keys (sampleDc1Both false) =
          GoMap.keys ([("dc1", freshSection "dev0" 2 0 1 false)] : driverConfig)) :=
  ⟨by decide,
    update_changes_one_section.1 [("dc1", freshSection "dev0" 2 0 1 false)] (sampleDc1Both false)
      "dev1" sampleDc1 (by decide)⟩

/-! ### Paths made of plain names -/

theorem isFileName_iff {name : String} :
    isFileName name = true ↔ name ≠ "" ∧ name ≠ "." ∧ name ≠ ".." ∧ '/' ∉ name.toList := by
  simp [isFileName, and_assoc]

theorem stringsJoin_cons_cons (a b : String) (rest : List String) (sep : String) :
    stringsJoin (a :: b :: rest) sep = a ++ sep ++ stringsJoin (b :: rest) sep := by
  apply String.ext
  simp [stringsJoin, List.intercalate, String.data_append]

theorem cleanStep_foldl_names (parts : List String)
    (h : ∀ p ∈ parts, p = "" ∨ isFileName p = true) :
    ∀ stack, parts.foldl (cleanStep true) stack =
      (parts.filter fun p => p != "").reverse ++ stack := by
  induction parts with
  | nil => intro stack; rfl
  | cons p rest ih =>
    intro stack
    have hrest : ∀ q ∈ rest, q = "" ∨ isFileName q = true :=
      fun q hq => h q (List.mem_cons_of_mem _ hq)
    rw [List.foldl_cons, ih hrest]
    rcases h p (List.mem_cons_self _ _) with hp | hp
    · subst hp
      simp [cleanStep]
    · obtain ⟨h1, h2, h3, -⟩ := isFileName_iff.1 hp
      simp [cleanStep, h1, h2, h3]

theorem filepathClean_rooted (parts : List String) (hne : parts ≠ [])
    (h : ∀ p ∈ parts, p = "" ∨ isFileName p = true) :
    filepathClean (stringsJoin ("" :: parts) "/") =
      "/" ++ stringsJoin (parts.filter fun p => p != "") "/" := by
  obtain ⟨b, rest, rfl⟩ : ∃ b rest, parts = b :: rest := by
    cases parts with
    | nil => exact absurd rfl hne
    | cons b rest => exact ⟨b, rest, rfl⟩
  have hform : stringsJoin ("" :: b :: rest) "/" = "/" ++ stringsJoin (b :: rest) "/" := by
    rw [stringsJoin_cons_cons]
    rfl
  have hnonempty : ∀ x : String, "/" ++ x ≠ "" := by
    intro x hx
    have := congrArg String.length hx
    simp only [String.length_append] at this
    have h1 : "/".length = 1 := by decide
    have h0 : "".length = 0 := by decide
    omega
  have hsplit : stringsSplit (stringsJoin ("" :: b :: rest) "/") '/' = "" :: b :: rest := by
    have := stringsSplit_stringsJoin ("" :: b :: rest) '/' (by simp) (by
      intro part hpart
      rcases List.mem_cons.1 hpart with rfl | hpart
      · simp
      · rcases h part hpart with rfl | hp
        · simp
        · exact (isFileName_iff.1 hp).2.2.2)
    exact this
  have hrooted : stringsHasPrefix (stringsJoin ("" :: b :: rest) "/") "/" = true := by
    rw [hform]
    simp [stringsHasPrefix, String.data_append]
  unfold filepathClean
  rw [if_neg (by rw [hform]; exact hnonempty _)]
  simp only [hsplit, hrooted, if_true]
  have hc : cleanStep true [] "" = [] := by simp [cleanStep]
  rw [List.foldl_cons, hc, cleanStep_foldl_names _ h, List.append_nil, List.reverse_reverse]
  rw [if_neg (hnonempty _)]

theorem filepathJoin_dev (name : String) (h : isFileName name = true) :
    filepathJoin ["/dev/", name] = "/dev/" ++ name := by
  have hj : stringsJoin ["/dev/", name] "/" = stringsJoin ("" :: ["dev", "", name]) "/" := by
    apply String.ext
    simp [stringsJoin, List.intercalate]
  have hd : filepathJoin ["/dev/", name] = filepathClean (stringsJoin ["/dev/", name] "/") := by
    simp [filepathJoin]
  rw [hd, hj, filepathClean_rooted _ (by simp) (by
    intro p hp
    simp only [List.mem_cons, List.mem_singleton, List.not_mem_nil, or_false] at hp
    rcases hp with rfl | rfl | rfl
    · exact Or.inr (by decide)
    · exact Or.inl rfl
    · exact Or.inr h)]
  have hne : name ≠ "" := (isFileName_iff.1 h).1
  apply String.ext
  simp [stringsJoin, List.intercalate, String.data_append, hne]

/-! ### The device catalog: the units in allocation order -/

theorem allocatedUnitsFrom_append (topo : Option TopologyInfo) (devs : List DeviceSpec)
    (a b : List (String × Section)) :
    ∀ n, allocatedUnitsFrom topo devs n (a ++ b) =
      allocatedUnitsFrom topo devs n a ++ allocatedUnitsFrom topo devs (n + a.length) b := by
  induction a with
  | nil => intro n; simp [allocatedUnitsFrom]
  | cons e rest ih =>
    intro n
    rw [List.cons_append]
    simp only [allocatedUnitsFrom, List.length_cons, List.cons_append]
    rw [ih (n + 1), show n + 1 + rest.length = n + (rest.length + 1) by omega]

theorem allocatedUnitsFrom_length (topo : Option TopologyInfo) (devs : List DeviceSpec)
    (slots : List (String × Section)) :
    ∀ n, (allocatedUnitsFrom topo devs n slots).length = slots.length := by
  induction slots with
  | nil => intro n; rfl
  | cons e rest ih => intro n; simp [allocatedUnitsFrom, ih]

theorem mem_allocatedUnitsFrom {topo : Option TopologyInfo} {devs : List DeviceSpec}
    {u : String × String × DeviceInfo} (slots : List (String × Section)) :
    ∀ n, u ∈ allocatedUnitsFrom topo devs n slots →
      ∃ i e, i < slots.length ∧ slots[i]? = some e ∧ u = allocatedUnit topo devs (n + i) e := by
  induction slots with
  | nil => intro n h; simp [allocatedUnitsFrom] at h
  | cons e rest ih =>
    intro n h
    simp only [allocatedUnitsFrom, List.mem_cons] at h
    rcases h with h | h
    · exact ⟨0, e, by simp, by simp, by simpa using h⟩
    · obtain ⟨i, e', hi, hget, hu⟩ := ih (n + 1) h
      refine ⟨i + 1, e', by simpa using hi, by simpa using hget, ?_⟩
      rw [hu, show n + 1 + i = n + (i + 1) by omega]

theorem getElem?_allocatedUnitsFrom (topo : Option TopologyInfo) (devs : List DeviceSpec)
    (slots : List (String × Section)) :
    ∀ n i, (allocatedUnitsFrom topo devs n slots)[i]? =
      (slots[i]?).map (allocatedUnit topo devs (n + i)) := by
  induction slots with
  | nil => intro n i; simp [allocatedUnitsFrom]
  | cons e rest ih =>
    intro n i
    cases i with
    | zero => simp [allocatedUnitsFrom]
    | succ i =>
      simp only [allocatedUnitsFrom, List.getElem?_cons_succ, ih]
      rw [show n + 1 + i = n + (i + 1) by omega]

theorem allocatedUnitsFrom_ids_nodup (topo : Option TopologyInfo) (devs : List DeviceSpec)
    (slots : List (String × Section)) :
    ∀ n, ((allocatedUnitsFrom topo devs n slots).map fun u => u.2.1).Nodup := by
  induction slots with
  | nil => intro n; simp [allocatedUnitsFrom]
  | cons e rest ih =>
    intro n
    simp only [allocatedUnitsFrom, List.map_cons, List.nodup_cons]
    refine ⟨?_, ih (n + 1)⟩
    intro hmem
    obtain ⟨u, hu, hid⟩ := List.mem_map.1 hmem
    obtain ⟨i, e', -, -, rfl⟩ := mem_allocatedUnitsFrom rest (n + 1) hu
    have := (numbered_key_injective hid).2
    omega

theorem newDeviceInfo_eq {fs : FileSystem} {ord : RangeOrder} {mockRoot : String} {fuel : Nat}
    {state : String} {nodes : List DeviceSpec} {mounts : List Mount} {envs ann : GoMap String}
    {info : DeviceInfo}
    (h : NewDeviceInfo fs ord mockRoot fuel state nodes mounts envs ann = .ok info) :
    info = { state := state, nodes := nodes, mounts := mounts, envs := envs, annotations := ann,
             topology := unitTopology fs ord mockRoot fuel nodes } := by
  unfold NewDeviceInfo at h
  unfold unitTopology
  simp only at h
  split at h
  · rename_i t ht
    rw [ht]
    cases h
    rfl
  · rename_i e he
    rw [he]
    cases h
    rfl
  · cases h
  · cases h

theorem allocateUnit_alloc {fs : FileSystem} {ord : RangeOrder} {mockRoot : String} {fuel : Nat}
    {devs : List DeviceSpec} {e : String × Section} {st st' : Nat × DeviceTree}
    {slots : List (String × Section)}
    (h : allocateUnit fs ord mockRoot fuel devs (sectionDevType e.2) e.1 st = .ok st')
    (hinv : AllocInv (unitTopology fs ord mockRoot fuel devs) devs st slots) :
    AllocInv (unitTopology fs ord mockRoot fuel devs) devs st' (slots ++ [e]) := by
  unfold allocateUnit at h
  obtain ⟨info, hinfo, h2⟩ := Result.bind_eq_ok.1 h
  simp only [Result.ok.injEq] at h2
  subst h2
  have hinfo' := newDeviceInfo_eq hinfo
  obtain ⟨hcount, hperm⟩ := hinv
  have hfresh : ∀ u ∈ DeviceTree.units st.2, u.2.1 ≠ e.1 ++ "_" ++ fmtInt ((st.1 + 1 : Nat)) := by
    intro u hu heq
    obtain ⟨i, e', hi, -, rfl⟩ := mem_allocatedUnitsFrom slots 0 (hperm.mem_iff.1 hu)
    have := (numbered_key_injective heq).2
    omega
  have hadd := addDevice_units st.2 (sectionDevType e.2) (e.1 ++ "_" ++ fmtInt ((st.1 + 1 : Nat)))
    info hfresh
  refine ⟨by simp [hcount], ?_⟩
  rw [allocatedUnitsFrom_append]
  refine hadd.trans ?_
  refine ((List.Perm.cons _ hperm).trans (List.perm_append_singleton _ _).symm).trans ?_
  rw [hinfo', hcount]
  simp only [allocatedUnitsFrom, allocatedUnit, unitEnvs, Nat.zero_add]
  exact List.Perm.refl _

theorem processLoop_alloc {fs : FileSystem} {ord : RangeOrder} {mockRoot : String} {fuel : Nat}
    {devs : List DeviceSpec} {e : String × Section} (n : Nat) :
    ∀ {st st' : Nat × DeviceTree} {slots : List (String × Section)},
      processLoop fs ord mockRoot fuel devs (sectionDevType e.2) e.1 n st = .ok st' →
      AllocInv (unitTopology fs ord mockRoot fuel devs) devs st slots →
      AllocInv (unitTopology fs ord mockRoot fuel devs) devs st' (slots ++ List.replicate n e) := by
  induction n with
  | zero =>
    intro st st' slots h hinv
    simp only [processLoop, Result.ok.injEq] at h
    subst h
    simpa using hinv
  | succ n ih =>
    intro st st' slots h hinv
    simp only [processLoop] at h
    obtain ⟨st1, h1, h2⟩ := Result.bind_eq_ok.1 h
    have := ih h2 (allocateUnit_alloc h1 hinv)
    simpa [List.replicate_succ, List.append_assoc] using this

theorem endpointsLoop_alloc {fs : FileSystem} {ord : RangeOrder} {mockRoot : String} {fuel : Nat}
    {devs : List DeviceSpec} {e : String × Section} {pinned : Bool} (eps : List endpoint) :
    ∀ {st st' : Nat × DeviceTree} {slots : List (String × Section)},
      endpointsLoop fs ord mockRoot fuel devs (sectionDevType e.2) e.1 pinned eps st = .ok st' →
      AllocInv (unitTopology fs ord mockRoot fuel devs) devs st slots →
      AllocInv (unitTopology fs ord mockRoot fuel devs) devs st'
        (slots ++ List.replicate (slotCount pinned eps) e) := by
  induction eps with
  | nil =>
    intro st st' slots h hinv
    simp only [endpointsLoop, Result.ok.injEq] at h
    subst h
    simpa [slotCount] using hinv
  | cons ep rest ih =>
    intro st st' slots h hinv
    simp only [endpointsLoop] at h
    obtain ⟨st1, h1, h2⟩ := Result.bind_eq_ok.1 h
    have hinv1 := processLoop_alloc _ h1 hinv
    cases pinned with
    | false =>
      simp only [Bool.not_false, if_true, Result.ok.injEq] at h2
      subst h2
      have hs : slotCount false (ep :: rest) = ep.processes.toNat := rfl
      rw [hs]
      exact hinv1
    | true =>
      simp only [Bool.not_true, Bool.false_eq_true, if_false] at h2
      have := ih h2 hinv1
      have hs : slotCount true (ep :: rest) = ep.processes.toNat + slotCount true rest := rfl
      rw [hs, List.replicate_add, ← List.append_assoc]
      exact this

theorem sectionsLoop_alloc {fs : FileSystem} {ord : RangeOrder} {mockRoot : String} {fuel : Nat}
    {devs : List DeviceSpec} (l : List (String × Section)) :
    ∀ {st st' : Nat × DeviceTree} {slots : List (String × Section)},
      sectionsLoop fs ord mockRoot fuel devs l st = .ok st' →
      AllocInv (unitTopology fs ord mockRoot fuel devs) devs st slots →
      AllocInv (unitTopology fs ord mockRoot fuel devs) devs st' (slots ++ allocationSlots l) := by
  induction l with
  | nil =>
    intro st st' slots h hinv
    simp only [sectionsLoop, Result.ok.injEq] at h
    subst h
    simpa [allocationSlots] using hinv
  | cons e rest ih =>
    intro st st' slots h hinv
    obtain ⟨sname, svalue⟩ := e
    simp only [sectionsLoop] at h
    obtain ⟨st1, h1, h2⟩ := Result.bind_eq_ok.1 h
    have := ih h2 (endpointsLoop_alloc (e := (sname, svalue)) _ h1 hinv)
    simpa [allocationSlots, List.flatMap_cons, List.append_assoc] using this

theorem getDevTree_eq_ok {fs : FileSystem} {ord : RangeOrder} {mockRoot : String} {fuel : Nat}
    {sysfs : String} {qatDevs : List device} {config : GoMap Section} {tree : DeviceTree}
    (h : getDevTree fs ord mockRoot fuel sysfs qatDevs config = .ok tree) :
    ∃ devs uniqID, collectDevs fs sysfs qatDevs fixedDevs = .ok devs ∧
      sectionsLoop fs ord mockRoot fuel devs (ord _ config) (0, NewDeviceTree) =
        .ok (uniqID, tree) ∧
      AllocInv (unitTopology fs ord mockRoot fuel devs) devs (uniqID, tree)
        (allocationSlots (ord _ config)) := by
  unfold getDevTree at h
  obtain ⟨devs, hdevs, h2⟩ := Result.bind_eq_ok.1 h
  obtain ⟨st, hst, h3⟩ := Result.bind_eq_ok.1 h2
  simp only [Result.ok.injEq] at h3
  subst h3
  have hinv0 : AllocInv (unitTopology fs ord mockRoot fuel devs) devs (0, NewDeviceTree) [] :=
    ⟨rfl, by simp [NewDeviceTree, DeviceTree.units, allocatedUnitsFrom]⟩
  have := sectionsLoop_alloc _ hst hinv0
  rw [List.nil_append] at this
  exact ⟨devs, st.1, hdevs, hst, this⟩

theorem mem_allocationSlots {l : List (String × Section)} {e : String × Section}
    (h : e ∈ allocationSlots l) : e ∈ l := by
  simp only [allocationSlots, List.mem_flatMap] at h
  obtain ⟨e', he', hr⟩ := h
  rw [List.eq_of_mem_replicate hr]
  exact he'


theorem unitEnvs_wf (devType sname : String) (n : Nat) : GoMap.WF (unitEnvs devType sname n) := by
  have hne : "QAT_SECTION_NAME_" ++ devType ++ "_" ++ fmtInt (n : Nat) ≠ "QAT_SECTION_NAME" := by
    intro h
    have := congrArg String.length h
    simp only [String.length_append] at this
    have h1 : "QAT_SECTION_NAME_".length = 17 := by decide
    have h2 : "QAT_SECTION_NAME".length = 16 := by decide
    omega
  simp [GoMap.WF, GoMap.keys, unitEnvs, hne]

theorem unitEnvs_number {t t' s s' : String} {n n' : Nat}
    (h : unitEnvs t s n = unitEnvs t' s' n') : n = n' := by
  simp only [unitEnvs, List.cons.injEq, Prod.mk.injEq] at h
  exact (numbered_key_injective h.1.1).2

/-- C13: when `getDevTree` returns a catalog, the catalog holds one unit per
round of the innermost loop and `uniqID` ends as the number of rounds; the unit
of round `i` (counted from 0, in the order in which the sections are visited) has
the id `<sectionName>_<i+1>` and is filed under the type of its section; no two
units have the same id, so no two have the same pair of type and id. -/
theorem getDevTree_keys_distinct (fs : FileSystem) (ord : RangeOrder) (mockRoot : String)
    (fuel : Nat) (sysfs : String) (qatDevs : List device) (config : GoMap Section)
    (tree : DeviceTree) (h : getDevTree fs ord mockRoot fuel sysfs qatDevs config = .ok tree) :
    ∃ devs uniqID,
      sectionsLoop fs ord mockRoot fuel devs (ord _ config) (0, NewDeviceTree) =
        .ok (uniqID, tree) ∧
      uniqID = (allocationSlots (ord _ config)).length ∧
      tree.units.length = uniqID ∧
      tree.units.Perm (allocatedUnitsFrom (unitTopology fs ord mockRoot fuel devs) devs 0
        (allocationSlots (ord _ config))) ∧
      (∀ i e, (allocationSlots (ord _ config))[i]? = some e →
        ∃ u ∈ tree.units,
          (allocatedUnitsFrom (unitTopology fs ord mockRoot fuel devs) devs 0
            (allocationSlots (ord _ config)))[i]? = some u ∧
          u.1 = sectionDevType e.2 ∧ u.2.1 = e.1 ++ "_" ++ fmtInt ((i + 1 : Nat) : Nat)) ∧
      (tree.units.map fun u => u.2.1).Nodup ∧
      (tree.units.map fun u => (u.1, u.2.1)).Nodup := by
  obtain ⟨devs, uniqID, -, hloop, hcount, hperm⟩ := getDevTree_eq_ok h
  have hids : (tree.units.map fun u => u.2.1).Nodup :=
    ((hperm.map fun u => u.2.1).nodup_iff).2 (allocatedUnitsFrom_ids_nodup _ _ _ 0)
  refine ⟨devs, uniqID, hloop, hcount, ?_, hperm, ?_, hids, ?_⟩
  · rw [hperm.length_eq, allocatedUnitsFrom_length]
    exact hcount.symm
  · intro i e he
    have hget := getElem?_allocatedUnitsFrom (unitTopology fs ord mockRoot fuel devs) devs
      (allocationSlots (ord _ config)) 0 i
    rw [he, Option.map_some', Nat.zero_add] at hget
    exact ⟨_, hperm.mem_iff.2 (List.mem_iff_getElem?.2 ⟨_, hget⟩), hget, rfl, rfl⟩
  · refine List.Nodup.of_map Prod.snd ?_
    rw [List.map_map]
    exact hids

/-- Witness of C13 (scenario B): the catalog of the unpinned section `dc1` over
two devices holds the units `dc1_1` and `dc1_2` of type `cy0_dc1`. -/
theorem getDevTree_keys_distinct_witness :
    getDevTree sampleFsUio RangeOrder.backwards "" 3 "/sys" sampleDevices (sampleDc1Both false) =
      .ok sampleTree ∧
    (sampleTree.units.map fun u => (u.1, u.2.1)) = [("cy0_dc1", "dc1_1"), ("cy0_dc1", "dc1_2")] ∧
    ∃ devs uniqID,
      sectionsLoop sampleFsUio RangeOrder.backwards "" 3 devs
        (RangeOrder.backwards _ (sampleDc1Both false)) (0, NewDeviceTree) = .ok (uniqID, sampleTree) ∧
      uniqID = (allocationSlots (RangeOrder.backwards _ (sampleDc1Both false))).length ∧
      sampleTree.units.length = uniqID ∧
      sampleTree.units.Perm (allocatedUnitsFrom (unitTopology sampleFsUio RangeOrder.backwards "" 3
        devs) devs 0 (allocationSlots (RangeOrder.backwards _ (sampleDc1Both false)))) ∧
      (∀ i e, (allocationSlots (RangeOrder.backwards _ (sampleDc1Both false)))[i]? = some e →
        ∃ u ∈ sampleTree.units,
          (allocatedUnitsFrom (unitTopology sampleFsUio RangeOrder.backwards "" 3 devs) devs 0
            (allocationSlots (RangeOrder.backwards _ (sampleDc1Both false))))[i]? = some u ∧
          u.1 = sectionDevType e.2 ∧ u.2.1 = e.1 ++ "_" ++ fmtInt ((i + 1 : Nat) : Nat)) ∧
      (sampleTree.units.map fun u => u.2.1).Nodup ∧
      (sampleTree.units.map fun u => (u.1, u.2.1)).Nodup :=
  ⟨by decide, by decide,
    getDevTree_keys_distinct sampleFsUio RangeOrder.backwards "" 3 "/sys" sampleDevices
      (sampleDc1Both false) sampleTree (by decide)⟩

/-- C14: every unit of the catalog that `getDevTree` returns belongs to a section
`(sname, svalue)` of the map and to a round `n` of the innermost loop, `n` being
the value of `uniqID` when the unit was allocated: the unit is filed under
`cy<c>_dc<d>` for the engine counts of the section, its id is
`<sname>_<n+1>`, and its environment holds two variables of value `sname`,
`QAT_SECTION_NAME_cy<c>_dc<d>_<n>` and `QAT_SECTION_NAME`, under different keys.
Two units of the catalog whose numbered variables carry the same number are the
same unit. -/
theorem getDevTree_unit_environment (fs : FileSystem) (ord : RangeOrder) (hord : ord.Valid)
    (mockRoot : String) (fuel : Nat) (sysfs : String) (qatDevs : List device)
    (config : GoMap Section) (tree : DeviceTree)
    (h : getDevTree fs ord mockRoot fuel sysfs qatDevs config = .ok tree) :
    (∀ u ∈ tree.units, ∃ n sname svalue, (sname, svalue) ∈ config ∧ n < tree.units.length ∧
      (allocationSlots (ord _ config))[n]? = some (sname, svalue) ∧
      u.1 = "cy" ++ fmtInt svalue.cryptoEngines ++ "_dc" ++ fmtInt svalue.compressionEngines ∧
      u.2.1 = sname ++ "_" ++ fmtInt ((n + 1 : Nat) : Nat) ∧
      u.2.2.envs = [("QAT_SECTION_NAME_" ++ u.1 ++ "_" ++ fmtInt (n : Nat), sname),
                    ("QAT_SECTION_NAME", sname)] ∧
      GoMap.WF u.2.2.envs) ∧
    (∀ u ∈ tree.units, ∀ u' ∈ tree.units, ∀ (t t' s s' : String) (n : Nat),
      u.2.2.envs = unitEnvs t s n → u'.2.2.envs = unitEnvs t' s' n → u = u') := by
  obtain ⟨devs, uniqID, -, -, hcount, hperm⟩ := getDevTree_eq_ok h
  have hlen : tree.units.length = (allocationSlots (ord _ config)).length := by
    rw [hperm.length_eq, allocatedUnitsFrom_length]
  constructor
  · intro u hu
    obtain ⟨i, e, hi, hget, rfl⟩ := mem_allocatedUnitsFrom _ 0 (hperm.mem_iff.1 hu)
    rw [Nat.zero_add]
    refine ⟨i, e.1, e.2, ?_, by rw [hlen]; exact hi, hget, rfl, rfl, rfl, unitEnvs_wf _ _ _⟩
    exact (hord _ _).mem_iff.1 (mem_allocationSlots (List.mem_iff_getElem?.2 ⟨_, hget⟩))
  · intro u hu u' hu' t t' s s' n he he'
    obtain ⟨i, e, hi, hget, rfl⟩ := mem_allocatedUnitsFrom _ 0 (hperm.mem_iff.1 hu)
    obtain ⟨j, e', hj, hget', rfl⟩ := mem_allocatedUnitsFrom _ 0 (hperm.mem_iff.1 hu')
    have h1 : 0 + i = n := unitEnvs_number he
    have h2 : 0 + j = n := unitEnvs_number he'
    have hij : i = j := by omega
    subst hij
    rw [hget] at hget'
    cases hget'
    rfl

/-- Witness of C14 (scenario B): the environments of the two units of `dc1`. -/
theorem getDevTree_unit_environment_witness :
    RangeOrder.Valid RangeOrder.backwards ∧
    (sampleTree.units.map fun u => u.2.2.envs) =
      [[("QAT_SECTION_NAME_cy0_dc1_0", "dc1"), ("QAT_SECTION_NAME", "dc1")],
       [("QAT_SECTION_NAME_cy0_dc1_1", "dc1"), ("QAT_SECTION_NAME", "dc1")]] ∧
    (∀ u ∈ sampleTree.units, ∀ u' ∈ sampleTree.units, ∀ (t t' s s' : String) (n : Nat),
      u.2.2.envs = unitEnvs t s n → u'.2.2.envs = unitEnvs t' s' n → u = u') :=
  ⟨RangeOrder.valid_backwards, by decide,
    (getDevTree_unit_environment sampleFsUio RangeOrder.backwards RangeOrder.valid_backwards "" 3
      "/sys" sampleDevices (sampleDc1Both false) sampleTree (by decide)).2⟩

/-! ### The device catalog: the device nodes of the units -/

theorem foldl_append_singleton {α β : Type} (f : α → β) (l : List α) :
    ∀ init : List β, l.foldl (fun acc x => acc ++ [f x]) init = init ++ l.map f := by
  induction l with
  | nil => intro init; simp
  | cons a rest ih => intro init; simp [ih]

theorem getUIODevices_eq_ok {fs : FileSystem} {sysfs devtype bsf : String} {l : List String} :
    getUIODevices fs sysfs devtype bsf = .ok l ↔
      ∃ dir, getUIODeviceListPath sysfs devtype bsf = .ok dir ∧ fs.ReadDir dir = .ok l := by
  unfold getUIODevices
  rw [Result.bind_eq_ok]
  constructor
  · rintro ⟨dir, hdir, h⟩
    refine ⟨dir, hdir, ?_⟩
    cases hr : fs.ReadDir dir with
    | error e => simp [hr] at h
    | ok devFiles =>
      rw [hr] at h
      have := foldl_append_singleton (fun x : String => x) devFiles []
      simp only [List.map_id', List.nil_append] at this
      simp only [this, Result.ok.injEq] at h
      rw [h]
  · rintro ⟨dir, hdir, hr⟩
    refine ⟨dir, hdir, ?_⟩
    have := foldl_append_singleton (fun x : String => x) l []
    simp only [List.map_id', List.nil_append] at this
    simp only [hr, this]

theorem uioEntries_of_readable {fs : FileSystem} {sysfs dir : String} {d : device}
    {l : List String} (hdir : getUIODeviceListPath sysfs d.devtype d.bsf = .ok dir)
    (hr : fs.ReadDir dir = .ok l) : uioEntries fs sysfs d = l := by
  unfold uioEntries
  rw [getUIODevices_eq_ok.2 ⟨dir, hdir, hr⟩]

theorem collectDevs_eq_ok {fs : FileSystem} {sysfs : String} (qatDevs : List device) :
    ∀ {devs0 devs : List DeviceSpec}, collectDevs fs sysfs qatDevs devs0 = .ok devs →
      devs = devs0 ++ qatDevs.flatMap (fun qatDev =>
        (uioEntries fs sysfs qatDev).map fun uiodev =>
          newDeviceSpec (filepathJoin ["/dev/", uiodev])) ∧
      ∀ d ∈ qatDevs, ∃ dir, getUIODeviceListPath sysfs d.devtype d.bsf = .ok dir ∧
        fs.ReadDir dir = .ok (uioEntries fs sysfs d) := by
  induction qatDevs with
  | nil =>
    intro devs0 devs h
    simp only [collectDevs, Result.ok.injEq] at h
    simp [h]
  | cons d rest ih =>
    intro devs0 devs h
    simp only [collectDevs] at h
    obtain ⟨uiodevs, hu, h2⟩ := Result.bind_eq_ok.1 h
    obtain ⟨dir, hdir, hr⟩ := getUIODevices_eq_ok.1 hu
    have hent : uioEntries fs sysfs d = uiodevs := uioEntries_of_readable hdir hr
    rw [foldl_append_singleton (fun uiodev => newDeviceSpec (filepathJoin ["/dev/", uiodev]))] at h2
    obtain ⟨h3, h4⟩ := ih h2
    refine ⟨?_, ?_⟩
    · rw [h3, List.flatMap_cons, hent, List.append_assoc]
    · intro d' hd'
      rcases List.mem_cons.1 hd' with rfl | hd'
      · exact ⟨dir, hdir, by rw [hent]; exact hr⟩
      · exact h4 d' hd'

theorem collectDevs_of_readable {fs : FileSystem} {sysfs : String} (qatDevs : List device)
    (h : ∀ d ∈ qatDevs, ∃ dir l, getUIODeviceListPath sysfs d.devtype d.bsf = .ok dir ∧
      fs.ReadDir dir = .ok l) :
    ∀ devs0, collectDevs fs sysfs qatDevs devs0 =
      .ok (devs0 ++ qatDevs.flatMap (fun qatDev =>
        (uioEntries fs sysfs qatDev).map fun uiodev =>
          newDeviceSpec (filepathJoin ["/dev/", uiodev]))) := by
  induction qatDevs with
  | nil => intro devs0; simp [collectDevs]
  | cons d rest ih =>
    intro devs0
    obtain ⟨dir, l, hdir, hr⟩ := h d (List.mem_cons_self _ _)
    have hent : uioEntries fs sysfs d = l := uioEntries_of_readable hdir hr
    simp only [collectDevs, getUIODevices_eq_ok.2 ⟨dir, hdir, hr⟩, Result.bind]
    rw [foldl_append_singleton (fun uiodev => newDeviceSpec (filepathJoin ["/dev/", uiodev])),
      ih (fun d' hd' => h d' (List.mem_cons_of_mem _ hd')), List.flatMap_cons, hent,
      List.append_assoc]

theorem newDeviceInfo_ok {fs : FileSystem} {ord : RangeOrder} {mockRoot : String} {fuel : Nat}
    {nodes : List DeviceSpec}
    (h1 : GetTopologyInfo fs ord mockRoot fuel (nodes.map fun node => node.HostPath) ≠ .panic)
    (h2 : GetTopologyInfo fs ord mockRoot fuel (nodes.map fun node => node.HostPath) ≠ .outOfFuel)
    (state : String) (mounts : List Mount) (envs ann : GoMap String) :
    ∃ info, NewDeviceInfo fs ord mockRoot fuel state nodes mounts envs ann = .ok info := by
  unfold NewDeviceInfo
  simp only
  cases hg : GetTopologyInfo fs ord mockRoot fuel (nodes.map fun node => node.HostPath) with
  | ok t => exact ⟨_, rfl⟩
  | error e => exact ⟨_, rfl⟩
  | panic => exact absurd hg h1
  | outOfFuel => exact absurd hg h2

theorem sectionsLoop_ok {fs : FileSystem} {ord : RangeOrder} {mockRoot : String} {fuel : Nat}
    {devs : List DeviceSpec}
    (h1 : GetTopologyInfo fs ord mockRoot fuel (devs.map fun node => node.HostPath) ≠ .panic)
    (h2 : GetTopologyInfo fs ord mockRoot fuel (devs.map fun node => node.HostPath) ≠ .outOfFuel)
    (l : List (String × Section)) :
    ∀ st, ∃ st', sectionsLoop fs ord mockRoot fuel devs l st = .ok st' := by
  have hunit : ∀ devType sname st, ∃ st',
      allocateUnit fs ord mockRoot fuel devs devType sname st = .ok st' := by
    intro devType sname st
    unfold allocateUnit
    obtain ⟨info, hinfo⟩ := newDeviceInfo_ok h1 h2 pluginapiHealthy []
      [("QAT_SECTION_NAME_" ++ devType ++ "_" ++ fmtInt st.1, sname), ("QAT_SECTION_NAME", sname)] []
    simp only [hinfo, Result.bind]
    exact ⟨_, rfl⟩
  have hproc : ∀ devType sname n st, ∃ st',
      processLoop fs ord mockRoot fuel devs devType sname n st = .ok st' := by
    intro devType sname n
    induction n with
    | zero => exact fun st => ⟨st, rfl⟩
    | succ n ih =>
      intro st
      obtain ⟨st1, hst1⟩ := hunit devType sname st
      obtain ⟨st2, hst2⟩ := ih st1
      exact ⟨st2, by simp only [processLoop, hst1, Result.bind, hst2]⟩
  have hend : ∀ devType sname pinned eps st, ∃ st',
      endpointsLoop fs ord mockRoot fuel devs devType sname pinned eps st = .ok st' := by
    intro devType sname pinned eps
    induction eps with
    | nil => exact fun st => ⟨st, rfl⟩
    | cons ep rest ih =>
      intro st
      obtain ⟨st1, hst1⟩ := hproc devType sname ep.processes.toNat st
      obtain ⟨st2, hst2⟩ := ih st1
      cases pinned with
      | false => exact ⟨st1, by simp [endpointsLoop, hst1, Result.bind]⟩
      | true => exact ⟨st2, by simp [endpointsLoop, hst1, Result.bind, hst2]⟩
  induction l with
  | nil => exact fun st => ⟨st, rfl⟩
  | cons e rest ih =>
    intro st
    obtain ⟨sname, svalue⟩ := e
    obtain ⟨st1, hst1⟩ := hend (sectionDevType svalue) sname svalue.pinned svalue.endpoints st
    obtain ⟨st2, hst2⟩ := ih st1
    exact ⟨st2, by simp only [sectionsLoop, hst1, Result.bind, hst2]⟩

/-- C15: when `getDevTree` returns a catalog, the `uio` directory of every device
was read, and every unit carries one and the same list of device nodes: the
nodes `/dev/qat_adf_ctl`, `/dev/qat_dev_processes` and `/dev/usdm_drv`, then for
each device in device order and each entry of its `uio` directory in listing
order the node `filepath.Join("/dev/", entry)`, which is `/dev/<entry>` for the
name of a directory entry.  Every node has its host path as container path and
the permissions `rw`.  A device with an empty `uio` directory adds no node, and
the collection of the nodes succeeds whenever every directory can be read, empty
or not; `getDevTree` then returns a catalog if the topology lookup of
`NewDeviceInfo` returns. -/
theorem getDevTree_unit_nodes (fs : FileSystem) (ord : RangeOrder) (mockRoot : String)
    (fuel : Nat) (sysfs : String) (qatDevs : List device) (config : GoMap Section) :
    (∀ tree, getDevTree fs ord mockRoot fuel sysfs qatDevs config = .ok tree →
      (∀ d ∈ qatDevs, ∃ dir, getUIODeviceListPath sysfs d.devtype d.bsf = .ok dir ∧
        fs.ReadDir dir = .ok (uioEntries fs sysfs d)) ∧
      ∀ u ∈ tree.units, u.2.2.nodes = deviceNodes fs sysfs qatDevs) ∧
    deviceNodes fs sysfs qatDevs =
      [⟨"/dev/qat_adf_ctl", "/dev/qat_adf_ctl", "rw"⟩,
       ⟨"/dev/qat_dev_processes", "/dev/qat_dev_processes", "rw"⟩,
       ⟨"/dev/usdm_drv", "/dev/usdm_drv", "rw"⟩] ++
      qatDevs.flatMap (fun d => (uioEntries fs sysfs d).map fun entry =>
        ⟨filepathJoin ["/dev/", entry], filepathJoin ["/dev/", entry], "rw"⟩) ∧
    (∀ entry, isFileName entry = true → filepathJoin ["/dev/", entry] = "/dev/" ++ entry) ∧
    (∀ node ∈ deviceNodes fs sysfs qatDevs,
      node.ContainerPath = node.HostPath ∧ node.Permissions = "rw") ∧
    (∀ (before after : List device) (d : device), uioEntries fs sysfs d = [] →
      deviceNodes fs sysfs (before ++ d :: after) = deviceNodes fs sysfs (before ++ after)) ∧
    ((∀ d ∈ qatDevs, ∃ dir entries, getUIODeviceListPath sysfs d.devtype d.bsf = .ok dir ∧
        fs.ReadDir dir = .ok entries) →
      collectDevs fs sysfs qatDevs fixedDevs = .ok (deviceNodes fs sysfs qatDevs) ∧
      (GetTopologyInfo fs ord mockRoot fuel
          ((deviceNodes fs sysfs qatDevs).map fun node => node.HostPath) ≠ .panic →
        GetTopologyInfo fs ord mockRoot fuel
          ((deviceNodes fs sysfs qatDevs).map fun node => node.HostPath) ≠ .outOfFuel →
        ∃ tree, getDevTree fs ord mockRoot fuel sysfs qatDevs config = .ok tree)) := by
  refine ⟨?_, rfl, filepathJoin_dev, ?_, ?_, ?_⟩
  · intro tree h
    obtain ⟨devs, uniqID, hdevs, -, -, hperm⟩ := getDevTree_eq_ok h
    obtain ⟨hform, hread⟩ := collectDevs_eq_ok _ hdevs
    refine ⟨hread, ?_⟩
    intro u hu
    obtain ⟨i, e, -, -, rfl⟩ := mem_allocatedUnitsFrom _ 0 (hperm.mem_iff.1 hu)
    exact hform
  · intro node hnode
    simp only [deviceNodes, fixedDevs, List.mem_append, List.mem_cons, List.mem_singleton,
      List.not_mem_nil, or_false, List.mem_flatMap, List.mem_map] at hnode
    rcases hnode with (rfl | rfl | rfl) | ⟨d, -, entry, -, rfl⟩ <;> exact ⟨rfl, rfl⟩
  · intro before after d hd
    simp [deviceNodes, List.flatMap_append, List.flatMap_cons, hd]
  · intro hread
    have hcollect := collectDevs_of_readable qatDevs hread fixedDevs
    refine ⟨hcollect, fun h1 h2 => ?_⟩
    obtain ⟨st', hst'⟩ := sectionsLoop_ok h1 h2 (ord _ config) (0, NewDeviceTree)
    refine ⟨st'.2, ?_⟩
    unfold getDevTree
    rw [hcollect]
    simp only [Result.bind]
    rw [show deviceNodes fs sysfs qatDevs = fixedDevs ++ qatDevs.flatMap (fun qatDev =>
      (uioEntries fs sysfs qatDev).map fun uiodev =>
        newDeviceSpec (filepathJoin ["/dev/", uiodev])) from rfl] at hst'
    rw [hst']

/-- Witness of C15: the first device has an empty `uio` directory, the second
one lists `uio0` and `uio1`; the catalog is built and every unit carries the
three fixed nodes followed by `/dev/uio0` and `/dev/uio1`. -/
theorem getDevTree_unit_nodes_witness :
    getDevTree sampleFsUioEmpty RangeOrder.inOrder "" 3 "/sys" sampleDevices
      (sampleDc1Both false) = .ok sampleTreeUioEmpty ∧
    (sampleTreeUioEmpty.units.map fun u => u.2.2.nodes.map fun node => node.HostPath) =
      [["/dev/qat_adf_ctl", "/dev/qat_dev_processes", "/dev/usdm_drv", "/dev/uio0", "/dev/uio1"],
       ["/dev/qat_adf_ctl", "/dev/qat_dev_processes", "/dev/usdm_drv", "/dev/uio0",
        "/dev/uio1"]] ∧
    uioEntries sampleFsUioEmpty "/sys" ⟨"dev0", "c6xx", "3d:00.0"⟩ = [] ∧
    (∀ u ∈ sampleTreeUioEmpty.units,
      u.2.2.nodes = deviceNodes sampleFsUioEmpty "/sys" sampleDevices) :=
  ⟨by decide, by decide, by decide,
    ((getDevTree_unit_nodes sampleFsUioEmpty RangeOrder.inOrder "" 3 "/sys" sampleDevices
      (sampleDc1Both false)).1 sampleTreeUioEmpty (by decide)).2⟩

/-! ### Reconciliation: reserved sections -/

theorem isReservedSection_iff (name : String) :
    isReservedSection name = true ↔
      name ∈ ["GENERAL", "SIOV", "KERNEL", "KERNEL_QAT", "DEFAULT"] := by
  simp [isReservedSection, iniDefaultSection, or_assoc]

theorem parseSections_workload (devID : String) (secs : List IniSection) :
    ∀ drvConfig, parseSections devID secs drvConfig =
      parseSections devID (workloadSections secs) drvConfig := by
  induction secs with
  | nil => intro drvConfig; rfl
  | cons sec rest ih =>
    intro drvConfig
    by_cases hr : isReservedSection sec.Name = true
    · have hw : workloadSections (sec :: rest) = workloadSections rest := by
        simp [workloadSections, hr]
      rw [hw, ← ih]
      simp [parseSections, hr]
    · have hr' : isReservedSection sec.Name = false := by simpa using hr
      have hw : workloadSections (sec :: rest) = sec :: workloadSections rest := by
        simp [workloadSections, hr']
      rw [hw]
      simp only [parseSections, hr', Bool.false_eq_true, if_false]
      congr 1
      funext m
      exact ih m

theorem parseDevices_workload {iniLoad iniLoad' : String → Except String (List IniSection)}
    (h : ∀ path, (iniLoad path).map workloadSections = (iniLoad' path).map workloadSections)
    (configDir : String) (devices : List device) :
    ∀ st, parseDevices iniLoad configDir devices st = parseDevices iniLoad' configDir devices st := by
  induction devices with
  | nil => intro st; rfl
  | cons dev rest ih =>
    intro st
    obtain ⟨devNum, drvConfig⟩ := st
    have hp := h (configPath configDir dev)
    simp only [parseDevices]
    cases h1 : iniLoad (configPath configDir dev) with
    | error e =>
      cases h2 : iniLoad' (configPath configDir dev) with
      | error e' =>
        rw [h1, h2] at hp
        simp only [Except.map, Except.error.injEq] at hp
        rw [hp]
      | ok secs' =>
        rw [h1, h2] at hp
        simp [Except.map] at hp
    | ok secs =>
      cases h2 : iniLoad' (configPath configDir dev) with
      | error e' =>
        rw [h1, h2] at hp
        simp [Except.map] at hp
      | ok secs' =>
        rw [h1, h2] at hp
        simp only [Except.map, Except.ok.injEq] at hp
        simp only []
        rw [parseSections_workload dev.id secs, parseSections_workload dev.id secs', hp]
        congr 1
        funext m
        exact ih _

theorem update_keys_not_reserved {drvConfig m : driverConfig} {devID : String} {sec : IniSection}
    (h : update drvConfig devID sec = .ok m) (hsec : isReservedSection sec.Name = false)
    (hinv : ∀ k ∈ GoMap.keys drvConfig, isReservedSection k = false) :
    ∀ k ∈ GoMap.keys m, isReservedSection k = false := by
  obtain ⟨np, ce, de, p, -, -, -, -, hr⟩ := update_eq_ok h
  intro k hk
  obtain ⟨e, he, rfl⟩ := List.mem_map.1 hk
  rcases reconcile_eq_ok hr with ⟨-, hm⟩ | ⟨old, -, -, -, -, -, hm⟩ <;>
  · rw [hm] at he
    rcases GoMap.mem_set he with heq | hmem
    · rw [heq]
      exact hsec
    · exact hinv _ (List.mem_map_of_mem Prod.fst hmem)

theorem parseSections_keys_not_reserved {devID : String} (secs : List IniSection) :
    ∀ {drvConfig m : driverConfig}, parseSections devID secs drvConfig = .ok m →
      (∀ k ∈ GoMap.keys drvConfig, isReservedSection k = false) →
      ∀ k ∈ GoMap.keys m, isReservedSection k = false := by
  induction secs with
  | nil =>
    intro drvConfig m h hinv
    simp only [parseSections, Result.ok.injEq] at h
    exact h ▸ hinv
  | cons sec rest ih =>
    intro drvConfig m h hinv
    simp only [parseSections] at h
    split at h
    · exact ih h hinv
    · rename_i hr
      obtain ⟨m1, h1, h2⟩ := Result.bind_eq_ok.1 h
      exact ih h2 (update_keys_not_reserved h1 (by simpa using hr) hinv)

theorem parseDevices_keys_not_reserved {iniLoad : String → Except String (List IniSection)}
    {configDir : String} (devices : List device) :
    ∀ {st st' : Int × driverConfig}, parseDevices iniLoad configDir devices st = .ok st' →
      (∀ k ∈ GoMap.keys st.2, isReservedSection k = false) →
      ∀ k ∈ GoMap.keys st'.2, isReservedSection k = false := by
  induction devices with
  | nil =>
    intro st st' h hinv
    simp only [parseDevices, Result.ok.injEq] at h
    exact h ▸ hinv
  | cons dev rest ih =>
    intro st st' h hinv
    obtain ⟨devNum, drvConfig⟩ := st
    simp only [parseDevices] at h
    split at h
    · simp at h
    · obtain ⟨m1, h1, h2⟩ := Result.bind_eq_ok.1 h
      exact ih h2 (parseSections_keys_not_reserved _ h1 hinv)

/-- C16: a section is skipped by `parseConfigs` exactly when its name is
`GENERAL`, `SIOV`, `KERNEL`, `KERNEL_QAT` or `DEFAULT`, compared as it is written.
The result of `parseConfigs` depends on the files only through their other
sections: two loaders that agree on these give the same result, whatever keys
the reserved sections hold or lack.  A map that `parseConfigs` returns has no
entry under a reserved name.  A section whose name is not reserved, as one that
differs from a reserved name in case, is handed to `update`. -/
theorem parseConfigs_skips_reserved (ord : RangeOrder) (configDir : String)
    (devices : List device) :
    (∀ name, isReservedSection name = true ↔
      name ∈ ["GENERAL", "SIOV", "KERNEL", "KERNEL_QAT", "DEFAULT"]) ∧
    (∀ iniLoad iniLoad' : String → Except String (List IniSection),
      (∀ path, (iniLoad path).map workloadSections = (iniLoad' path).map workloadSections) →
      parseConfigs ord iniLoad configDir devices = parseConfigs ord iniLoad' configDir devices) ∧
    (∀ (iniLoad : String → Except String (List IniSection)) (m : driverConfig),
      parseConfigs ord iniLoad configDir devices = .ok m →
      ∀ k ∈ GoMap.keys m, isReservedSection k = false) ∧
    (∀ (devID : String) (sec : IniSection) (rest : List IniSection) (drvConfig : driverConfig),
      isReservedSection sec.Name = true →
      parseSections devID (sec :: rest) drvConfig = parseSections devID rest drvConfig) ∧
    (∀ (devID : String) (sec : IniSection) (rest : List IniSection) (drvConfig : driverConfig),
      isReservedSection sec.Name = false →
      parseSections devID (sec :: rest) drvConfig =
        (update drvConfig devID sec).bind (parseSections devID rest)) ∧
    isReservedSection "general" = false ∧ isReservedSection "Kernel" = false ∧
    isReservedSection "default" = false := by
  refine ⟨isReservedSection_iff, ?_, ?_, ?_, ?_, by decide, by decide, by decide⟩
  · intro iniLoad iniLoad' h
    unfold parseConfigs
    rw [parseDevices_workload h]
  · intro iniLoad m h
    obtain ⟨st, hst, h2⟩ := Result.bind_eq_ok.1 h
    obtain ⟨u, -, h3⟩ := Result.bind_eq_ok.1 h2
    simp only [Result.ok.injEq] at h3
    subst h3
    exact parseDevices_keys_not_reserved _ hst (by simp [GoMap.keys])
  · intro devID sec rest drvConfig hr
    simp [parseSections, hr]
  · intro devID sec rest drvConfig hr
    simp [parseSections, hr]

/-- Witness of C16: files with the five reserved sections, none of which holds a
key, and `dc1` reconcile as files with `dc1` alone; a file with a section
`general` without keys makes reconciliation fail. -/
theorem parseConfigs_skips_reserved_witness :
    parseConfigs RangeOrder.inOrder sampleLoadReserved "/etc" sampleDevices =
      .ok (sampleDc1Both false) ∧
    parseConfigs RangeOrder.inOrder sampleLoadLowerCase "/etc" sampleDevices =
      .error "Can't parse NumProcesses in general: strconv.ParseInt: parsing \"\": invalid syntax" ∧
    parseConfigs RangeOrder.inOrder sampleLoadReserved "/etc" sampleDevices =
      parseConfigs RangeOrder.inOrder sampleLoadPlain "/etc" sampleDevices :=
  ⟨by decide, by decide,
    (parseConfigs_skips_reserved RangeOrder.inOrder "/etc" sampleDevices).2.1
      sampleLoadReserved sampleLoadPlain (fun _ => by
        simp [sampleLoadReserved, sampleLoadPlain, Except.map, workloadSections,
          emptySection, IniSection.ofValues, sampleDc1, isReservedSection, iniDefaultSection])⟩

/-! ### The resolver: unfolding and the budget -/

theorem getTopologyHint_zero (fs : FileSystem) (ord : RangeOrder) (mockRoot p : String) :
    getTopologyHint fs ord mockRoot 0 p =
      (readHint fs ord p).bind fun hint0 =>
        if (clearNoNuma hint0).NUMAs ≠ "" ∧ (clearNoNuma hint0).CPUs = "" then .outOfFuel
        else .ok (clearNoNuma hint0) := by
  rw [getTopologyHint]
  rfl

theorem getTopologyHint_succ (fs : FileSystem) (ord : RangeOrder) (mockRoot p : String) (n : Nat) :
    getTopologyHint fs ord mockRoot (n + 1) p =
      (readHint fs ord p).bind fun hint0 =>
        if (clearNoNuma hint0).NUMAs ≠ "" ∧ (clearNoNuma hint0).CPUs = "" then
          parentWorkaround ord (clearNoNuma hint0)
            (NewTopologyHints fs ord mockRoot n (filepathDir p))
        else .ok (clearNoNuma hint0) := by
  rw [getTopologyHint]
  rfl

theorem walkUp_zero (fs : FileSystem) (ord : RangeOrder) (mockRoot p : String) (hints : Hints) :
    walkUp fs ord mockRoot 0 p hints =
      if stringsHasPrefix p (mockRoot ++ "/sys/devices/") then .outOfFuel else .ok hints := by
  rw [walkUp]

theorem walkUp_succ (fs : FileSystem) (ord : RangeOrder) (mockRoot p : String) (hints : Hints)
    (n : Nat) :
    walkUp fs ord mockRoot (n + 1) p hints =
      if stringsHasPrefix p (mockRoot ++ "/sys/devices/") then
        (getTopologyHint fs ord mockRoot n p).bind fun hint =>
          if hint.CPUs ≠ "" ∨ hint.NUMAs ≠ "" ∨ hint.Sockets ≠ "" then
            .ok (GoMap.set hints hint.Provider hint)
          else walkUp fs ord mockRoot n (filepathDir p) hints
      else .ok hints := by
  rw [walkUp]

theorem walkUp_of_outside (fs : FileSystem) (ord : RangeOrder) (mockRoot p : String)
    (hints : Hints) (n : Nat) (h : stringsHasPrefix p (mockRoot ++ "/sys/devices/") = false) :
    walkUp fs ord mockRoot n p hints = .ok hints := by
  cases n with
  | zero => rw [walkUp_zero, h]; rfl
  | succ n => rw [walkUp_succ, h]; rfl

theorem dependentsLoop_nil (fs : FileSystem) (ord : RangeOrder) (mockRoot : String) (n : Nat)
    (hints : Hints) : dependentsLoop fs ord mockRoot n [] hints = .ok hints := by
  cases n <;> rw [dependentsLoop]

theorem dependentsLoop_zero (fs : FileSystem) (ord : RangeOrder) (mockRoot : String) (dev : String)
    (rest : List String) (hints : Hints) :
    dependentsLoop fs ord mockRoot 0 (dev :: rest) hints = .outOfFuel := by
  rw [dependentsLoop]

theorem dependentsLoop_succ (fs : FileSystem) (ord : RangeOrder) (mockRoot : String) (n : Nat)
    (dev : String) (rest : List String) (hints : Hints) :
    dependentsLoop fs ord mockRoot (n + 1) (dev :: rest) hints =
      (NewTopologyHints fs ord mockRoot n dev).bind fun deviceHints =>
        dependentsLoop fs ord mockRoot n rest (MergeTopologyHints ord (some hints) deviceHints) := by
  rw [dependentsLoop]

theorem newTopologyHints_zero (fs : FileSystem) (ord : RangeOrder) (mockRoot p : String) :
    NewTopologyHints fs ord mockRoot 0 p = .outOfFuel := by
  rw [NewTopologyHints]

theorem newTopologyHints_succ (fs : FileSystem) (ord : RangeOrder) (mockRoot p : String) (n : Nat) :
    NewTopologyHints fs ord mockRoot (n + 1) p =
      match fs.EvalSymlinks p with
      | .error e => .error ("failed get realpath for " ++ p ++ ": " ++ e)
      | .ok realDevPath =>
        (walkUp fs ord mockRoot n realDevPath []).bind fun hints =>
          dependentsLoop fs ord mockRoot n (dependents fs mockRoot realDevPath) hints := by
  rw [NewTopologyHints]
  rfl

theorem Result.bind_ne_outOfFuel {α β : Type} {r : Result α} {f : α → Result β}
    (h : r.bind f ≠ .outOfFuel) : r ≠ .outOfFuel := by
  intro hr
  rw [hr] at h
  exact h rfl

theorem Result.bind_budget {α β : Type} {r r' : Result α} {f f' : α → Result β}
    (h : r.bind f ≠ .outOfFuel) (hr : r ≠ .outOfFuel → r' = r)
    (hf : ∀ a, r = .ok a → f a ≠ .outOfFuel → f' a = f a) : r'.bind f' = r.bind f := by
  rw [hr (Result.bind_ne_outOfFuel h)]
  cases r with
  | ok a => exact hf a rfl h
  | error e => rfl
  | panic => rfl
  | outOfFuel => exact absurd rfl h

theorem parentWorkaround_ne_outOfFuel {ord : RangeOrder} {hint : Hint} {r : Result Hints}
    (h : parentWorkaround ord hint r ≠ .outOfFuel) : r ≠ .outOfFuel := by
  intro hr
  rw [hr] at h
  exact h rfl

/-- A call of the resolver that ends within its budget ends the same way with
any larger budget. -/
theorem resolver_budget (fs : FileSystem) (ord : RangeOrder) (mockRoot : String) :
    ∀ n,
      (∀ m p, n ≤ m → getTopologyHint fs ord mockRoot n p ≠ .outOfFuel →
        getTopologyHint fs ord mockRoot m p = getTopologyHint fs ord mockRoot n p) ∧
      (∀ m p hints, n ≤ m → walkUp fs ord mockRoot n p hints ≠ .outOfFuel →
        walkUp fs ord mockRoot m p hints = walkUp fs ord mockRoot n p hints) ∧
      (∀ m l hints, n ≤ m → dependentsLoop fs ord mockRoot n l hints ≠ .outOfFuel →
        dependentsLoop fs ord mockRoot m l hints = dependentsLoop fs ord mockRoot n l hints) ∧
      (∀ m p, n ≤ m → NewTopologyHints fs ord mockRoot n p ≠ .outOfFuel →
        NewTopologyHints fs ord mockRoot m p = NewTopologyHints fs ord mockRoot n p) := by
  intro n
  induction n with
  | zero =>
    refine ⟨?_, ?_, ?_, ?_⟩
    · intro m p _ h
      cases m with
      | zero => rfl
      | succ k =>
        rw [getTopologyHint_zero] at h ⊢
        rw [getTopologyHint_succ]
        refine Result.bind_budget h (fun _ => rfl) ?_
        intro hint0 _ hne
        by_cases hc : (clearNoNuma hint0).NUMAs ≠ "" ∧ (clearNoNuma hint0).CPUs = ""
        · rw [if_pos hc] at hne
          exact absurd rfl hne
        · rw [if_neg hc, if_neg hc]
    · intro m p hints _ h
      rw [walkUp_zero] at h
      split at h
      · exact absurd rfl h
      · rename_i hp
        have hp' : stringsHasPrefix p (mockRoot ++ "/sys/devices/") = false := by simpa using hp
        rw [walkUp_of_outside _ _ _ _ _ _ hp', walkUp_of_outside _ _ _ _ _ _ hp']
    · intro m l hints _ h
      cases l with
      | nil => rw [dependentsLoop_nil, dependentsLoop_nil]
      | cons d rest =>
        rw [dependentsLoop_zero] at h
        exact absurd rfl h
    · intro m p _ h
      rw [newTopologyHints_zero] at h
      exact absurd rfl h
  | succ n ih =>
    obtain ⟨ihG, ihW, ihD, ihN⟩ := ih
    refine ⟨?_, ?_, ?_, ?_⟩
    · intro m p hm h
      obtain ⟨k, rfl⟩ : ∃ k, m = k + 1 := ⟨m - 1, by omega⟩
      have hk : n ≤ k := by omega
      rw [getTopologyHint_succ] at h ⊢
      rw [getTopologyHint_succ]
      refine Result.bind_budget h (fun _ => rfl) ?_
      intro hint0 _ hne
      by_cases hc : (clearNoNuma hint0).NUMAs ≠ "" ∧ (clearNoNuma hint0).CPUs = ""
      · rw [if_pos hc] at hne
        rw [if_pos hc, if_pos hc, ihN k _ hk (parentWorkaround_ne_outOfFuel hne)]
      · rw [if_neg hc, if_neg hc]
    · intro m p hints hm h
      obtain ⟨k, rfl⟩ : ∃ k, m = k + 1 := ⟨m - 1, by omega⟩
      have hk : n ≤ k := by omega
      rw [walkUp_succ] at h ⊢
      rw [walkUp_succ]
      by_cases hp : stringsHasPrefix p (mockRoot ++ "/sys/devices/") = true
      · rw [if_pos hp] at h
        rw [if_pos hp, if_pos hp]
        refine Result.bind_budget h (ihG k p hk) ?_
        intro hint _ hne
        by_cases hc : hint.CPUs ≠ "" ∨ hint.NUMAs ≠ "" ∨ hint.Sockets ≠ ""
        · rw [if_pos hc, if_pos hc]
        · rw [if_neg hc] at hne
          rw [if_neg hc, if_neg hc, ihW k _ _ hk hne]
      · rw [if_neg hp, if_neg hp]
    · intro m l hints hm h
      obtain ⟨k, rfl⟩ : ∃ k, m = k + 1 := ⟨m - 1, by omega⟩
      have hk : n ≤ k := by omega
      cases l with
      | nil => rw [dependentsLoop_nil, dependentsLoop_nil]
      | cons d rest =>
        rw [dependentsLoop_succ] at h ⊢
        rw [dependentsLoop_succ]
        refine Result.bind_budget h (ihN k d hk) ?_
        intro deviceHints _ hne
        exact ihD k _ _ hk hne
    · intro m p hm h
      obtain ⟨k, rfl⟩ : ∃ k, m = k + 1 := ⟨m - 1, by omega⟩
      have hk : n ≤ k := by omega
      rw [newTopologyHints_succ] at h ⊢
      rw [newTopologyHints_succ]
      cases he : fs.EvalSymlinks p with
      | error e => rfl
      | ok r =>
        rw [he] at h
        simp only at h ⊢
        refine Result.bind_budget h (ihW k r [] hk) ?_
        intro hints _ hne
        exact ihD k _ _ hk hne

theorem newTopologyHints_budget {fs : FileSystem} {ord : RangeOrder} {mockRoot : String}
    {n m : Nat} {p : String} {r : Result Hints} (hnm : n ≤ m)
    (h : NewTopologyHints fs ord mockRoot n p = r) (hr : r ≠ .outOfFuel) :
    NewTopologyHints fs ord mockRoot m p = r := by
  rw [← h]
  exact (resolver_budget fs ord mockRoot n).2.2.2 m p hnm (by rw [h]; exact hr)

theorem getTopologyHint_budget {fs : FileSystem} {ord : RangeOrder} {mockRoot : String}
    {n m : Nat} {p : String} {r : Result Hint} (hnm : n ≤ m)
    (h : getTopologyHint fs ord mockRoot n p = r) (hr : r ≠ .outOfFuel) :
    getTopologyHint fs ord mockRoot m p = r := by
  rw [← h]
  exact (resolver_budget fs ord mockRoot n).1 m p hnm (by rw [h]; exact hr)

theorem walkUp_budget {fs : FileSystem} {ord : RangeOrder} {mockRoot : String}
    {n m : Nat} {p : String} {hints : Hints} {r : Result Hints} (hnm : n ≤ m)
    (h : walkUp fs ord mockRoot n p hints = r) (hr : r ≠ .outOfFuel) :
    walkUp fs ord mockRoot m p hints = r := by
  rw [← h]
  exact (resolver_budget fs ord mockRoot n).2.1 m p hints hnm (by rw [h]; exact hr)

theorem dependentsLoop_budget {fs : FileSystem} {ord : RangeOrder} {mockRoot : String}
    {n m : Nat} {l : List String} {hints : Hints} {r : Result Hints} (hnm : n ≤ m)
    (h : dependentsLoop fs ord mockRoot n l hints = r) (hr : r ≠ .outOfFuel) :
    dependentsLoop fs ord mockRoot m l hints = r := by
  rw [← h]
  exact (resolver_budget fs ord mockRoot n).2.2.1 m l hints hnm (by rw [h]; exact hr)

/-! ### Topology hints of one directory: the workaround for a NUMA value without CPUs -/

theorem applyParentHints_eq (ord : RangeOrder) (hint : Hint) (parentHints : Hints) :
    applyParentHints ord hint parentHints =
      if parentNumas ord parentHints ≠ "" then
        { (if parentCpus ord parentHints ≠ "" then
            { hint with CPUs := parentCpus ord parentHints } else hint) with
          NUMAs := parentNumas ord parentHints }
      else if parentCpus ord parentHints ≠ "" then
        { hint with CPUs := parentCpus ord parentHints } else hint := rfl

theorem GoMap.mem_keys_set {V : Type} (m : GoMap V) (k k' : String) (v : V) :
    k' ∈ GoMap.keys (GoMap.set m k v) ↔ k' = k ∨ k' ∈ GoMap.keys m := by
  rw [GoMap.mem_keys_iff, GoMap.mem_keys_iff]
  simp only [GoMap.get_set]
  by_cases h : k = k'
  · subst h
    simp
  · simp [h, Ne.symm h]

theorem parentLists_foldl (l : List (String × Hint)) :
    ∀ acc : GoMap Bool × GoMap Bool, GoMap.WF acc.1 → GoMap.WF acc.2 →
      GoMap.WF (l.foldl parentStep acc).1 ∧ GoMap.WF (l.foldl parentStep acc).2 ∧
      (∀ k, k ∈ GoMap.keys (l.foldl parentStep acc).1 ↔
        k ∈ GoMap.keys acc.1 ∨ (k ≠ "" ∧ ∃ kh ∈ l, kh.2.CPUs = k)) ∧
      (∀ k, k ∈ GoMap.keys (l.foldl parentStep acc).2 ↔
        k ∈ GoMap.keys acc.2 ∨ (k ≠ "" ∧ ∃ kh ∈ l, kh.2.NUMAs = k)) := by
  induction l with
  | nil => intro acc h1 h2; simp [h1, h2]
  | cons kh rest ih =>
    intro acc h1 h2
    simp only [List.foldl_cons]
    have hw1 : GoMap.WF (parentStep acc kh).1 := by
      unfold parentStep
      simp only
      split
      · exact GoMap.wf_set _ _ h1
      · exact h1
    have hw2 : GoMap.WF (parentStep acc kh).2 := by
      unfold parentStep
      simp only
      split
      · exact GoMap.wf_set _ _ h2
      · exact h2
    obtain ⟨r1, r2, r3, r4⟩ := ih (parentStep acc kh) hw1 hw2
    refine ⟨r1, r2, ?_, ?_⟩
    · intro k
      rw [r3 k]
      by_cases hc : kh.2.CPUs ≠ ""
      · have hs : (parentStep acc kh).1 = acc.1.set kh.2.CPUs true := by simp [parentStep, hc]
        rw [hs]
        simp only [GoMap.mem_keys_set, List.mem_cons, ne_eq]
        constructor
        · rintro ((rfl | h) | ⟨hk, kh', hkh', rfl⟩)
          · exact Or.inr ⟨hc, kh, Or.inl rfl, rfl⟩
          · exact Or.inl h
          · exact Or.inr ⟨hk, kh', Or.inr hkh', rfl⟩
        · rintro (h | ⟨hk, kh', hkh' | hkh', rfl⟩)
          · exact Or.inl (Or.inr h)
          · subst hkh'
            exact Or.inl (Or.inl rfl)
          · exact Or.inr ⟨hk, kh', hkh', rfl⟩
      · have hc' : kh.2.CPUs = "" := by simpa using hc
        have hs : (parentStep acc kh).1 = acc.1 := by simp [parentStep, hc']
        rw [hs]
        simp only [List.mem_cons, ne_eq]
        constructor
        · rintro (h | ⟨hk, kh', hkh', rfl⟩)
          · exact Or.inl h
          · exact Or.inr ⟨hk, kh', Or.inr hkh', rfl⟩
        · rintro (h | ⟨hk, kh', hkh' | hkh', rfl⟩)
          · exact Or.inl h
          · subst hkh'
            exact absurd hc' hk
          · exact Or.inr ⟨hk, kh', hkh', rfl⟩
    · intro k
      rw [r4 k]
      by_cases hc : kh.2.NUMAs ≠ ""
      · have hs : (parentStep acc kh).2 = acc.2.set kh.2.NUMAs true := by simp [parentStep, hc]
        rw [hs]
        simp only [GoMap.mem_keys_set, List.mem_cons, ne_eq]
        constructor
        · rintro ((rfl | h) | ⟨hk, kh', hkh', rfl⟩)
          · exact Or.inr ⟨hc, kh, Or.inl rfl, rfl⟩
          · exact Or.inl h
          · exact Or.inr ⟨hk, kh', Or.inr hkh', rfl⟩
        · rintro (h | ⟨hk, kh', hkh' | hkh', rfl⟩)
          · exact Or.inl (Or.inr h)
          · subst hkh'
            exact Or.inl (Or.inl rfl)
          · exact Or.inr ⟨hk, kh', hkh', rfl⟩
      · have hc' : kh.2.NUMAs = "" := by simpa using hc
        have hs : (parentStep acc kh).2 = acc.2 := by simp [parentStep, hc']
        rw [hs]
        simp only [List.mem_cons, ne_eq]
        constructor
        · rintro (h | ⟨hk, kh', hkh', rfl⟩)
          · exact Or.inl h
          · exact Or.inr ⟨hk, kh', Or.inr hkh', rfl⟩
        · rintro (h | ⟨hk, kh', hkh' | hkh', rfl⟩)
          · exact Or.inl h
          · subst hkh'
            exact absurd hc' hk
          · exact Or.inr ⟨hk, kh', hkh', rfl⟩

theorem parentLists_keys (ord : RangeOrder) (hord : ord.Valid) (parentHints : Hints) :
    GoMap.WF (parentLists ord parentHints).1 ∧ GoMap.WF (parentLists ord parentHints).2 ∧
    (∀ k, k ∈ GoMap.keys (parentLists ord parentHints).1 ↔
      k ≠ "" ∧ ∃ kh ∈ parentHints, kh.2.CPUs = k) ∧
    (∀ k, k ∈ GoMap.keys (parentLists ord parentHints).2 ↔
      k ≠ "" ∧ ∃ kh ∈ parentHints, kh.2.NUMAs = k) := by
  obtain ⟨r1, r2, r3, r4⟩ := parentLists_foldl (ord _ parentHints) ([], [])
    (by simp [GoMap.WF, GoMap.keys]) (by simp [GoMap.WF, GoMap.keys])
  refine ⟨r1, r2, ?_, ?_⟩
  · intro k
    have := r3 k
    simp only [GoMap.keys, List.map_nil, List.not_mem_nil, false_or] at this
    rw [parentLists, GoMap.keys, this]
    simp only [(hord _ parentHints).mem_iff]
  · intro k
    have := r4 k
    simp only [GoMap.keys, List.map_nil, List.not_mem_nil, false_or] at this
    rw [parentLists, GoMap.keys, this]
    simp only [(hord _ parentHints).mem_iff]

theorem stringsJoin_eq_empty {l : List String} {sep : String} (h : stringsJoin l sep = "") :
    ∀ x ∈ l, x = "" := by
  induction l with
  | nil => simp
  | cons a rest ih =>
    cases rest with
    | nil =>
      intro x hx
      simp only [List.mem_singleton] at hx
      subst hx
      have : stringsJoin [x] sep = x := by
        apply String.ext
        simp [stringsJoin, List.intercalate]
      rw [this] at h
      exact h
    | cons b rest' =>
      rw [stringsJoin_cons_cons] at h
      have hlen := congrArg String.length h
      simp only [String.length_append] at hlen
      have h0 : "".length = 0 := rfl
      rw [h0] at hlen
      have ha : a = "" := by
        apply String.ext
        have : a.length = 0 := by omega
        exact List.length_eq_zero.1 this
      have hr : stringsJoin (b :: rest') sep = "" := by
        apply String.ext
        have : (stringsJoin (b :: rest') sep).length = 0 := by omega
        exact List.length_eq_zero.1 this
      intro x hx
      rcases List.mem_cons.1 hx with rfl | hx
      · exact ha
      · exact ih hr x hx

theorem mapKeys_mem (ord : RangeOrder) (hord : ord.Valid) (m : GoMap Bool) (k : String) :
    k ∈ mapKeys ord m ↔ k ∈ GoMap.keys m := by
  unfold mapKeys GoMap.keys
  exact ((hord _ m).map Prod.fst).mem_iff

theorem mapKeys_nodup (ord : RangeOrder) (hord : ord.Valid) (m : GoMap Bool) (h : GoMap.WF m) :
    (mapKeys ord m).Nodup := by
  unfold mapKeys
  exact ((hord _ m).map Prod.fst).nodup_iff.2 h

theorem parentCpus_ne_empty_iff (ord : RangeOrder) (hord : ord.Valid) (parentHints : Hints) :
    parentCpus ord parentHints ≠ "" ↔ ∃ kh ∈ parentHints, kh.2.CPUs ≠ "" := by
  obtain ⟨-, -, hk, -⟩ := parentLists_keys ord hord parentHints
  constructor
  · intro h
    by_contra hno
    push_neg at hno
    apply h
    have hnil : mapKeys ord (parentLists ord parentHints).1 = [] := by
      rw [List.eq_nil_iff_forall_not_mem]
      intro k hkm
      obtain ⟨hne, kh, hkh, rfl⟩ := (hk k).1 ((mapKeys_mem ord hord _ k).1 hkm)
      exact hne (hno kh hkh)
    rw [parentCpus, hnil]
    rfl
  · rintro ⟨kh, hkh, hne⟩ h
    have hmem : kh.2.CPUs ∈ mapKeys ord (parentLists ord parentHints).1 :=
      (mapKeys_mem ord hord _ _).2 ((hk _).2 ⟨hne, kh, hkh, rfl⟩)
    exact hne (stringsJoin_eq_empty h _ hmem)

theorem parentNumas_ne_empty_iff (ord : RangeOrder) (hord : ord.Valid) (parentHints : Hints) :
    parentNumas ord parentHints ≠ "" ↔ ∃ kh ∈ parentHints, kh.2.NUMAs ≠ "" := by
  obtain ⟨-, -, -, hk⟩ := parentLists_keys ord hord parentHints
  constructor
  · intro h
    by_contra hno
    push_neg at hno
    apply h
    have hnil : mapKeys ord (parentLists ord parentHints).2 = [] := by
      rw [List.eq_nil_iff_forall_not_mem]
      intro k hkm
      obtain ⟨hne, kh, hkh, rfl⟩ := (hk k).1 ((mapKeys_mem ord hord _ k).1 hkm)
      exact hne (hno kh hkh)
    rw [parentNumas, hnil]
    rfl
  · rintro ⟨kh, hkh, hne⟩ h
    have hmem : kh.2.NUMAs ∈ mapKeys ord (parentLists ord parentHints).2 :=
      (mapKeys_mem ord hord _ _).2 ((hk _).2 ⟨hne, kh, hkh, rfl⟩)
    exact hne (stringsJoin_eq_empty h _ hmem)


theorem readFilesInDirectory_fields {fs : FileSystem} {dir : String}
    (l : List (String × (Hint → String → Hint))) (hl : ∀ kv ∈ l, kv ∈ hintFileMap) :
    ∀ hint h, readFilesInDirectory fs dir l hint = .ok h →
      h.Provider = hint.Provider ∧ h.Sockets = hint.Sockets := by
  induction l with
  | nil =>
    intro hint h hr
    simp only [readFilesInDirectory, Result.ok.injEq] at hr
    subst hr
    exact ⟨rfl, rfl⟩
  | cons kv rest ih =>
    intro hint h hr
    have hrest : ∀ kv' ∈ rest, kv' ∈ hintFileMap := fun kv' h' => hl kv' (List.mem_cons_of_mem _ h')
    obtain ⟨k, v⟩ := kv
    simp only [readFilesInDirectory] at hr
    split at hr
    · exact ih hrest hint h hr
    · cases hr
    · rename_i b hb
      obtain ⟨h1, h2⟩ := ih hrest _ h hr
      have hkv := hl (k, v) (List.mem_cons_self _ _)
      simp only [hintFileMap, List.mem_cons, List.mem_singleton, List.not_mem_nil, or_false,
        Prod.mk.injEq] at hkv
      rcases hkv with ⟨-, rfl⟩ | ⟨-, rfl⟩
      · exact ⟨h1, h2⟩
      · exact ⟨h1, h2⟩

theorem readHint_fields {fs : FileSystem} {ord : RangeOrder} (hord : ord.Valid) {p : String}
    {hint0 : Hint} (h : readHint fs ord p = .ok hint0) :
    hint0.Provider = p ∧ hint0.Sockets = "" :=
  readFilesInDirectory_fields _ (fun _ hkv => (hord _ hintFileMap).mem_iff.1 hkv) _ _ h

theorem getTopologyHint_eq_ok {fs : FileSystem} {ord : RangeOrder} {mockRoot : String}
    {fuel : Nat} {p : String} {hint : Hint}
    (h : getTopologyHint fs ord mockRoot fuel p = .ok hint) :
    ∃ hint0, readHint fs ord p = .ok hint0 ∧
      ((¬ ((clearNoNuma hint0).NUMAs ≠ "" ∧ (clearNoNuma hint0).CPUs = "") ∧
          hint = clearNoNuma hint0) ∨
        (((clearNoNuma hint0).NUMAs ≠ "" ∧ (clearNoNuma hint0).CPUs = "") ∧
          ∃ n, fuel = n + 1 ∧
            parentWorkaround ord (clearNoNuma hint0)
              (NewTopologyHints fs ord mockRoot n (filepathDir p)) = .ok hint)) := by
  cases fuel with
  | zero =>
    rw [getTopologyHint_zero] at h
    obtain ⟨hint0, h0, h1⟩ := Result.bind_eq_ok.1 h
    refine ⟨hint0, h0, ?_⟩
    by_cases hc : (clearNoNuma hint0).NUMAs ≠ "" ∧ (clearNoNuma hint0).CPUs = ""
    · rw [if_pos hc] at h1
      cases h1
    · rw [if_neg hc] at h1
      cases h1
      exact Or.inl ⟨hc, rfl⟩
  | succ n =>
    rw [getTopologyHint_succ] at h
    obtain ⟨hint0, h0, h1⟩ := Result.bind_eq_ok.1 h
    refine ⟨hint0, h0, ?_⟩
    by_cases hc : (clearNoNuma hint0).NUMAs ≠ "" ∧ (clearNoNuma hint0).CPUs = ""
    · rw [if_pos hc] at h1
      exact Or.inr ⟨hc, n, rfl, h1⟩
    · rw [if_neg hc] at h1
      cases h1
      exact Or.inl ⟨hc, rfl⟩

theorem parentWorkaround_eq_ok {ord : RangeOrder} {hint h : Hint} {r : Result Hints}
    (hr : parentWorkaround ord hint r = .ok h) :
    (∃ parentHints, r = .ok parentHints ∧ h = numaAsSockets (applyParentHints ord hint parentHints)) ∨
    ((∃ e, r = .error e) ∧ h = numaAsSockets hint) := by
  cases r with
  | ok parentHints =>
    simp only [parentWorkaround, Result.ok.injEq] at hr
    exact Or.inl ⟨parentHints, rfl, hr.symm⟩
  | error e =>
    simp only [parentWorkaround, Result.ok.injEq] at hr
    exact Or.inr ⟨⟨e, rfl⟩, hr.symm⟩
  | panic => cases hr
  | outOfFuel => cases hr

theorem numaAsSockets_numa (hint : Hint) :
    (numaAsSockets hint).NUMAs ≠ "" → (numaAsSockets hint).CPUs ≠ "" := by
  unfold numaAsSockets
  split
  · intro h
    exact absurd rfl h
  · rename_i hc
    intro hn hcpu
    exact hc ⟨hcpu, hn⟩

theorem numaAsSockets_sockets (hint : Hint) (hs : hint.Sockets = "") :
    (numaAsSockets hint).Sockets ≠ "" →
      (numaAsSockets hint).CPUs = "" ∧ (numaAsSockets hint).NUMAs = "" := by
  unfold numaAsSockets
  split
  · rename_i hc
    intro _
    exact ⟨hc.1, rfl⟩
  · intro h
    exact absurd hs h

theorem applyParentHints_fields (ord : RangeOrder) (hint : Hint) (parentHints : Hints) :
    (applyParentHints ord hint parentHints).Provider = hint.Provider ∧
    (applyParentHints ord hint parentHints).Sockets = hint.Sockets := by
  rw [applyParentHints_eq]
  split <;> split <;> exact ⟨rfl, rfl⟩

theorem clearNoNuma_fields (hint0 : Hint) :
    (clearNoNuma hint0).Provider = hint0.Provider ∧ (clearNoNuma hint0).Sockets = hint0.Sockets ∧
    (clearNoNuma hint0).CPUs = hint0.CPUs := by
  unfold clearNoNuma
  split <;> exact ⟨rfl, rfl, rfl⟩

theorem getTopologyHint_numa {fs : FileSystem} {ord : RangeOrder} {mockRoot : String}
    {fuel : Nat} {p : String} {hint : Hint}
    (h : getTopologyHint fs ord mockRoot fuel p = .ok hint) : hint.NUMAs ≠ "" → hint.CPUs ≠ "" := by
  obtain ⟨hint0, -, ⟨hc, rfl⟩ | ⟨-, n, -, hpw⟩⟩ := getTopologyHint_eq_ok h
  · intro hn hcpu
    exact hc ⟨hn, hcpu⟩
  · rcases parentWorkaround_eq_ok hpw with ⟨ph, -, rfl⟩ | ⟨-, rfl⟩ <;> exact numaAsSockets_numa _

theorem walkUp_numaWithCpus {fs : FileSystem} {ord : RangeOrder} {mockRoot : String} :
    ∀ (n : Nat) (p : String) (hints R : Hints), walkUp fs ord mockRoot n p hints = .ok R →
      NumaWithCpus hints → NumaWithCpus R := by
  intro n
  induction n with
  | zero =>
    intro p hints R h hinv
    rw [walkUp_zero] at h
    split at h
    · cases h
    · cases h
      exact hinv
  | succ n ih =>
    intro p hints R h hinv
    rw [walkUp_succ] at h
    split at h
    · obtain ⟨hint, hg, h2⟩ := Result.bind_eq_ok.1 h
      split at h2
      · cases h2
        intro kv hkv
        rcases GoMap.mem_set hkv with rfl | hmem
        · exact getTopologyHint_numa hg
        · exact hinv kv hmem
      · exact ih _ _ _ h2 hinv
    · cases h
      exact hinv

theorem mergeLoop_mem (l : List (String × Hint)) :
    ∀ (res : Hints) (e : String × Hint), e ∈ mergeLoop l res → e ∈ res ∨ e ∈ l := by
  induction l with
  | nil => intro res e h; exact Or.inl h
  | cons kv rest ih =>
    intro res e h
    obtain ⟨k, v⟩ := kv
    simp only [mergeLoop] at h
    split at h
    · rcases ih _ _ h with h1 | h1
      · exact Or.inl h1
      · exact Or.inr (List.mem_cons_of_mem _ h1)
    · rcases ih _ _ h with h1 | h1
      · rcases GoMap.mem_set h1 with rfl | h2
        · exact Or.inr (List.mem_cons_self _ _)
        · exact Or.inl h2
      · exact Or.inr (List.mem_cons_of_mem _ h1)

theorem mergeTopologyHints_mem {ord : RangeOrder} (hord : ord.Valid) {org : Option Hints}
    {hints : Hints} {e : String × Hint} (h : e ∈ MergeTopologyHints ord org hints) :
    e ∈ orgMap org ∨ e ∈ hints := by
  have heq : MergeTopologyHints ord org hints = mergeLoop (ord _ hints) (orgMap org) := by
    cases org <;> rfl
  rw [heq] at h
  rcases mergeLoop_mem _ _ _ h with h1 | h1
  · exact Or.inl h1
  · exact Or.inr ((hord _ hints).mem_iff.1 h1)

theorem resolver_numaWithCpus {fs : FileSystem} {ord : RangeOrder} (hord : ord.Valid)
    {mockRoot : String} :
    ∀ n : Nat,
      (∀ (l : List String) (hints R : Hints), dependentsLoop fs ord mockRoot n l hints = .ok R →
        NumaWithCpus hints → NumaWithCpus R) ∧
      (∀ (p : String) (R : Hints), NewTopologyHints fs ord mockRoot n p = .ok R →
        NumaWithCpus R) := by
  intro n
  induction n with
  | zero =>
    constructor
    · intro l hints R h hinv
      cases l with
      | nil =>
        rw [dependentsLoop_nil] at h
        cases h
        exact hinv
      | cons d rest =>
        rw [dependentsLoop_zero] at h
        cases h
    · intro p R h
      rw [newTopologyHints_zero] at h
      cases h
  | succ n ih =>
    obtain ⟨ihD, ihN⟩ := ih
    constructor
    · intro l hints R h hinv
      cases l with
      | nil =>
        rw [dependentsLoop_nil] at h
        cases h
        exact hinv
      | cons d rest =>
        rw [dependentsLoop_succ] at h
        obtain ⟨dh, hd, h2⟩ := Result.bind_eq_ok.1 h
        refine ihD _ _ _ h2 ?_
        intro kv hkv
        rcases mergeTopologyHints_mem hord hkv with h1 | h1
        · exact hinv kv h1
        · exact ihN _ _ hd kv h1
    · intro p R h
      rw [newTopologyHints_succ] at h
      split at h
      · cases h
      · obtain ⟨hints, hw, h2⟩ := Result.bind_eq_ok.1 h
        exact ihD _ _ _ h2 (walkUp_numaWithCpus _ _ _ _ hw (by intro kv hkv; simp at hkv))

theorem parentNumas_of_no_cpus {ord : RangeOrder} (hord : ord.Valid) {parentHints : Hints}
    (hinv : NumaWithCpus parentHints) (h : parentCpus ord parentHints = "") :
    parentNumas ord parentHints = "" := by
  by_contra hn
  obtain ⟨kh, hkh, hne⟩ := (parentNumas_ne_empty_iff ord hord parentHints).1 hn
  exact (parentCpus_ne_empty_iff ord hord parentHints).2 ⟨kh, hkh, hinv kh hkh hne⟩ h

/-- C19: a hint that `getTopologyHint` returns never has a NUMAs field without
a CPUs field, and has a Sockets field only when both others are empty.  When
the directory gives a NUMA value (not empty and not `-1`) and no CPU list, the
hint is one of two: if the hints of the parent directory hold a CPU list, the
CPUs field is the comma-joined CPU lists of the parent hints, the NUMAs field is
the comma-joined NUMA values of the parent hints, or the value of the directory
when the parent hints hold none, and Sockets is empty; otherwise the NUMA value
of the directory is the Sockets field and the NUMAs and CPUs fields are empty.
In every other case the hint is what the files give, with `-1` cleared.  The
joined NUMA values are the distinct non-empty NUMAs fields of the parent
hints. -/
theorem getTopologyHint_consistent (fs : FileSystem) (ord : RangeOrder) (hord : ord.Valid)
    (mockRoot : String) (fuel : Nat) (sysFSPath : String) (hint : Hint)
    (h : getTopologyHint fs ord mockRoot fuel sysFSPath = .ok hint) :
    (hint.NUMAs ≠ "" → hint.CPUs ≠ "") ∧
    (hint.Sockets ≠ "" → hint.CPUs = "" ∧ hint.NUMAs = "") ∧
    (∃ hint0, readHint fs ord sysFSPath = .ok hint0 ∧
      ((hint0.NUMAs = "" ∨ hint0.NUMAs = "-1" ∨ hint0.CPUs ≠ "") → hint = clearNoNuma hint0) ∧
      (hint0.NUMAs ≠ "" → hint0.NUMAs ≠ "-1" → hint0.CPUs = "" →
        (∃ n parentHints, fuel = n + 1 ∧
          NewTopologyHints fs ord mockRoot n (filepathDir sysFSPath) = .ok parentHints ∧
          parentCpus ord parentHints ≠ "" ∧
          hint = { Provider := sysFSPath, CPUs := parentCpus ord parentHints,
                   NUMAs := if parentNumas ord parentHints ≠ "" then parentNumas ord parentHints
                            else hint0.NUMAs,
                   Sockets := "" }) ∨
        hint = { Provider := sysFSPath, CPUs := "", NUMAs := "", Sockets := hint0.NUMAs })) ∧
    (∀ parentHints : Hints, ∃ cpuKeys numaKeys : List String,
      cpuKeys.Nodup ∧ numaKeys.Nodup ∧
      (∀ k, k ∈ cpuKeys ↔ k ≠ "" ∧ ∃ kh ∈ parentHints, kh.2.CPUs = k) ∧
      (∀ k, k ∈ numaKeys ↔ k ≠ "" ∧ ∃ kh ∈ parentHints, kh.2.NUMAs = k) ∧
      parentCpus ord parentHints = stringsJoin cpuKeys "," ∧
      parentNumas ord parentHints = stringsJoin numaKeys ",") := by
  refine ⟨getTopologyHint_numa h, ?_, ?_, ?_⟩
  · obtain ⟨hint0, h0, ⟨hc, rfl⟩ | ⟨-, n, -, hpw⟩⟩ := getTopologyHint_eq_ok h
    · intro hs
      rw [(clearNoNuma_fields hint0).2.1, (readHint_fields hord h0).2] at hs
      exact absurd rfl hs
    · have hs0 : (clearNoNuma hint0).Sockets = "" := by
        rw [(clearNoNuma_fields hint0).2.1, (readHint_fields hord h0).2]
      rcases parentWorkaround_eq_ok hpw with ⟨ph, -, rfl⟩ | ⟨-, rfl⟩
      · exact numaAsSockets_sockets _ (by rw [(applyParentHints_fields _ _ _).2, hs0])
      · exact numaAsSockets_sockets _ hs0
  · obtain ⟨hint0, h0, hcases⟩ := getTopologyHint_eq_ok h
    obtain ⟨hprov, hsock⟩ := readHint_fields hord h0
    refine ⟨hint0, h0, ?_, ?_⟩
    · intro hno
      rcases hcases with ⟨-, rfl⟩ | ⟨hc, -⟩
      · rfl
      · exfalso
        obtain ⟨hc1, hc2⟩ := hc
        rw [(clearNoNuma_fields hint0).2.2] at hc2
        rcases hno with hn | hn | hn
        · apply hc1
          simp [clearNoNuma, hn]
        · apply hc1
          simp [clearNoNuma, hn]
        · exact hn hc2
    · intro hn1 hn2 hcpu
      have hclear : clearNoNuma hint0 = hint0 := by simp [clearNoNuma, hn2]
      rcases hcases with ⟨hc, -⟩ | ⟨-, n, hfuel, hpw⟩
      · exfalso
        rw [hclear] at hc
        exact hc ⟨hn1, hcpu⟩
      · rw [hclear] at hpw
        have hsockets : numaAsSockets hint0 =
            { Provider := sysFSPath, CPUs := "", NUMAs := "", Sockets := hint0.NUMAs } := by
          unfold numaAsSockets
          rw [if_pos ⟨hcpu, hn1⟩, hprov, hcpu]
        rcases parentWorkaround_eq_ok hpw with ⟨ph, hph, rfl⟩ | ⟨-, rfl⟩
        · by_cases hpc : parentCpus ord ph = ""
          · right
            have hpn := parentNumas_of_no_cpus hord
              ((resolver_numaWithCpus hord n).2 _ _ hph) hpc
            have : applyParentHints ord hint0 ph = hint0 := by
              rw [applyParentHints_eq]
              simp [hpc, hpn]
            rw [this, hsockets]
          · left
            refine ⟨n, ph, hfuel, hph, hpc, ?_⟩
            rw [applyParentHints_eq]
            unfold numaAsSockets
            by_cases hpn : parentNumas ord ph = ""
            · simp [hpc, hpn, hprov, hsock]
            · simp [hpc, hpn, hprov, hsock]
        · right
          exact hsockets
  · intro parentHints
    obtain ⟨w1, w2, k1, k2⟩ := parentLists_keys ord hord parentHints
    refine ⟨mapKeys ord (parentLists ord parentHints).1, mapKeys ord (parentLists ord parentHints).2,
      mapKeys_nodup ord hord _ w1, mapKeys_nodup ord hord _ w2, ?_, ?_, rfl, rfl⟩
    · intro k
      rw [mapKeys_mem ord hord, k1]
    · intro k
      rw [mapKeys_mem ord hord, k2]

/-- Witness of C19: with a parent that gives CPUs `0-3` and NUMA 0, the
directory with the bare NUMA value 1 gets the CPUs and the NUMA value of the
parent; without any parent hint it gets the socket 1. -/
theorem getTopologyHint_consistent_witness :
    RangeOrder.Valid RangeOrder.backwards ∧
    getTopologyHint sampleFsParent RangeOrder.backwards "" 5 "/sys/devices/a/b" =
      .ok { Provider := "/sys/devices/a/b", CPUs := "0-3", NUMAs := "0", Sockets := "" } ∧
    getTopologyHint sampleFsBareNuma RangeOrder.backwards "" 5 "/sys/devices/a/b" =
      .ok { Provider := "/sys/devices/a/b", CPUs := "", NUMAs := "", Sockets := "1" } ∧
    ((({ Provider := "/sys/devices/a/b", CPUs := "", NUMAs := "", Sockets := "1" } : Hint).Sockets
        ≠ "" →
      ({ Provider := "/sys/devices/a/b", CPUs := "", NUMAs := "", Sockets := "1" } : Hint).CPUs = "" ∧
      ({ Provider := "/sys/devices/a/b", CPUs := "", NUMAs := "", Sockets := "1" } : Hint).NUMAs
        = "")) :=
  ⟨RangeOrder.valid_backwards, by decide, by decide,
    (getTopologyHint_consistent sampleFsBareNuma RangeOrder.backwards RangeOrder.valid_backwards
      "" 5 "/sys/devices/a/b" _ (by decide)).2.1⟩

/-! ### The upward walk shortens the path -/

theorem splitOn_weight (cs : List Char) :
    ((cs.splitOn '/').map fun l => l.length + 1).sum = cs.length + 1 := by
  induction cs with
  | nil => rfl
  | cons c rest ih =>
    unfold List.splitOn at ih ⊢
    rw [List.splitOnP_cons]
    split
    · simp only [List.map_cons, List.sum_cons, List.length_nil, List.length_cons, ih]
      omega
    · cases hs : List.splitOnP (fun x => x == '/') rest with
      | nil => exact absurd hs (List.splitOnP_ne_nil _ _)
      | cons h t =>
        rw [hs] at ih
        simp only [List.modifyHead_cons, List.map_cons, List.sum_cons, List.length_cons] at ih ⊢
        omega

theorem splitOn_append_sep (ys : List Char) :
    (ys ++ ['/']).splitOn '/' = ys.splitOn '/' ++ [[]] := by
  induction ys with
  | nil => rfl
  | cons c rest ih =>
    unfold List.splitOn at ih ⊢
    rw [List.cons_append, List.splitOnP_cons, List.splitOnP_cons, ih]
    split
    · rfl
    · cases hs : List.splitOnP (fun x => x == '/') rest with
      | nil => exact absurd hs (List.splitOnP_ne_nil _ _)
      | cons h t => rfl

theorem elementWeight_le (c : String) : elementWeight c ≤ c.length + 1 := by
  unfold elementWeight
  split <;> omega

theorem splitOn_elementWeight (cs : List Char) :
    (((cs.splitOn '/').map String.mk).map elementWeight).sum ≤ cs.length + 1 := by
  rw [← splitOn_weight cs, List.map_map]
  apply List.sum_le_sum
  intro l _
  exact elementWeight_le _

theorem stringsSplit_weight_of_trailing (ys : List Char) :
    ((stringsSplit (String.mk (ys ++ ['/'])) '/').map elementWeight).sum ≤ ys.length + 1 := by
  unfold stringsSplit
  show (((ys ++ ['/']).splitOn '/').map String.mk |>.map elementWeight).sum ≤ _
  rw [splitOn_append_sep, List.map_append, List.map_append, List.sum_append]
  have := splitOn_elementWeight ys
  have h0 : (List.map elementWeight (List.map String.mk [([] : List Char)])).sum = 0 := by
    simp [elementWeight]
  omega

theorem stackWeight_cleanStep (rooted : Bool) (stack : List String) (c : String) :
    stackWeight (cleanStep rooted stack c) ≤ stackWeight stack + elementWeight c := by
  unfold cleanStep
  split
  · omega
  · rename_i h1
    have hc : c ≠ "" := fun h => h1 (Or.inl h)
    split
    · rename_i h2
      subst h2
      cases stack with
      | nil =>
        cases rooted
        · simp [stackWeight, elementWeight]
        · simp [stackWeight]
      | cons t rest =>
        simp only
        split
        · simp only [stackWeight, List.map_cons, List.sum_cons, elementWeight]
          simp
          omega
        · simp only [stackWeight, List.map_cons, List.sum_cons]
          omega
    · simp only [stackWeight, List.map_cons, List.sum_cons, elementWeight, hc, if_false]
      omega

theorem stackWeight_foldl (rooted : Bool) (parts : List String) :
    ∀ stack, stackWeight (parts.foldl (cleanStep rooted) stack) ≤
      stackWeight stack + (parts.map elementWeight).sum := by
  induction parts with
  | nil => intro stack; simp
  | cons c rest ih =>
    intro stack
    simp only [List.foldl_cons, List.map_cons, List.sum_cons]
    have h1 := ih (cleanStep rooted stack c)
    have h2 := stackWeight_cleanStep rooted stack c
    omega

theorem stringsJoin_length (l : List String) (hne : l ≠ []) :
    (stringsJoin l "/").length + 1 = stackWeight l := by
  induction l with
  | nil => exact absurd rfl hne
  | cons a rest ih =>
    cases rest with
    | nil =>
      have : stringsJoin [a] "/" = a := by
        apply String.ext
        simp [stringsJoin, List.intercalate]
      rw [this]
      simp [stackWeight]
    | cons b rest' =>
      rw [stringsJoin_cons_cons]
      have := ih (by simp)
      simp only [stackWeight, List.map_cons, List.sum_cons, String.length_append] at this ⊢
      have h1 : "/".length = 1 := rfl
      omega

theorem stackWeight_reverse (l : List String) : stackWeight l.reverse = stackWeight l := by
  unfold stackWeight
  rw [List.map_reverse, List.sum_reverse]

theorem filepathClean_length (x : String) (hx : x ≠ "") :
    (filepathClean x).length ≤
      max 1 (((stringsSplit x '/').map elementWeight).sum -
        if stringsHasPrefix x "/" then 0 else 1) := by
  unfold filepathClean
  rw [if_neg hx]
  simp only
  have hw := stackWeight_foldl (stringsHasPrefix x "/") (stringsSplit x '/') []
  have hw0 : stackWeight [] = 0 := rfl
  rw [hw0, Nat.zero_add] at hw
  generalize (stringsSplit x '/').foldl (cleanStep (stringsHasPrefix x "/")) [] = stack at hw
  generalize ((stringsSplit x '/').map elementWeight).sum = total at hw
  have hdot : ".".length = 1 := rfl
  have hslash : "/".length = 1 := rfl
  have hempty : "".length = 0 := rfl
  by_cases hs : stack = []
  · subst hs
    have hj : stringsJoin ([] : List String).reverse "/" = "" := rfl
    rw [hj]
    cases stringsHasPrefix x "/"
    · simp only [Bool.false_eq_true, if_false, String.append_empty]
      simp [hdot]
    · simp only [if_true]
      split
      · simp [hdot]
      · simp only [String.length_append, hslash, hempty]
        omega
  · have hlen := stringsJoin_length stack.reverse (by simpa using hs)
    rw [stackWeight_reverse] at hlen
    cases stringsHasPrefix x "/"
    · simp only [Bool.false_eq_true, if_false]
      split
      · simp [hdot]
      · simp only [String.length_append, hempty]
        omega
    · simp only [if_true]
      split
      · simp [hdot]
      · simp only [String.length_append, hslash]
        omega

theorem filepathClean_trailing (ys : List Char) (hys : ys ≠ []) :
    (filepathClean (String.mk (ys ++ ['/']))).length < (ys ++ ['/']).length := by
  have hx : String.mk (ys ++ ['/']) ≠ "" := by
    intro h
    have := congrArg String.length h
    simp at this
  have hlen := filepathClean_length _ hx
  have hpos : 1 ≤ ys.length := List.length_pos.2 hys
  rw [List.length_append, List.length_singleton]
  cases hr : stringsHasPrefix (String.mk (ys ++ ['/'])) "/" with
  | false =>
    rw [hr] at hlen
    have := stringsSplit_weight_of_trailing ys
    simp only [Bool.false_eq_true, if_false] at hlen
    omega
  | true =>
    rw [hr] at hlen
    obtain ⟨zs, rfl⟩ : ∃ zs, ys = '/' :: zs := by
      cases ys with
      | nil => exact absurd rfl hys
      | cons c zs =>
        simp only [stringsHasPrefix, String.toList, List.cons_append] at hr
        have hc : c = '/' := by
          simp only [List.isPrefixOf, Bool.and_true, beq_iff_eq] at hr
          exact hr.symm
        exact ⟨zs, by rw [hc]⟩
    have hsplit : stringsSplit (String.mk ('/' :: zs ++ ['/'])) '/' =
        "" :: stringsSplit (String.mk (zs ++ ['/'])) '/' := by
      unfold stringsSplit
      show List.map String.mk (List.splitOn '/' ('/' :: (zs ++ ['/']))) = _
      unfold List.splitOn
      rw [List.splitOnP_cons]
      simp
    have := stringsSplit_weight_of_trailing zs
    rw [hsplit] at hlen
    simp only [List.map_cons, List.sum_cons, if_true, Nat.sub_zero] at hlen
    have h0 : elementWeight "" = 0 := by simp [elementWeight]
    rw [h0] at hlen
    simp only [List.length_cons] at hpos ⊢
    omega

theorem takeWhile_length_le {α : Type} (q : α → Bool) (a : List α) (x : α) (b : List α)
    (hx : q x = false) : ((a ++ x :: b).takeWhile q).length ≤ a.length := by
  induction a with
  | nil => simp [List.takeWhile, hx]
  | cons y a ih =>
    rw [List.cons_append, List.takeWhile_cons]
    split
    · simp only [List.length_cons]
      omega
    · simp

theorem filepathSplit_dir (p : String) (front rest : List Char)
    (hp : p.toList = front ++ '/' :: rest) :
    ∃ ys, (filepathSplit p).1 = String.mk (ys ++ ['/']) ∧ front.length ≤ ys.length ∧
      (ys ++ ['/']).length ≤ p.toList.length := by
  have hrev : p.toList.reverse = rest.reverse ++ '/' :: front.reverse := by
    rw [hp]
    simp
  have htw := takeWhile_length_le (fun c => decide (c ≠ '/')) rest.reverse '/' front.reverse
    (by simp)
  rw [← hrev] at htw
  have hsplit := List.takeWhile_append_dropWhile (fun c => decide (c ≠ '/')) p.toList.reverse
  have hd : ∀ d dw', p.toList.reverse.dropWhile (fun c => decide (c ≠ '/')) = d :: dw' →
      d = '/' := by
    intro d dw' h
    have := List.head_dropWhile_not (fun c => decide (c ≠ '/')) p.toList.reverse
      (by rw [h]; simp)
    simp only [h, List.head_cons] at this
    simpa using this
  have hfile : (filepathSplit p).1 = String.mk (p.toList.take (p.toList.length -
      (p.toList.reverse.takeWhile (fun c => decide (c ≠ '/'))).reverse.length)) := rfl
  rw [hfile]
  generalize p.toList.reverse.takeWhile (fun c => decide (c ≠ '/')) = tw at htw hsplit ⊢
  generalize hdw : p.toList.reverse.dropWhile (fun c => decide (c ≠ '/')) = dw at hsplit hd
  have hcs : p.toList = dw.reverse ++ tw.reverse := by
    have := congrArg List.reverse hsplit
    rw [List.reverse_append, List.reverse_reverse] at this
    exact this.symm
  have hplen : p.toList.length = front.length + (rest.length + 1) := by
    rw [hp]
    simp
  have hrl : rest.reverse.length = rest.length := List.length_reverse _
  have hcl : p.toList.length = dw.length + tw.length := by
    rw [hcs]
    simp
  cases dw with
  | nil =>
    simp only [List.length_nil] at hcl
    omega
  | cons d dw' =>
    have hd' := hd d dw' rfl
    subst hd'
    simp only [List.length_cons] at hcl
    refine ⟨dw'.reverse, ?_, ?_, ?_⟩
    · congr 1
      rw [List.length_reverse, hcl, hcs, List.reverse_cons]
      apply List.take_left'
      simp
    · rw [List.length_reverse]
      omega
    · simp only [List.length_append, List.length_reverse, List.length_singleton]
      omega

/-- The step of the upward walk shortens the path: a path that begins with
`<root>/sys/devices/` is longer than its `filepath.Dir`. -/
theorem filepathDir_length_lt (mockRoot p : String)
    (h : stringsHasPrefix p (mockRoot ++ "/sys/devices/") = true) :
    (filepathDir p).length < p.length := by
  have hpre : (mockRoot ++ "/sys/devices/").toList =
      (mockRoot.toList ++ "/sys/devices".toList) ++ ['/'] := by
    simp only [String.toList, String.data_append]
    rw [List.append_assoc]
    rfl
  simp only [stringsHasPrefix, List.isPrefixOf_iff_prefix] at h
  obtain ⟨rest, hrest⟩ := h
  rw [hpre, List.append_assoc] at hrest
  obtain ⟨ys, hdir, hfront, hle⟩ := filepathSplit_dir p _ rest hrest.symm
  unfold filepathDir
  rw [hdir]
  show _ < p.toList.length
  have hys : ys ≠ [] := by
    intro hnil
    rw [hnil] at hfront
    simp at hfront
  exact Nat.lt_of_lt_of_le (filepathClean_trailing ys hys) hle

/-! ### The resolver: termination -/

theorem Result.bind_ne_outOfFuel_of {α β : Type} {r : Result α} {f : α → Result β}
    (hr : r ≠ .outOfFuel) (hf : ∀ a, r = .ok a → f a ≠ .outOfFuel) : r.bind f ≠ .outOfFuel := by
  cases r with
  | ok a => exact hf a rfl
  | error e => intro h; cases h
  | panic => intro h; cases h
  | outOfFuel => exact absurd rfl hr

theorem getTopologyHint_returns {fs : FileSystem} {ord : RangeOrder} {mockRoot : String}
    (q : String) (h : ∃ fuel, NewTopologyHints fs ord mockRoot fuel (filepathDir q) ≠ .outOfFuel) :
    ∃ fuel, getTopologyHint fs ord mockRoot fuel q ≠ .outOfFuel := by
  obtain ⟨f, hf⟩ := h
  refine ⟨f + 1, ?_⟩
  rw [getTopologyHint_succ]
  refine Result.bind_ne_outOfFuel_of ?_ ?_
  · unfold readHint
    generalize ord _ hintFileMap = l
    generalize ({ Provider := q, CPUs := "", NUMAs := "", Sockets := "" } : Hint) = hint
    induction l generalizing hint with
    | nil => intro h; cases h
    | cons kv rest ih =>
      obtain ⟨k, v⟩ := kv
      simp only [readFilesInDirectory]
      split
      · exact ih _
      · intro h; cases h
      · exact ih _
  · intro hint0 _
    split
    · cases hn : NewTopologyHints fs ord mockRoot f (filepathDir q) with
      | ok ph => intro h; cases h
      | error e => intro h; cases h
      | panic => intro h; cases h
      | outOfFuel => exact absurd hn hf
    · intro h; cases h

theorem walkUp_returns {fs : FileSystem} {ord : RangeOrder} {mockRoot : String} (r : String)
    (hcallee : ∀ t, Calls fs mockRoot r t →
      ∃ fuel, NewTopologyHints fs ord mockRoot fuel t ≠ .outOfFuel) (hints : Hints) :
    ∀ (len i : Nat), (filepathDir^[i] r).length ≤ len →
      (∀ j, j < i → stringsHasPrefix (filepathDir^[j] r) (mockRoot ++ "/sys/devices/") = true) →
      ∃ fuel, walkUp fs ord mockRoot fuel (filepathDir^[i] r) hints ≠ .outOfFuel := by
  intro len
  induction len with
  | zero =>
    intro i hlen hbelow
    by_cases hp : stringsHasPrefix (filepathDir^[i] r) (mockRoot ++ "/sys/devices/") = true
    · have := filepathDir_length_lt mockRoot _ hp
      omega
    · refine ⟨0, ?_⟩
      rw [walkUp_of_outside _ _ _ _ _ _ (by simpa using hp)]
      intro h; cases h
  | succ len ih =>
    intro i hlen hbelow
    by_cases hp : stringsHasPrefix (filepathDir^[i] r) (mockRoot ++ "/sys/devices/") = true
    · have hall : ∀ j, j ≤ i →
          stringsHasPrefix (filepathDir^[j] r) (mockRoot ++ "/sys/devices/") = true := by
        intro j hj
        rcases Nat.lt_or_eq_of_le hj with h | h
        · exact hbelow j h
        · rw [h]
          exact hp
      have hnext : filepathDir^[i + 1] r = filepathDir (filepathDir^[i] r) :=
        Function.iterate_succ_apply' _ _ _
      obtain ⟨f1, hf1⟩ := @getTopologyHint_returns fs ord mockRoot
        (filepathDir^[i] r) (by rw [← hnext]; exact hcallee _ (Or.inl ⟨i, hall, rfl⟩))
      have hshort := filepathDir_length_lt mockRoot _ hp
      obtain ⟨f2, hf2⟩ := ih (i + 1) (by rw [hnext]; omega)
        (fun j hj => hall j (Nat.lt_succ_iff.1 hj))
      refine ⟨max f1 f2 + 1, ?_⟩
      rw [walkUp_succ, if_pos hp]
      refine Result.bind_ne_outOfFuel_of ?_ ?_
      · rw [getTopologyHint_budget (le_max_left f1 f2) rfl hf1]
        exact hf1
      · intro hint _
        split
        · intro h; cases h
        · rw [← hnext, walkUp_budget (le_max_right f1 f2) rfl hf2]
          exact hf2
    · refine ⟨0, ?_⟩
      rw [walkUp_of_outside _ _ _ _ _ _ (by simpa using hp)]
      intro h; cases h

theorem dependentsLoop_returns {fs : FileSystem} {ord : RangeOrder} {mockRoot : String}
    (l : List String)
    (hcallee : ∀ t ∈ l, ∃ fuel, NewTopologyHints fs ord mockRoot fuel t ≠ .outOfFuel) :
    ∀ hints, ∃ fuel, dependentsLoop fs ord mockRoot fuel l hints ≠ .outOfFuel := by
  induction l with
  | nil =>
    intro hints
    refine ⟨0, ?_⟩
    rw [dependentsLoop_nil]
    intro h; cases h
  | cons d rest ih =>
    intro hints
    obtain ⟨f1, hf1⟩ := hcallee d (List.mem_cons_self _ _)
    have ihrest := ih (fun t ht => hcallee t (List.mem_cons_of_mem _ ht))
    cases hn : NewTopologyHints fs ord mockRoot f1 d with
    | ok deviceHints =>
      obtain ⟨f2, hf2⟩ := ihrest (MergeTopologyHints ord (some hints) deviceHints)
      refine ⟨max f1 f2 + 1, ?_⟩
      rw [dependentsLoop_succ, newTopologyHints_budget (le_max_left f1 f2) hn (by intro h; cases h)]
      simp only [Result.bind]
      rw [dependentsLoop_budget (le_max_right f1 f2) rfl hf2]
      exact hf2
    | error e =>
      refine ⟨f1 + 1, ?_⟩
      rw [dependentsLoop_succ, hn]
      intro h; cases h
    | panic =>
      refine ⟨f1 + 1, ?_⟩
      rw [dependentsLoop_succ, hn]
      intro h; cases h
    | outOfFuel => exact absurd hn hf1

theorem newTopologyHints_returns_of_callees {fs : FileSystem} {ord : RangeOrder}
    {mockRoot : String} (devPath : String)
    (hcallee : ∀ r, fs.EvalSymlinks devPath = .ok r → ∀ t, Calls fs mockRoot r t →
      ∃ fuel, NewTopologyHints fs ord mockRoot fuel t ≠ .outOfFuel) :
    ∃ fuel, NewTopologyHints fs ord mockRoot fuel devPath ≠ .outOfFuel := by
  cases he : fs.EvalSymlinks devPath with
  | error e =>
    refine ⟨1, ?_⟩
    rw [newTopologyHints_succ, he]
    intro h; cases h
  | ok r =>
    have hc := hcallee r he
    obtain ⟨f1, hf1⟩ := @walkUp_returns fs ord mockRoot r hc [] (filepathDir^[0] r).length 0
      (le_refl _) (fun j hj => absurd hj (Nat.not_lt_zero j))
    simp only [Function.iterate_zero, id_eq] at hf1
    cases hw : walkUp fs ord mockRoot f1 r [] with
    | ok hints =>
      obtain ⟨f2, hf2⟩ := @dependentsLoop_returns fs ord mockRoot (dependents fs mockRoot r)
        (fun t ht => hc t (Or.inr ht)) hints
      refine ⟨max f1 f2 + 1, ?_⟩
      rw [newTopologyHints_succ, he]
      simp only
      rw [walkUp_budget (le_max_left f1 f2) hw (by intro h; cases h)]
      simp only [Result.bind]
      rw [dependentsLoop_budget (le_max_right f1 f2) rfl hf2]
      exact hf2
    | error e =>
      refine ⟨f1 + 1, ?_⟩
      rw [newTopologyHints_succ, he]
      simp only
      rw [hw]
      intro h; cases h
    | panic =>
      refine ⟨f1 + 1, ?_⟩
      rw [newTopologyHints_succ, he]
      simp only
      rw [hw]
      intro h; cases h
    | outOfFuel => exact absurd hw hf1

theorem newTopologyHints_returns {fs : FileSystem} {ord : RangeOrder} {mockRoot : String}
    (rank : String → Nat)
    (hacyclic : ∀ d r t r', fs.EvalSymlinks d = .ok r → Calls fs mockRoot r t →
      fs.EvalSymlinks t = .ok r' → rank r' < rank r) :
    ∀ devPath, ∃ fuel, NewTopologyHints fs ord mockRoot fuel devPath ≠ .outOfFuel := by
  have key : ∀ k devPath, (∀ r, fs.EvalSymlinks devPath = .ok r → rank r ≤ k) →
      ∃ fuel, NewTopologyHints fs ord mockRoot fuel devPath ≠ .outOfFuel := by
    intro k
    induction k with
    | zero =>
      intro devPath hk
      refine newTopologyHints_returns_of_callees devPath ?_
      intro r hr t ht
      refine newTopologyHints_returns_of_callees t ?_
      intro r' hr' _ _
      have := hacyclic devPath r t r' hr ht hr'
      have := hk r hr
      omega
    | succ k ih =>
      intro devPath hk
      refine newTopologyHints_returns_of_callees devPath ?_
      intro r hr t ht
      refine ih t ?_
      intro r' hr'
      have := hacyclic devPath r t r' hr ht hr'
      have := hk r hr
      omega
  intro devPath
  cases he : fs.EvalSymlinks devPath with
  | error e => exact key 0 devPath (fun r hr => by rw [he] at hr; cases hr)
  | ok r0 =>
    exact key (rank r0) devPath (fun r hr => by
      rw [he] at hr
      cases hr
      exact le_refl _)


theorem iterate_dir_length_lt (mockRoot r : String) :
    ∀ i : Nat, (∀ j, j ≤ i →
        stringsHasPrefix (filepathDir^[j] r) (mockRoot ++ "/sys/devices/") = true) →
      (filepathDir^[i + 1] r).length < r.length := by
  intro i
  induction i with
  | zero =>
    intro h
    exact filepathDir_length_lt mockRoot r (h 0 (le_refl _))
  | succ i ih =>
    intro h
    have h1 := ih (fun j hj => h j (Nat.le_succ_of_le hj))
    have h2 := filepathDir_length_lt mockRoot _ (h (i + 1) (le_refl _))
    rw [Function.iterate_succ_apply' filepathDir (i + 1) r]
    omega

theorem getDevicesFromVirtual_of_no_dirs {fs : FileSystem}
    (hdir : ∀ d, ∃ e, fs.ReadDir d = .error e) {mockRoot r : String} {devs : List String}
    (h : getDevicesFromVirtual fs mockRoot r = .ok devs) : devs = [] := by
  unfold getDevicesFromVirtual at h
  split at h
  · cases h
  · split at h
    · cases h
    · simp only at h
      split at h
      · obtain ⟨e, he⟩ := hdir (filepathJoin [mockRoot, "/sys/kernel/iommu_groups",
          (filepathSplit _).2, "devices"])
        rw [he] at h
        cases h
      · cases h
        rfl

theorem dependents_of_no_dirs {fs : FileSystem} (hglob : ∀ pattern, fs.Glob pattern = [])
    (hdir : ∀ d, ∃ e, fs.ReadDir d = .error e) (mockRoot r : String) :
    dependents fs mockRoot r = [] := by
  unfold dependents
  rw [hglob]
  cases hg : getDevicesFromVirtual fs mockRoot r with
  | ok devs => simp [getDevicesFromVirtual_of_no_dirs hdir hg]
  | error e => rfl

theorem acyclic_of_plain {fs : FileSystem} (mockRoot : String)
    (heval : ∀ p, fs.EvalSymlinks p = .ok p) (hglob : ∀ pattern, fs.Glob pattern = [])
    (hdir : ∀ d, ∃ e, fs.ReadDir d = .error e) :
    ∀ d r t r', fs.EvalSymlinks d = .ok r → Calls fs mockRoot r t →
      fs.EvalSymlinks t = .ok r' → r'.length < r.length := by
  intro d r t r' _ hcall ht
  rw [heval t] at ht
  cases ht
  rcases hcall with ⟨i, hi, rfl⟩ | hdep
  · exact iterate_dir_length_lt mockRoot r i hi
  · rw [dependents_of_no_dirs hglob hdir] at hdep
    cases hdep

theorem sampleFsLoop_never_returns :
    ∀ n, NewTopologyHints sampleFsLoop RangeOrder.inOrder "" n "/sys/devices/virtual/block/dm-0" =
        .outOfFuel ∧
      NewTopologyHints sampleFsLoop RangeOrder.inOrder "" n
        "/sys/devices/virtual/block/dm-0/slaves/dm-0" = .outOfFuel := by
  have hsame : ∀ n, NewTopologyHints sampleFsLoop RangeOrder.inOrder "" n
      "/sys/devices/virtual/block/dm-0/slaves/dm-0" =
      NewTopologyHints sampleFsLoop RangeOrder.inOrder "" n "/sys/devices/virtual/block/dm-0" := by
    intro n
    cases n with
    | zero => rw [newTopologyHints_zero, newTopologyHints_zero]
    | succ n =>
      rw [newTopologyHints_succ, newTopologyHints_succ]
      rfl
  have hwalk : ∀ n, walkUp sampleFsLoop RangeOrder.inOrder "" n "/sys/devices/virtual/block/dm-0"
      [] = .outOfFuel ∨ walkUp sampleFsLoop RangeOrder.inOrder "" n
        "/sys/devices/virtual/block/dm-0" [] = .ok [] := by
    intro n
    by_cases h : walkUp sampleFsLoop RangeOrder.inOrder "" n "/sys/devices/virtual/block/dm-0"
        [] = .outOfFuel
    · exact Or.inl h
    · right
      have h10 : walkUp sampleFsLoop RangeOrder.inOrder "" 10 "/sys/devices/virtual/block/dm-0"
          [] = .ok [] := by decide
      have h1 := walkUp_budget (le_max_left n 10) rfl h
      have h2 := walkUp_budget (le_max_right n 10) h10 (by intro h; cases h)
      rw [← h1, h2]
  have hdeps : dependents sampleFsLoop "" "/sys/devices/virtual/block/dm-0" =
      ["/sys/devices/virtual/block/dm-0/slaves/dm-0"] := by decide
  intro n
  induction n using Nat.strong_induction_on with
  | _ n ih =>
    have hp : NewTopologyHints sampleFsLoop RangeOrder.inOrder "" n
        "/sys/devices/virtual/block/dm-0" = .outOfFuel := by
      cases n with
      | zero => rw [newTopologyHints_zero]
      | succ n =>
        rw [newTopologyHints_succ]
        have he : sampleFsLoop.EvalSymlinks "/sys/devices/virtual/block/dm-0" =
            .ok "/sys/devices/virtual/block/dm-0" := rfl
        rw [he]
        simp only
        rcases hwalk n with hw | hw
        · rw [hw]
          rfl
        · rw [hw, hdeps]
          simp only [Result.bind]
          cases n with
          | zero => rw [dependentsLoop_zero]
          | succ m =>
            rw [dependentsLoop_succ, (ih m (by omega)).2]
            rfl
    exact ⟨hp, by rw [hsame, hp]⟩

theorem filepathClean_length_le (x : String) (hx : x ≠ "") :
    (filepathClean x).length ≤ max 1 (x.length + 1) := by
  have h1 := filepathClean_length x hx
  have h2 := splitOn_elementWeight x.toList
  have h3 : (List.map elementWeight (stringsSplit x '/')).sum ≤ x.length + 1 := h2
  omega

theorem sampleFsRaid_eval_length {t r' : String} (h : sampleFsRaid.EvalSymlinks t = .ok r') :
    r'.length ≤ t.length := by
  simp only [sampleFsRaid] at h
  split at h
  · rename_i ht
    cases h
    rw [ht]
    decide
  · cases h
    exact le_refl _

theorem sampleFsRaid_dependents {r t : String} (h : t ∈ dependents sampleFsRaid "" r) :
    t = "/sys/devices/virtual/block/md0/slaves/sda" ∧ 29 ≤ r.length := by
  have h : t ∈ sampleFsRaid.Glob (filepathJoin [r, "slaves/*"]) := by
    unfold dependents at h
    rcases List.mem_append.1 h with h | h
    · exact h
    · exfalso
      split at h
      · rename_i devs hg
        rw [getDevicesFromVirtual_of_no_dirs (fun _ => ⟨_, rfl⟩) hg] at h
        cases h
      · cases h
  have hglob : sampleFsRaid.Glob (filepathJoin [r, "slaves/*"]) =
      if filepathJoin [r, "slaves/*"] = "/sys/devices/virtual/block/md0/slaves/*" then
        ["/sys/devices/virtual/block/md0/slaves/sda"]
      else [] := rfl
  rw [hglob] at h
  split at h
  · rename_i hp
    refine ⟨List.mem_singleton.1 h, ?_⟩
    by_cases hr : r = ""
    · subst hr
      revert hp
      decide
    · have hj : filepathJoin [r, "slaves/*"] = filepathClean (stringsJoin [r, "slaves/*"] "/") := by
        simp [filepathJoin, List.dropWhile, hr]
      have hx : stringsJoin [r, "slaves/*"] "/" = r ++ "/slaves/*" := by
        apply String.ext
        simp [stringsJoin, List.intercalate, String.data_append]
      have hne : r ++ "/slaves/*" ≠ "" := by
        intro h0
        have := congrArg String.length h0
        simp only [String.length_append] at this
        have h9 : "/slaves/*".length = 9 := by decide
        have h00 : "".length = 0 := rfl
        omega
      have hlen := filepathClean_length_le (r ++ "/slaves/*") hne
      rw [← hx, ← hj, hp] at hlen
      have h39 : "/sys/devices/virtual/block/md0/slaves/*".length = 39 := by decide
      have h9 : "/slaves/*".length = 9 := by decide
      rw [h39, hx, String.length_append, h9] at hlen
      omega
  · cases h

/-- In `sampleFsRaid` every recursive call goes to a path that resolves to a
shorter path than the resolved path of the caller. -/
theorem acyclic_sampleFsRaid :
    ∀ d r t r', sampleFsRaid.EvalSymlinks d = .ok r → Calls sampleFsRaid "" r t →
      sampleFsRaid.EvalSymlinks t = .ok r' → r'.length < r.length := by
  intro d r t r' _ hcall ht
  rcases hcall with ⟨i, hi, rfl⟩ | hdep
  · have h1 := iterate_dir_length_lt "" r i hi
    have h2 := sampleFsRaid_eval_length ht
    omega
  · obtain ⟨rfl, hlen⟩ := sampleFsRaid_dependents hdep
    have : r' = "/sys/devices/pci0000:00/sda" := by
      have he : sampleFsRaid.EvalSymlinks "/sys/devices/virtual/block/md0/slaves/sda" =
          .ok "/sys/devices/pci0000:00/sda" := rfl
      rw [he] at ht
      cases ht
      rfl
    rw [this]
    have h27 : "/sys/devices/pci0000:00/sda".length = 27 := by decide
    omega

/-- C18, amended: the step of the upward walk shortens the path, so the walk
ends; and on a file system whose resolved paths can be ranked so that every
path on which a call of `NewTopologyHints` calls it again (the parent of a
directory of the walk, a `slaves/*` match, an IOMMU-group member) resolves to a
path of lower rank, every call of `NewTopologyHints` returns: some budget is
enough, and every larger budget gives the same result. -/
theorem newTopologyHints_terminates (fs : FileSystem) (ord : RangeOrder) (mockRoot : String)
    (rank : String → Nat)
    (hacyclic : ∀ d r t r', fs.EvalSymlinks d = .ok r → Calls fs mockRoot r t →
      fs.EvalSymlinks t = .ok r' → rank r' < rank r) :
    (∀ p, stringsHasPrefix p (mockRoot ++ "/sys/devices/") = true →
      (filepathDir p).length < p.length) ∧
    (∀ devPath, ∃ fuel, NewTopologyHints fs ord mockRoot fuel devPath ≠ .outOfFuel ∧
      ∀ fuel', fuel ≤ fuel' →
        NewTopologyHints fs ord mockRoot fuel' devPath =
          NewTopologyHints fs ord mockRoot fuel devPath) := by
  refine ⟨filepathDir_length_lt mockRoot, ?_⟩
  intro devPath
  obtain ⟨fuel, hf⟩ := @newTopologyHints_returns fs ord mockRoot rank hacyclic devPath
  exact ⟨fuel, hf, fun fuel' hle => newTopologyHints_budget hle rfl hf⟩

/-- Witness of C18: the device `md0` of `sampleFsRaid` has the dependent device
`sda` behind a link in `slaves/`; the length of the resolved path is a rank, the
call for `md0` returns with the budget 10 the hint of the bus of the disk, and
every larger budget gives the same. -/
theorem newTopologyHints_terminates_witness :
    dependents sampleFsRaid "" "/sys/devices/virtual/block/md0" =
      ["/sys/devices/virtual/block/md0/slaves/sda"] ∧
    NewTopologyHints sampleFsRaid RangeOrder.backwards "" 10 "/sys/devices/virtual/block/md0" =
      .ok [("/sys/devices/pci0000:00",
        { Provider := "/sys/devices/pci0000:00", CPUs := "0-3", NUMAs := "0", Sockets := "" })] ∧
    (filepathDir "/sys/devices/pci0000:00/sda").length < "/sys/devices/pci0000:00/sda".length ∧
    ∃ fuel, NewTopologyHints sampleFsRaid RangeOrder.backwards "" fuel
        "/sys/devices/virtual/block/md0" ≠ .outOfFuel ∧
      ∀ fuel', fuel ≤ fuel' →
        NewTopologyHints sampleFsRaid RangeOrder.backwards "" fuel'
            "/sys/devices/virtual/block/md0" =
          NewTopologyHints sampleFsRaid RangeOrder.backwards "" fuel
            "/sys/devices/virtual/block/md0" :=
  ⟨by decide, by decide, by decide,
    (newTopologyHints_terminates sampleFsRaid RangeOrder.backwards "" String.length
      acyclic_sampleFsRaid).2 "/sys/devices/virtual/block/md0"⟩

/-- C18 as stated fails: in a file system of one device directory whose
`slaves` directory holds a link back to the device, no budget lets
`NewTopologyHints` return. -/
theorem newTopologyHints_terminates_counterexample :
    sampleFsLoop.Glob (filepathJoin ["/sys/devices/virtual/block/dm-0", "slaves/*"]) =
      ["/sys/devices/virtual/block/dm-0/slaves/dm-0"] ∧
    sampleFsLoop.EvalSymlinks "/sys/devices/virtual/block/dm-0/slaves/dm-0" =
      .ok "/sys/devices/virtual/block/dm-0" ∧
    ¬ ∃ fuel, NewTopologyHints sampleFsLoop RangeOrder.inOrder "" fuel
      "/sys/devices/virtual/block/dm-0" ≠ .outOfFuel :=
  ⟨by decide, rfl, fun ⟨fuel, h⟩ => h (sampleFsLoop_never_returns fuel).1⟩

/-! ### The upward walk: the nearest directory with a hint -/

theorem numaAsSockets_provider (hint : Hint) : (numaAsSockets hint).Provider = hint.Provider := by
  unfold numaAsSockets
  split <;> rfl

theorem getTopologyHint_provider {fs : FileSystem} {ord : RangeOrder} (hord : ord.Valid)
    {mockRoot : String} {fuel : Nat} {p : String} {hint : Hint}
    (h : getTopologyHint fs ord mockRoot fuel p = .ok hint) : hint.Provider = p := by
  obtain ⟨hint0, h0, ⟨-, rfl⟩ | ⟨-, n, -, hpw⟩⟩ := getTopologyHint_eq_ok h
  · rw [(clearNoNuma_fields hint0).1, (readHint_fields hord h0).1]
  · have hc : (clearNoNuma hint0).Provider = p := by
      rw [(clearNoNuma_fields hint0).1, (readHint_fields hord h0).1]
    rcases parentWorkaround_eq_ok hpw with ⟨ph, -, rfl⟩ | ⟨-, rfl⟩
    · rw [numaAsSockets_provider, (applyParentHints_fields _ _ _).1, hc]
    · rw [numaAsSockets_provider, hc]

theorem hint_eq_emptyHint {hint : Hint} {p : String} (hp : hint.Provider = p)
    (h : ¬ (hint.CPUs ≠ "" ∨ hint.NUMAs ≠ "" ∨ hint.Sockets ≠ "")) : hint = emptyHint p := by
  obtain ⟨prov, cpus, numas, sockets⟩ := hint
  simp only [ne_eq, not_or, not_not] at h
  obtain ⟨h1, h2, h3⟩ := h
  simp only at hp h1 h2 h3
  subst hp h1 h2 h3
  rfl

/-- The shape of a successful upward walk: the first `i` directories give the
empty hint, and the walk ends at the next one, which is outside the device tree
or gives a hint that is not empty. -/
theorem walkUp_eq_ok {fs : FileSystem} {ord : RangeOrder} (hord : ord.Valid) {mockRoot : String}
    (m : Nat) :
    ∀ (n : Nat) (p : String) (hints R : Hints), n ≤ m →
      walkUp fs ord mockRoot n p hints = .ok R →
      ∃ i, (∀ j, j < i →
          stringsHasPrefix (filepathDir^[j] p) (mockRoot ++ "/sys/devices/") = true ∧
          getTopologyHint fs ord mockRoot m (filepathDir^[j] p) =
            .ok (emptyHint (filepathDir^[j] p))) ∧
        ((stringsHasPrefix (filepathDir^[i] p) (mockRoot ++ "/sys/devices/") = false ∧
            R = hints) ∨
          (stringsHasPrefix (filepathDir^[i] p) (mockRoot ++ "/sys/devices/") = true ∧
            ∃ hint, getTopologyHint fs ord mockRoot m (filepathDir^[i] p) = .ok hint ∧
              (hint.CPUs ≠ "" ∨ hint.NUMAs ≠ "" ∨ hint.Sockets ≠ "") ∧
              hint.Provider = filepathDir^[i] p ∧
              R = hints.set (filepathDir^[i] p) hint)) := by
  intro n
  induction n with
  | zero =>
    intro p hints R _ h
    rw [walkUp_zero] at h
    split at h
    · cases h
    · rename_i hp
      cases h
      exact ⟨0, fun j hj => absurd hj (Nat.not_lt_zero j), Or.inl ⟨by simpa using hp, rfl⟩⟩
  | succ n ih =>
    intro p hints R hnm h
    rw [walkUp_succ] at h
    by_cases hp : stringsHasPrefix p (mockRoot ++ "/sys/devices/") = true
    · rw [if_pos hp] at h
      obtain ⟨hint, hg, h2⟩ := Result.bind_eq_ok.1 h
      have hg' : getTopologyHint fs ord mockRoot m p = .ok hint :=
        getTopologyHint_budget (by omega) hg (by intro h; cases h)
      have hprov := getTopologyHint_provider hord hg
      by_cases hc : hint.CPUs ≠ "" ∨ hint.NUMAs ≠ "" ∨ hint.Sockets ≠ ""
      · rw [if_pos hc] at h2
        cases h2
        refine ⟨0, fun j hj => absurd hj (Nat.not_lt_zero j), Or.inr ⟨hp, hint, hg', hc, hprov, ?_⟩⟩
        rw [hprov]
        rfl
      · rw [if_neg hc] at h2
        obtain ⟨i, hbelow, hend⟩ := ih (filepathDir p) hints R (by omega) h2
        refine ⟨i + 1, ?_, ?_⟩
        · intro j hj
          cases j with
          | zero =>
            simp only [Function.iterate_zero, id_eq]
            exact ⟨hp, by rw [hg', hint_eq_emptyHint hprov hc]⟩
          | succ j =>
            have := hbelow j (by omega)
            rw [Function.iterate_succ_apply]
            exact this
        · rw [Function.iterate_succ_apply]
          exact hend
    · rw [if_neg hp] at h
      cases h
      exact ⟨0, fun j hj => absurd hj (Nat.not_lt_zero j), Or.inl ⟨by simpa using hp, rfl⟩⟩

/-- The upward walk is determined by the hints of the directories it visits. -/
theorem walkUp_of_hints {fs : FileSystem} {ord : RangeOrder} {mockRoot : String} (m : Nat)
    (hints R : Hints) :
    ∀ (i : Nat) (p : String),
      (∀ j, j < i →
        stringsHasPrefix (filepathDir^[j] p) (mockRoot ++ "/sys/devices/") = true ∧
        getTopologyHint fs ord mockRoot m (filepathDir^[j] p) =
          .ok (emptyHint (filepathDir^[j] p))) →
      ((stringsHasPrefix (filepathDir^[i] p) (mockRoot ++ "/sys/devices/") = false ∧ R = hints) ∨
        (stringsHasPrefix (filepathDir^[i] p) (mockRoot ++ "/sys/devices/") = true ∧
          ∃ hint, getTopologyHint fs ord mockRoot m (filepathDir^[i] p) = .ok hint ∧
            (hint.CPUs ≠ "" ∨ hint.NUMAs ≠ "" ∨ hint.Sockets ≠ "") ∧
            hint.Provider = filepathDir^[i] p ∧
            R = hints.set (filepathDir^[i] p) hint)) →
      walkUp fs ord mockRoot (m + i + 1) p hints = .ok R := by
  intro i
  induction i with
  | zero =>
    intro p _ hend
    simp only [Function.iterate_zero, id_eq] at hend
    rw [walkUp_succ]
    rcases hend with ⟨hp, rfl⟩ | ⟨hp, hint, hg, hc, hprov, rfl⟩
    · rw [hp]
      rfl
    · rw [if_pos hp, getTopologyHint_budget (by omega) hg (by intro h; cases h)]
      simp only [Result.bind]
      rw [if_pos hc, hprov]
  | succ i ih =>
    intro p hbelow hend
    obtain ⟨hp, hg⟩ := hbelow 0 (by omega)
    simp only [Function.iterate_zero, id_eq] at hp hg
    rw [walkUp_succ, if_pos hp, getTopologyHint_budget (by omega) hg (by intro h; cases h)]
    simp only [Result.bind]
    rw [if_neg (by simp [emptyHint])]
    have := ih (filepathDir p)
      (fun j hj => by
        have := hbelow (j + 1) (by omega)
        rw [Function.iterate_succ_apply] at this
        exact this)
      (by
        rw [Function.iterate_succ_apply] at hend
        exact hend)
    rw [show m + (i + 1) = m + i + 1 by omega]
    exact this

/-- C20, amended: for a canonical path without dependent devices a successful
`NewTopologyHints` returns at most one entry.  The directories `p`, `Dir p`, ...
are visited while they lie under `<root>/sys/devices/` and give the empty hint;
the first one whose hint is not empty is the provider and its hint is the entry;
when the walk leaves `<root>/sys/devices/` before, also at once, the set is
empty.  The walk does not go on above the provider: the result is the same on
every file system that gives the same hints for the directories from the path
up to the provider.  (The hint of a directory may itself come from the hints of
its parent, as C19 says.) -/
theorem newTopologyHints_nearest (fs : FileSystem) (ord : RangeOrder) (hord : ord.Valid)
    (mockRoot : String) (fuel : Nat) (p : String) (R : Hints)
    (hcanon : fs.EvalSymlinks p = .ok p) (hdeps : dependents fs mockRoot p = [])
    (h : NewTopologyHints fs ord mockRoot fuel p = .ok R) :
    R.length ≤ 1 ∧
    (stringsHasPrefix p (mockRoot ++ "/sys/devices/") = false → R = []) ∧
    ∃ i, (∀ j, j < i →
        stringsHasPrefix (filepathDir^[j] p) (mockRoot ++ "/sys/devices/") = true ∧
        getTopologyHint fs ord mockRoot fuel (filepathDir^[j] p) =
          .ok (emptyHint (filepathDir^[j] p))) ∧
      ((stringsHasPrefix (filepathDir^[i] p) (mockRoot ++ "/sys/devices/") = false ∧ R = []) ∨
        (stringsHasPrefix (filepathDir^[i] p) (mockRoot ++ "/sys/devices/") = true ∧
          ∃ hint, getTopologyHint fs ord mockRoot fuel (filepathDir^[i] p) = .ok hint ∧
            (hint.CPUs ≠ "" ∨ hint.NUMAs ≠ "" ∨ hint.Sockets ≠ "") ∧
            hint.Provider = filepathDir^[i] p ∧
            R = [(filepathDir^[i] p, hint)])) ∧
      (∀ fs' : FileSystem, fs'.EvalSymlinks p = .ok p → dependents fs' mockRoot p = [] →
        (∀ j, j ≤ i → getTopologyHint fs' ord mockRoot fuel (filepathDir^[j] p) =
          getTopologyHint fs ord mockRoot fuel (filepathDir^[j] p)) →
        ∃ fuel', NewTopologyHints fs' ord mockRoot fuel' p = .ok R) := by
  cases fuel with
  | zero =>
    rw [newTopologyHints_zero] at h
    cases h
  | succ n =>
    rw [newTopologyHints_succ, hcanon] at h
    simp only [hdeps] at h
    obtain ⟨hints, hw, h2⟩ := Result.bind_eq_ok.1 h
    rw [dependentsLoop_nil] at h2
    cases h2
    obtain ⟨i, hbelow, hend⟩ := walkUp_eq_ok hord (n + 1) n p [] R (by omega) hw
    have hset : ∀ q hint, GoMap.set ([] : Hints) q hint = [(q, hint)] := fun _ _ => rfl
    simp only [hset] at hend
    refine ⟨?_, ?_, i, hbelow, hend, ?_⟩
    · rcases hend with ⟨-, rfl⟩ | ⟨-, hint, -, -, -, rfl⟩ <;> simp
    · intro hp
      cases i with
      | zero =>
        simp only [Function.iterate_zero, id_eq] at hend
        rcases hend with ⟨-, rfl⟩ | ⟨hp', -⟩
        · rfl
        · rw [hp] at hp'
          cases hp'
      | succ i =>
        have := (hbelow 0 (by omega)).1
        simp only [Function.iterate_zero, id_eq] at this
        rw [hp] at this
        cases this
    · intro fs' hcanon' hdeps' hsame
      have hbelow' : ∀ j, j < i →
          stringsHasPrefix (filepathDir^[j] p) (mockRoot ++ "/sys/devices/") = true ∧
          getTopologyHint fs' ord mockRoot (n + 1) (filepathDir^[j] p) =
            .ok (emptyHint (filepathDir^[j] p)) := by
        intro j hj
        obtain ⟨h1, h2⟩ := hbelow j hj
        exact ⟨h1, by rw [hsame j (by omega), h2]⟩
      have hend' : (stringsHasPrefix (filepathDir^[i] p) (mockRoot ++ "/sys/devices/") = false ∧
            R = []) ∨
          (stringsHasPrefix (filepathDir^[i] p) (mockRoot ++ "/sys/devices/") = true ∧
            ∃ hint, getTopologyHint fs' ord mockRoot (n + 1) (filepathDir^[i] p) = .ok hint ∧
              (hint.CPUs ≠ "" ∨ hint.NUMAs ≠ "" ∨ hint.Sockets ≠ "") ∧
              hint.Provider = filepathDir^[i] p ∧
              R = GoMap.set [] (filepathDir^[i] p) hint) := by
        rcases hend with h1 | ⟨hp, hint, hg, hc, hprov, hR⟩
        · exact Or.inl h1
        · exact Or.inr ⟨hp, hint, by rw [hsame i (le_refl _), hg], hc, hprov, hR⟩
      have hw' := @walkUp_of_hints fs' ord mockRoot (n + 1) [] R i p hbelow' hend'
      refine ⟨n + 1 + i + 1 + 1, ?_⟩
      rw [newTopologyHints_succ, hcanon']
      simp only [hdeps', hw', Result.bind]
      rw [dependentsLoop_nil]

/-- Witness of C20: the walk from `/sys/devices/pci0000:3d/0000:3d:00.0` finds no
hint and returns the empty set; the walk from `/sys/devices/a/b` stops at once. -/
theorem newTopologyHints_nearest_witness :
    RangeOrder.Valid RangeOrder.backwards ∧
    NewTopologyHints sampleFsNoNuma RangeOrder.backwards "" 10 sampleDevDir = .ok [] ∧
    NewTopologyHints sampleFsParent RangeOrder.backwards "" 5 "/sys/devices/a/b" =
      .ok [("/sys/devices/a/b",
        { Provider := "/sys/devices/a/b", CPUs := "0-3", NUMAs := "0", Sockets := "" })] ∧
    ([("/sys/devices/a/b",
        ({ Provider := "/sys/devices/a/b", CPUs := "0-3", NUMAs := "0", Sockets := "" } : Hint))]
      : Hints).length ≤ 1 :=
  ⟨RangeOrder.valid_backwards, by decide, by decide,
    (newTopologyHints_nearest sampleFsParent RangeOrder.backwards RangeOrder.valid_backwards "" 5
      "/sys/devices/a/b" _ rfl (by decide) (by decide)).1⟩

/-- C20 as stated fails: two file systems hold the same files in the directory
`/sys/devices/a/b`, the nearest one with a hint, and differ only in the files of
the directory `/sys/devices/a` above it; the sets returned for
`/sys/devices/a/b` differ, so the directory above was consulted. -/
theorem newTopologyHints_nearest_counterexample :
    sampleFsParent.ReadFile "/sys/devices/a/b/numa_node" =
      sampleFsBareNuma.ReadFile "/sys/devices/a/b/numa_node" ∧
    sampleFsParent.ReadFile "/sys/devices/a/b/local_cpulist" =
      sampleFsBareNuma.ReadFile "/sys/devices/a/b/local_cpulist" ∧
    sampleFsParent.ReadFile "/sys/devices/a/local_cpulist" = .ok "0-3\n" ∧
    sampleFsBareNuma.ReadFile "/sys/devices/a/local_cpulist" = .notExist ∧
    dependents sampleFsParent "" "/sys/devices/a/b" = [] ∧
    dependents sampleFsBareNuma "" "/sys/devices/a/b" = [] ∧
    NewTopologyHints sampleFsParent RangeOrder.inOrder "" 5 "/sys/devices/a/b" =
      .ok [("/sys/devices/a/b",
        { Provider := "/sys/devices/a/b", CPUs := "0-3", NUMAs := "0", Sockets := "" })] ∧
    NewTopologyHints sampleFsBareNuma RangeOrder.inOrder "" 5 "/sys/devices/a/b" =
      .ok [("/sys/devices/a/b",
        { Provider := "/sys/devices/a/b", CPUs := "", NUMAs := "", Sockets := "1" })] ∧
    NewTopologyHints sampleFsParent RangeOrder.inOrder "" 5 "/sys/devices/a/b" ≠
      NewTopologyHints sampleFsBareNuma RangeOrder.inOrder "" 5 "/sys/devices/a/b" := by
  refine ⟨by decide, by decide, by decide, by decide, by decide, by decide, by decide, by decide,
    by decide⟩

/-! ### The device catalog: the fields of the environment keys -/

theorem fmtInt_negSucc (n : Nat) :
    (fmtInt (Int.negSucc n)).toList = '-' :: Nat.toDigits 10 (n + 1) := rfl

theorem fmtInt_no_underscore (z : Int) : '_' ∉ (fmtInt z).toList := by
  cases z with
  | ofNat n => exact fmtInt_natCast_no_underscore n
  | negSucc n =>
    rw [fmtInt_negSucc]
    intro h
    rcases List.mem_cons.1 h with h | h
    · exact absurd h (by decide)
    · exact isDigit_ne_underscore (toDigits_isDigit _ _ h) rfl

theorem append_no_underscore {a b : String} (ha : '_' ∉ a.toList) (hb : '_' ∉ b.toList) :
    '_' ∉ (a ++ b).toList := by
  simp only [String.toList, String.data_append, List.mem_append, not_or]
  exact ⟨ha, hb⟩

theorem numberedKey_eq (svalue : Section) (n : Nat) :
    "QAT_SECTION_NAME_" ++ sectionDevType svalue ++ "_" ++ fmtInt (n : Nat) =
      stringsJoin ["QAT", "SECTION", "NAME", "cy" ++ fmtInt svalue.cryptoEngines,
        "dc" ++ fmtInt svalue.compressionEngines, fmtInt (n : Nat)] (String.singleton '_') := by
  apply String.ext
  simp [sectionDevType, stringsJoin, List.intercalate, String.data_append, String.singleton]

theorem stringsSplit_numberedKey (svalue : Section) (n : Nat) :
    stringsSplit ("QAT_SECTION_NAME_" ++ sectionDevType svalue ++ "_" ++ fmtInt (n : Nat)) '_' =
      ["QAT", "SECTION", "NAME", "cy" ++ fmtInt svalue.cryptoEngines,
        "dc" ++ fmtInt svalue.compressionEngines, fmtInt (n : Nat)] := by
  rw [numberedKey_eq]
  apply stringsSplit_stringsJoin _ _ (by simp)
  intro part hpart
  simp only [List.mem_cons, List.mem_singleton, List.not_mem_nil, or_false] at hpart
  rcases hpart with rfl | rfl | rfl | rfl | rfl | rfl
  · decide
  · decide
  · decide
  · exact append_no_underscore (by decide) (fmtInt_no_underscore _)
  · exact append_no_underscore (by decide) (fmtInt_no_underscore _)
  · exact fmtInt_no_underscore _

theorem plainKey_not_sectionKey : isSectionKey "QAT_SECTION_NAME" = false := by decide

/-- The keys of the environment of an allocated unit are well formed. -/
theorem unitEnvs_not_malformed (svalue : Section) (sname : String) (n : Nat) :
    ∀ kv ∈ unitEnvs (sectionDevType svalue) sname n,
      isSectionKey kv.1 = true → (stringsSplit kv.1 '_').length = 6 := by
  intro kv hkv hsec
  simp only [unitEnvs, List.mem_cons, List.mem_singleton, List.not_mem_nil, or_false] at hkv
  rcases hkv with rfl | rfl
  · show (stringsSplit ("QAT_SECTION_NAME_" ++ sectionDevType svalue ++ "_" ++ fmtInt (n : Nat))
      '_').length = 6
    rw [stringsSplit_numberedKey]
    rfl
  · rw [plainKey_not_sectionKey] at hsec
    cases hsec

/-- C23: for every section mapping, whatever the names and the engine counts,
every environment key of every unit of the catalog of `getDevTree` that begins
with `QAT_SECTION_NAME_` splits on `_` into exactly six fields, so `PostAllocate`
returns without an error on every response whose containers hold only variables
of units of the catalog. -/
theorem getDevTree_keys_six_fields (fs : FileSystem) (ord : RangeOrder) (hord : ord.Valid)
    (mockRoot : String) (fuel : Nat) (sysfs : String) (qatDevs : List device)
    (config : GoMap Section) (tree : DeviceTree)
    (h : getDevTree fs ord mockRoot fuel sysfs qatDevs config = .ok tree) :
    (∀ u ∈ tree.units, ∀ kv ∈ u.2.2.envs,
      stringsHasPrefix kv.1 "QAT_SECTION_NAME_" = true → (stringsSplit kv.1 '_').length = 6) ∧
    ∀ response : List ContainerAllocateResponse,
      (∀ c ∈ response, ∀ kv ∈ c.Envs, ∃ u ∈ tree.units, kv ∈ u.2.2.envs) →
      ∃ r, PostAllocate ord response = .ok r := by
  obtain ⟨devs, uniqID, -, -, -, hperm⟩ := getDevTree_eq_ok h
  have hkeys : ∀ u ∈ tree.units, ∀ kv ∈ u.2.2.envs,
      stringsHasPrefix kv.1 "QAT_SECTION_NAME_" = true → (stringsSplit kv.1 '_').length = 6 := by
    intro u hu kv hkv hsec
    obtain ⟨i, e, -, -, rfl⟩ := mem_allocatedUnitsFrom _ 0 (hperm.mem_iff.1 hu)
    exact unitEnvs_not_malformed e.2 e.1 _ kv hkv hsec
  refine ⟨hkeys, ?_⟩
  intro response hfrom
  rcases postAllocate_cases ord hord response with ⟨-, r, hr⟩ | ⟨c, hc, kv, hkv, hbad, -⟩
  · exact ⟨r, hr⟩
  · exfalso
    obtain ⟨u, hu, hmem⟩ := hfrom c hc kv hkv
    simp only [isMalformedKey, Bool.and_eq_true, decide_eq_true_eq] at hbad
    exact hbad.2 (hkeys u hu kv hmem hbad.1)

/-- Witness of C23: a section with `-1` crypto engines gives the keys
`QAT_SECTION_NAME_cy-1_dc0_0` and `QAT_SECTION_NAME_cy-1_dc0_1`, and
`PostAllocate` renumbers a container that holds the variables of both units. -/
theorem getDevTree_keys_six_fields_witness :
    RangeOrder.Valid RangeOrder.backwards ∧
    (sampleTreeNegativeEngines.units.map fun u => u.2.2.envs) =
      [[("QAT_SECTION_NAME_cy-1_dc0_0", "ssl"), ("QAT_SECTION_NAME", "ssl")],
       [("QAT_SECTION_NAME_cy-1_dc0_1", "ssl"), ("QAT_SECTION_NAME", "ssl")]] ∧
    (∀ kv ∈ sampleCatalogContainer.Envs, ∃ u ∈ sampleTreeNegativeEngines.units,
      kv ∈ u.2.2.envs) ∧
    ∃ r, PostAllocate RangeOrder.backwards [sampleCatalogContainer] = .ok r :=
  ⟨RangeOrder.valid_backwards, by decide, by decide,
    (getDevTree_keys_six_fields sampleFsUio RangeOrder.backwards RangeOrder.valid_backwards "" 3
      "/sys" sampleDevices sampleNegativeEngines sampleTreeNegativeEngines (by decide)).2
      [sampleCatalogContainer] (by decide)⟩

/-! ### Topology information: a negative NUMA value -/

/-- C21, the code at the failing input: the hint of the device node `/dev/uio0`
has the NUMAs field `-2`, and `GetTopologyInfo` returns neither topology
information nor an error. -/
theorem getTopologyInfo_negative_numa :
    FindSysFsDevice sampleFsNegativeNuma "" "/dev/uio0" =
      .ok "/sys/devices/pci0000:3d/0000:3d:00.0/uio/uio0" ∧
    NewTopologyHints sampleFsNegativeNuma RangeOrder.inOrder "" 10
        "/sys/devices/pci0000:3d/0000:3d:00.0/uio/uio0" =
      .ok [("/sys/devices/pci0000:3d/0000:3d:00.0",
        { Provider := "/sys/devices/pci0000:3d/0000:3d:00.0", CPUs := "0-3", NUMAs := "-2",
          Sockets := "" })] ∧
    strconvParseInt (stringsTrimSpace "-2") = .ok (-2) ∧
    GetTopologyInfo sampleFsNegativeNuma RangeOrder.inOrder "" 10 ["/dev/uio0"] = .ok none ∧
    ∀ msg, GetTopologyInfo sampleFsNegativeNuma RangeOrder.inOrder "" 10 ["/dev/uio0"] ≠
      .error msg := by
  refine ⟨by decide, by decide, rfl, by decide, ?_⟩
  intro msg h
  rw [show GetTopologyInfo sampleFsNegativeNuma RangeOrder.inOrder "" 10 ["/dev/uio0"] = .ok none
    by decide] at h
  cases h

/-! ### Topology information: the NUMA nodes -/

theorem numaIDs_of_empty {hint : Hint} (h : hint.NUMAs = "") : numaIDs hint = [] := by
  rw [numaIDs, h]
  rfl

theorem numaValuesLoop_eq_ok :
    ∀ (parts : List String) (st st' : List NUMANode × List Int),
      numaValuesLoop parts st = .ok st' → NodesInv st →
      NodesInv st' ∧
      (∀ n, n ∈ st'.2 ↔ n ∈ st.2 ∨ n ∈ parts.filterMap numaValue) ∧
      ∀ part ∈ parts, ∃ n : Int, numaValue part = some n ∧ 0 ≤ n := by
  intro parts
  induction parts with
  | nil =>
    intro st st' h hinv
    obtain ⟨nodes, ids⟩ := st
    simp only [numaValuesLoop, Except.ok.injEq] at h
    subst h
    exact ⟨hinv, by simp, by simp⟩
  | cons nNode rest ih =>
    intro st st' h hinv
    obtain ⟨nodes, ids⟩ := st
    simp only [numaValuesLoop] at h
    cases hp : strconvParseInt (stringsTrimSpace nNode) with
    | error e =>
      rw [hp] at h
      cases h
    | ok nNodeID =>
      rw [hp] at h
      simp only at h
      have hv : numaValue nNode = some nNodeID := by simp [numaValue, hp]
      by_cases hneg : nNodeID < 0
      · rw [if_pos hneg] at h
        cases h
      · rw [if_neg hneg] at h
        by_cases hmem : nNodeID ∈ ids
        · rw [if_pos hmem] at h
          obtain ⟨h1, h2, h3⟩ := ih _ _ h hinv
          refine ⟨h1, ?_, ?_⟩
          · intro n
            rw [h2 n, List.filterMap_cons, hv]
            simp only [List.mem_cons]
            constructor
            · rintro (h | h)
              · exact Or.inl h
              · exact Or.inr (Or.inr h)
            · rintro (h | rfl | h)
              · exact Or.inl h
              · exact Or.inl hmem
              · exact Or.inr h
          · intro part hpart
            rcases List.mem_cons.1 hpart with rfl | hpart
            · exact ⟨nNodeID, hv, not_lt.1 hneg⟩
            · exact h3 part hpart
        · rw [if_neg hmem] at h
          have hinv' : NodesInv (nodes ++ [{ ID := nNodeID }], ids ++ [nNodeID]) := by
            obtain ⟨h1, h2⟩ := hinv
            simp only at h1 h2
            refine ⟨by simp [h1], ?_⟩
            simp only
            rw [List.nodup_append]
            exact ⟨h2, List.nodup_singleton _, by
              intro a ha hb
              rw [List.mem_singleton] at hb
              subst hb
              exact hmem ha⟩
          obtain ⟨h1, h2, h3⟩ := ih _ _ h hinv'
          refine ⟨h1, ?_, ?_⟩
          · intro n
            rw [h2 n, List.filterMap_cons, hv]
            simp only [List.mem_cons, List.mem_append, List.not_mem_nil, or_false]
            constructor
            · rintro ((h | h) | h)
              · exact Or.inl h
              · exact Or.inr (Or.inl h)
              · exact Or.inr (Or.inr h)
            · rintro (h | h | h)
              · exact Or.inl (Or.inl h)
              · exact Or.inl (Or.inr h)
              · exact Or.inr h
          · intro part hpart
            rcases List.mem_cons.1 hpart with rfl | hpart
            · exact ⟨nNodeID, hv, not_lt.1 hneg⟩
            · exact h3 part hpart

theorem hintsLoop_eq_ok :
    ∀ (l : List (String × Hint)) (st st' : List NUMANode × List Int),
      hintsLoop l st = .ok st' → NodesInv st →
      NodesInv st' ∧
      (∀ n, n ∈ st'.2 ↔ n ∈ st.2 ∨ ∃ kh ∈ l, n ∈ numaIDs kh.2) ∧
      ∀ kh ∈ l, kh.2.NUMAs ≠ "" → ∀ part ∈ stringsSplit kh.2.NUMAs ',',
        ∃ n : Int, numaValue part = some n ∧ 0 ≤ n := by
  intro l
  induction l with
  | nil =>
    intro st st' h hinv
    simp only [hintsLoop, Except.ok.injEq] at h
    subst h
    exact ⟨hinv, by simp, by simp⟩
  | cons kh rest ih =>
    intro st st' h hinv
    obtain ⟨k, hint⟩ := kh
    simp only [hintsLoop] at h
    by_cases hne : hint.NUMAs ≠ ""
    · rw [if_pos hne] at h
      cases hv : numaValuesLoop (stringsSplit hint.NUMAs ',') st with
      | error r =>
        rw [hv] at h
        cases h
      | ok st1 =>
        rw [hv] at h
        simp only at h
        obtain ⟨hinv1, hmem1, hparts1⟩ := numaValuesLoop_eq_ok _ _ _ hv hinv
        obtain ⟨hinv2, hmem2, hparts2⟩ := ih _ _ h hinv1
        refine ⟨hinv2, ?_, ?_⟩
        · intro n
          rw [hmem2 n, hmem1 n]
          simp only [List.mem_cons, exists_eq_or_imp, numaIDs]
          tauto
        · intro kh hkh hne' part hpart
          rcases List.mem_cons.1 hkh with rfl | hkh
          · exact hparts1 part hpart
          · exact hparts2 kh hkh hne' part hpart
    · rw [if_neg hne] at h
      obtain ⟨hinv2, hmem2, hparts2⟩ := ih _ _ h hinv
      have hempty : numaIDs hint = [] := numaIDs_of_empty (not_not.1 hne)
      refine ⟨hinv2, ?_, ?_⟩
      · intro n
        rw [hmem2 n]
        simp only [List.mem_cons, exists_eq_or_imp, hempty, List.not_mem_nil, false_or]
      · intro kh hkh hne' part hpart
        rcases List.mem_cons.1 hkh with rfl | hkh
        · exact absurd hne' hne
        · exact hparts2 kh hkh hne' part hpart

theorem devsLoop_eq_ok {fs : FileSystem} {ord : RangeOrder} (hord : ord.Valid)
    {mockRoot : String} {fuel : Nat} :
    ∀ (devs : List String) (st st' : List NUMANode × List Int),
      devsLoop fs ord mockRoot fuel devs st = .ok st' → NodesInv st →
      NodesInv st' ∧
      (∀ dev ∈ devs, ∃ sysfsDevice hints, FindSysFsDevice fs mockRoot dev = .ok sysfsDevice ∧
        NewTopologyHints fs ord mockRoot fuel sysfsDevice = .ok hints ∧
        ∀ kh ∈ hints, kh.2.NUMAs ≠ "" → ∀ part ∈ stringsSplit kh.2.NUMAs ',',
          ∃ n : Int, numaValue part = some n ∧ 0 ≤ n) ∧
      ∀ n, n ∈ st'.2 ↔ n ∈ st.2 ∨ ∃ dev ∈ devs, ∃ sysfsDevice hints,
        FindSysFsDevice fs mockRoot dev = .ok sysfsDevice ∧
        NewTopologyHints fs ord mockRoot fuel sysfsDevice = .ok hints ∧
        ∃ kh ∈ hints, n ∈ numaIDs kh.2 := by
  intro devs
  induction devs with
  | nil =>
    intro st st' h hinv
    simp only [devsLoop, Except.ok.injEq] at h
    subst h
    exact ⟨hinv, by simp, by simp⟩
  | cons dev rest ih =>
    intro st st' h hinv
    simp only [devsLoop] at h
    cases hf : FindSysFsDevice fs mockRoot dev with
    | error e => rw [hf] at h; cases h
    | panic => rw [hf] at h; cases h
    | outOfFuel => rw [hf] at h; cases h
    | ok sysfsDevice =>
      rw [hf] at h
      simp only at h
      by_cases he : sysfsDevice = ""
      · rw [if_pos he] at h
        cases h
      · rw [if_neg he] at h
        cases hn : NewTopologyHints fs ord mockRoot fuel sysfsDevice with
        | error e => rw [hn] at h; cases h
        | panic => rw [hn] at h; cases h
        | outOfFuel => rw [hn] at h; cases h
        | ok hints =>
          rw [hn] at h
          simp only at h
          cases hh : hintsLoop (ord _ hints) st with
          | error r => rw [hh] at h; cases h
          | ok st1 =>
            rw [hh] at h
            simp only at h
            obtain ⟨hinv1, hmem1, hparts1⟩ := hintsLoop_eq_ok _ _ _ hh hinv
            obtain ⟨hinv2, hdevs2, hmem2⟩ := ih _ _ h hinv1
            have hperm := hord _ hints
            refine ⟨hinv2, ?_, ?_⟩
            · intro d hd
              rcases List.mem_cons.1 hd with rfl | hd
              · exact ⟨sysfsDevice, hints, hf, hn, fun kh hkh =>
                  hparts1 kh (hperm.mem_iff.2 hkh)⟩
              · exact hdevs2 d hd
            · intro n
              rw [hmem2 n, hmem1 n]
              constructor
              · rintro ((h | ⟨kh, hkh, hk⟩) | ⟨d, hd, hrest⟩)
                · exact Or.inl h
                · exact Or.inr ⟨dev, List.mem_cons_self _ _, sysfsDevice, hints, hf, hn, kh,
                    hperm.mem_iff.1 hkh, hk⟩
                · exact Or.inr ⟨d, List.mem_cons_of_mem _ hd, hrest⟩
              · rintro (h | ⟨d, hd, s, hs, hfd, hnd, kh, hkh, hk⟩)
                · exact Or.inl (Or.inl h)
                · rcases List.mem_cons.1 hd with rfl | hd
                  · rw [hf] at hfd
                    cases hfd
                    rw [hn] at hnd
                    cases hnd
                    exact Or.inl (Or.inr ⟨kh, hperm.mem_iff.2 hkh, hk⟩)
                  · exact Or.inr ⟨d, hd, s, hs, hfd, hnd, kh, hkh, hk⟩

theorem numaValuesLoop_error {r : Result (Option TopologyInfo)} :
    ∀ (parts : List String) (st : List NUMANode × List Int),
      numaValuesLoop parts st = .error r → ∀ info, r ≠ .ok (some info) := by
  intro parts
  induction parts with
  | nil =>
    intro st h
    cases h
  | cons nNode rest ih =>
    intro st h info
    obtain ⟨nodes, ids⟩ := st
    simp only [numaValuesLoop] at h
    cases hp : strconvParseInt (stringsTrimSpace nNode) with
    | error e =>
      rw [hp] at h
      cases h
      intro h'
      cases h'
    | ok nNodeID =>
      rw [hp] at h
      simp only at h
      by_cases hneg : nNodeID < 0
      · rw [if_pos hneg] at h
        cases h
        intro h'
        cases h'
      · rw [if_neg hneg] at h
        by_cases hmem : nNodeID ∈ ids
        · rw [if_pos hmem] at h
          exact ih _ h info
        · rw [if_neg hmem] at h
          exact ih _ h info

theorem hintsLoop_error {r : Result (Option TopologyInfo)} :
    ∀ (l : List (String × Hint)) (st : List NUMANode × List Int),
      hintsLoop l st = .error r → ∀ info, r ≠ .ok (some info) := by
  intro l
  induction l with
  | nil =>
    intro st h
    cases h
  | cons kh rest ih =>
    intro st h info
    obtain ⟨k, hint⟩ := kh
    simp only [hintsLoop] at h
    by_cases hne : hint.NUMAs ≠ ""
    · rw [if_pos hne] at h
      cases hv : numaValuesLoop (stringsSplit hint.NUMAs ',') st with
      | error r' =>
        rw [hv] at h
        cases h
        exact numaValuesLoop_error _ _ hv info
      | ok st1 =>
        rw [hv] at h
        exact ih _ h info
    · rw [if_neg hne] at h
      exact ih _ h info

theorem devsLoop_error {fs : FileSystem} {ord : RangeOrder} {mockRoot : String} {fuel : Nat}
    {r : Result (Option TopologyInfo)} :
    ∀ (devs : List String) (st : List NUMANode × List Int),
      devsLoop fs ord mockRoot fuel devs st = .error r → ∀ info, r ≠ .ok (some info) := by
  intro devs
  induction devs with
  | nil =>
    intro st h
    cases h
  | cons dev rest ih =>
    intro st h info
    simp only [devsLoop] at h
    cases hf : FindSysFsDevice fs mockRoot dev with
    | error e => rw [hf] at h; cases h; intro h'; cases h'
    | panic => rw [hf] at h; cases h; intro h'; cases h'
    | outOfFuel => rw [hf] at h; cases h; intro h'; cases h'
    | ok sysfsDevice =>
      rw [hf] at h
      simp only at h
      by_cases he : sysfsDevice = ""
      · rw [if_pos he] at h
        cases h
        intro h'
        cases h'
      · rw [if_neg he] at h
        cases hn : NewTopologyHints fs ord mockRoot fuel sysfsDevice with
        | error e => rw [hn] at h; cases h; intro h'; cases h'
        | panic => rw [hn] at h; cases h; intro h'; cases h'
        | outOfFuel => rw [hn] at h; cases h; intro h'; cases h'
        | ok hints =>
          rw [hn] at h
          simp only at h
          cases hh : hintsLoop (ord _ hints) st with
          | error r' =>
            rw [hh] at h
            cases h
            exact hintsLoop_error _ _ hh info
          | ok st1 =>
            rw [hh] at h
            exact ih _ h info

theorem getTopologyInfo_eq_ok {fs : FileSystem} {ord : RangeOrder} {mockRoot : String}
    {fuel : Nat} {devs : List String} {info : TopologyInfo}
    (h : GetTopologyInfo fs ord mockRoot fuel devs = .ok (some info)) :
    ∃ nodes nodeIDs, devsLoop fs ord mockRoot fuel devs ([], []) = .ok (nodes, nodeIDs) ∧
      info.Nodes = nodes.insertionSort (fun a b => a.ID ≤ b.ID) := by
  unfold GetTopologyInfo at h
  cases hd : devsLoop fs ord mockRoot fuel devs ([], []) with
  | error r =>
    rw [hd] at h
    simp only at h
    exact absurd h (devsLoop_error _ _ hd info)
  | ok st =>
    obtain ⟨nodes, nodeIDs⟩ := st
    rw [hd] at h
    simp only [Result.ok.injEq, Option.some.injEq] at h
    exact ⟨nodes, nodeIDs, rfl, by rw [← h]⟩

theorem sorted_ids_insertionSort (nodes : List NUMANode) :
    ((nodes.insertionSort (fun a b => a.ID ≤ b.ID)).map NUMANode.ID).Sorted (fun a b => a ≤ b) := by
  have htotal : IsTotal NUMANode (fun a b => a.ID ≤ b.ID) := ⟨fun a b => le_total a.ID b.ID⟩
  have htrans : IsTrans NUMANode (fun a b => a.ID ≤ b.ID) :=
    ⟨fun a b c hab hbc => le_trans hab hbc⟩
  have hs := List.sorted_insertionSort (fun a b : NUMANode => a.ID ≤ b.ID) nodes
  exact List.pairwise_map.2 hs

/-- The nodes of a returned topology: when `GetTopologyInfo` returns topology
information, the IDs of its
nodes are strictly increasing, and an integer is among them exactly when it
occurs in the comma-separated NUMAs field of a hint of one of the device nodes;
a hint with an empty NUMAs field has no such integer.  Every device node then has
a sysfs device whose hints were resolved, and every value of a non-empty NUMAs
field of these hints is an integer that is not negative. -/
theorem getTopologyInfo_nodes (fs : FileSystem) (ord : RangeOrder) (hord : ord.Valid)
    (mockRoot : String) (fuel : Nat) (devs : List String) (info : TopologyInfo)
    (h : GetTopologyInfo fs ord mockRoot fuel devs = .ok (some info)) :
    (info.Nodes.map NUMANode.ID).Pairwise (fun a b => a < b) ∧
    (∀ n, n ∈ info.Nodes.map NUMANode.ID ↔
      ∃ dev ∈ devs, ∃ sysfsDevice hints,
        FindSysFsDevice fs mockRoot dev = .ok sysfsDevice ∧
        NewTopologyHints fs ord mockRoot fuel sysfsDevice = .ok hints ∧
        ∃ kh ∈ hints, n ∈ numaIDs kh.2) ∧
    (∀ hint : Hint, hint.NUMAs = "" → numaIDs hint = []) ∧
    ∀ dev ∈ devs, ∃ sysfsDevice hints,
      FindSysFsDevice fs mockRoot dev = .ok sysfsDevice ∧
      NewTopologyHints fs ord mockRoot fuel sysfsDevice = .ok hints ∧
      ∀ kh ∈ hints, kh.2.NUMAs ≠ "" → ∀ part ∈ stringsSplit kh.2.NUMAs ',',
        ∃ n : Int, numaValue part = some n ∧ 0 ≤ n := by
  obtain ⟨nodes, nodeIDs, hd, hnodes⟩ := getTopologyInfo_eq_ok h
  obtain ⟨⟨hids, hnodup⟩, hdevs, hmem⟩ :=
    devsLoop_eq_ok hord devs _ _ hd ⟨rfl, List.nodup_nil⟩
  simp only at hids hnodup hmem
  have hperm : (info.Nodes.map NUMANode.ID).Perm nodeIDs := by
    rw [hnodes, ← hids]
    exact (List.perm_insertionSort _ nodes).map _
  refine ⟨?_, ?_, fun hint => numaIDs_of_empty, hdevs⟩
  · have hsorted := sorted_ids_insertionSort nodes
    rw [← hnodes] at hsorted
    exact hsorted.lt_of_le (hperm.nodup_iff.2 hnodup)
  · intro n
    rw [hperm.mem_iff, hmem n]
    simp

/-- An evaluation of `GetTopologyInfo`: the device nodes `/dev/uio0`, `/dev/uio1` and `/dev/uio0`
again, on the NUMA nodes 1, 0 and 1, give the nodes 0 and 1. -/
theorem getTopologyInfo_nodes_witness :
    RangeOrder.Valid RangeOrder.backwards ∧
    GetTopologyInfo sampleFsTwoNuma RangeOrder.backwards "" 10
        ["/dev/uio0", "/dev/uio1", "/dev/uio0"] =
      .ok (some { Nodes := [{ ID := 0 }, { ID := 1 }] }) ∧
    ([({ ID := 0 } : NUMANode), { ID := 1 }].map NUMANode.ID).Pairwise (fun a b => a < b) :=
  ⟨RangeOrder.valid_backwards, by decide,
    (getTopologyInfo_nodes sampleFsTwoNuma RangeOrder.backwards RangeOrder.valid_backwards "" 10
      ["/dev/uio0", "/dev/uio1", "/dev/uio0"] _ (by decide)).1⟩

/-- C22, the code at the failing input: the hint of the device node `/dev/uio0`
has the NUMAs field `-2`, in which the integer -2 occurs; `GetTopologyInfo`
returns without an error, which its caller takes as success, and returns no
topology information, so no node has the ID -2. -/
theorem getTopologyInfo_nodes_negative :
    NewTopologyHints sampleFsNegativeNuma RangeOrder.inOrder "" 10
        "/sys/devices/pci0000:3d/0000:3d:00.0/uio/uio0" =
      .ok [("/sys/devices/pci0000:3d/0000:3d:00.0",
        { Provider := "/sys/devices/pci0000:3d/0000:3d:00.0", CPUs := "0-3", NUMAs := "-2",
          Sockets := "" })] ∧
    numaIDs { Provider := "/sys/devices/pci0000:3d/0000:3d:00.0", CPUs := "0-3", NUMAs := "-2",
              Sockets := "" } = [-2] ∧
    GetTopologyInfo sampleFsNegativeNuma RangeOrder.inOrder "" 10 ["/dev/uio0"] = .ok none ∧
    (GetTopologyInfo sampleFsNegativeNuma RangeOrder.inOrder "" 10 ["/dev/uio0"]).isOk = true ∧
    NewDeviceInfo sampleFsNegativeNuma RangeOrder.inOrder "" 10 pluginapiHealthy
        [newDeviceSpec "/dev/uio0"] [] [] [] =
      .ok { state := pluginapiHealthy, nodes := [newDeviceSpec "/dev/uio0"], mounts := [],
            envs := [], annotations := [], topology := none } ∧
    ¬ ∃ info, GetTopologyInfo sampleFsNegativeNuma RangeOrder.inOrder "" 10 ["/dev/uio0"] =
      .ok (some info) := by
  refine ⟨by decide, by decide, by decide, by decide, by decide, ?_⟩
  rintro ⟨info, h⟩
  rw [show GetTopologyInfo sampleFsNegativeNuma RangeOrder.inOrder "" 10 ["/dev/uio0"] = .ok none
    by decide] at h
  cases h

/-! ### Devices behind an IOMMU group -/

theorem vfioPath_eq (g : String) :
    vfioPath g = stringsJoin ("" :: ["sys", "devices", "virtual", "vfio", g]) "/" := by
  apply String.ext
  simp [vfioPath, stringsJoin, List.intercalate, String.data_append]

theorem vfioPath_parts {g : String} (hg : isFileName g = true) :
    ∀ part ∈ ["sys", "devices", "virtual", "vfio", g], part = "" ∨ isFileName part = true := by
  intro part hpart
  simp only [List.mem_cons, List.mem_singleton, List.not_mem_nil, or_false] at hpart
  rcases hpart with rfl | rfl | rfl | rfl | rfl
  · exact Or.inr (by decide)
  · exact Or.inr (by decide)
  · exact Or.inr (by decide)
  · exact Or.inr (by decide)
  · exact Or.inr hg

theorem filepathClean_vfioPath {g : String} (hg : isFileName g = true) :
    filepathClean (vfioPath g) = vfioPath g := by
  have hne : g ≠ "" := (isFileName_iff.1 hg).1
  rw [vfioPath_eq, filepathClean_rooted _ (by simp) (vfioPath_parts hg)]
  apply String.ext
  have hb : (g != "") = true := by simpa using hne
  simp [stringsJoin, List.intercalate, String.data_append, List.filter, hb, vfioPath]

theorem stringsSplit_vfioPath {g : String} (hg : isFileName g = true) :
    stringsSplit (vfioPath g) '/' = ["", "sys", "devices", "virtual", "vfio", g] := by
  rw [vfioPath_eq]
  apply stringsSplit_stringsJoin _ '/' (by simp)
  intro part hpart
  simp only [List.mem_cons, List.mem_singleton, List.not_mem_nil, or_false] at hpart
  rcases hpart with rfl | rfl | rfl | rfl | rfl | rfl
  · decide
  · decide
  · decide
  · decide
  · decide
  · exact (isFileName_iff.1 hg).2.2.2

theorem vfioPath_not_hasSuffix {g : String} (hg : isFileName g = true) :
    stringsHasSuffix (vfioPath g) "/" = false := by
  obtain ⟨hne, -, -, hslash⟩ := isFileName_iff.1 hg
  by_contra h
  have h' : stringsHasSuffix (vfioPath g) "/" = true := by simpa using h
  simp only [stringsHasSuffix, List.isSuffixOf_iff_suffix] at h'
  obtain ⟨t, ht⟩ := h'
  have hrev := congrArg List.reverse ht
  simp only [vfioPath, String.toList, String.data_append, List.reverse_append] at hrev
  cases hr : g.data.reverse with
  | nil =>
    have : g.data = [] := by simpa using hr
    exact hne (String.ext this)
  | cons c rest =>
    rw [hr] at hrev
    have hc : '/' = c := by
      have := congrArg List.head? hrev
      simpa using this
    have hmem : c ∈ g.data.reverse := by
      rw [hr]
      exact List.mem_cons_self _ _
    rw [← hc] at hmem
    exact hslash (by simpa using hmem)

theorem vfioPath_ne_base (g : String) : vfioPath g ≠ "/sys/devices/virtual" := by
  intro h
  have := congrArg String.length h
  simp only [vfioPath, String.length_append] at this
  have h1 : "/sys/devices/virtual/vfio/".length = 26 := by decide
  have h2 : "/sys/devices/virtual".length = 20 := by decide
  omega

theorem vfioPath_hasPrefix_slash (g : String) : stringsHasPrefix (vfioPath g) "/" = true := by
  simp [stringsHasPrefix, vfioPath, String.data_append]

theorem relElements_vfioPath {g : String} (hg : isFileName g = true) :
    relElements (vfioPath g) = ["", "sys", "devices", "virtual", "vfio", g] := by
  have hne : vfioPath g ≠ "" := by
    intro h
    have := congrArg String.length h
    simp only [vfioPath, String.length_append] at this
    have h1 : "/sys/devices/virtual/vfio/".length = 26 := by decide
    have h2 : "".length = 0 := rfl
    omega
  unfold relElements
  rw [if_neg hne, vfioPath_not_hasSuffix hg, stringsSplit_vfioPath hg]
  rfl

theorem filepathRel_vfioPath {g : String} (hg : isFileName g = true) :
    filepathRel "/sys/devices/virtual" (vfioPath g) = some ("vfio/" ++ g) := by
  have hbase : filepathClean "/sys/devices/virtual" = "/sys/devices/virtual" := by decide
  unfold filepathRel
  simp only [hbase, filepathClean_vfioPath hg]
  rw [if_neg (vfioPath_ne_base g)]
  have hdot : (if "/sys/devices/virtual" = "." then "" else "/sys/devices/virtual") =
      "/sys/devices/virtual" := by decide
  have hpre : stringsHasPrefix "/sys/devices/virtual" "/" = true := by decide
  simp only [hdot]
  rw [vfioPath_hasPrefix_slash, hpre, if_neg (by simp), relElements_vfioPath hg]
  have hb : relElements "/sys/devices/virtual" = ["", "sys", "devices", "virtual"] := by decide
  rw [hb]
  simp only [relLoop, if_true, List.length_nil, List.replicate_zero, List.nil_append,
    Option.map_some']
  congr 1
  apply String.ext
  simp [stringsJoin, List.intercalate, String.data_append]

theorem filepathSplit_vfio {g : String} (hg : isFileName g = true) :
    filepathSplit ("vfio/" ++ g) = ("vfio/", g) := by
  obtain ⟨-, -, -, hslash⟩ := isFileName_iff.1 hg
  have htake : (("vfio/" ++ g).toList.reverse.takeWhile (fun c => decide (c ≠ '/'))) =
      g.toList.reverse := by
    simp only [String.toList, String.data_append, List.reverse_append]
    rw [List.takeWhile_append_of_pos]
    · have : List.takeWhile (fun c => decide (c ≠ '/')) "vfio/".data.reverse = [] := by decide
      rw [this, List.append_nil]
    · intro c hc
      have hc' : c ∈ g.data := by simpa using hc
      simp only [ne_eq, decide_not, Bool.not_eq_true', decide_eq_false_iff_not]
      rintro rfl
      exact hslash hc'
  unfold filepathSplit
  simp only [htake, List.reverse_reverse]
  have hlen : ("vfio/" ++ g).toList.length - g.toList.length = "vfio/".toList.length := by
    simp only [String.toList, String.data_append, List.length_append]
    omega
  rw [hlen]
  have : ("vfio/" ++ g).toList.take "vfio/".toList.length = "vfio/".toList := by
    simp only [String.toList, String.data_append]
    exact List.take_left _ _
  rw [this]
  rfl

theorem not_dotdot_vfio (g : String) : stringsHasPrefix ("vfio/" ++ g) ".." = false := by
  simp only [stringsHasPrefix, String.toList, String.data_append]
  rfl

/-- For the path of an IOMMU group, `getDevicesFromVirtual` reads the directory
of the group and resolves its entries in order. -/
theorem getDevicesFromVirtual_vfioPath (fs : FileSystem) (mockRoot : String) {g : String}
    (hg : isFileName g = true) :
    getDevicesFromVirtual fs mockRoot (vfioPath g) =
      match fs.ReadDir (iommuGroupDir mockRoot g) with
      | .error e =>
        .error ("failed to read IOMMU group " ++ iommuGroupDir mockRoot g ++ ": " ++ e)
      | .ok files =>
        files.foldlM
          (fun devs name =>
            match fs.EvalSymlinks (filepathJoin [iommuGroupDir mockRoot g, name]) with
            | .error e => .error ("failed to get real path for " ++ name ++ ": " ++ e)
            | .ok realDev => .ok (devs ++ [realDev]))
          [] := by
  unfold getDevicesFromVirtual
  rw [filepathRel_vfioPath hg]
  simp only [not_dotdot_vfio, Bool.false_eq_true, if_false, filepathSplit_vfio hg, if_true]
  rfl

theorem foldlM_resolve {fs : FileSystem} {dir : String} :
    ∀ (files members : List String) (devs : List String),
      List.Forall₂ (fun name m => fs.EvalSymlinks (filepathJoin [dir, name]) = .ok m)
        files members →
      files.foldlM
        (fun devs name =>
          match fs.EvalSymlinks (filepathJoin [dir, name]) with
          | .error e => (.error ("failed to get real path for " ++ name ++ ": " ++ e) :
              Except String (List String))
          | .ok realDev => .ok (devs ++ [realDev]))
        devs = .ok (devs ++ members) := by
  intro files members devs h
  induction h generalizing devs with
  | nil => simp [List.foldlM, pure, Except.pure]
  | cons hm _ ih =>
    rw [List.foldlM_cons]
    simp only [hm, bind, Except.bind]
    rw [ih, List.append_assoc]
    rfl

/-- The dependent devices of the path of an IOMMU group whose directory can be
read and whose entries all resolve: the matches of `slaves/*`, then the
members. -/
theorem dependents_vfioPath {fs : FileSystem} {mockRoot g : String} {files members : List String}
    (hg : isFileName g = true) (hdir : fs.ReadDir (iommuGroupDir mockRoot g) = .ok files)
    (hmem : List.Forall₂
      (fun name m => fs.EvalSymlinks (filepathJoin [iommuGroupDir mockRoot g, name]) = .ok m)
      files members) :
    dependents fs mockRoot (vfioPath g) =
      fs.Glob (filepathJoin [vfioPath g, "slaves/*"]) ++ members := by
  unfold dependents
  rw [getDevicesFromVirtual_vfioPath fs mockRoot hg, hdir]
  simp only
  rw [foldlM_resolve files members [] hmem]
  rfl

/-! ### The hints of the dependent devices -/

theorem walkUp_wf {fs : FileSystem} {ord : RangeOrder} (hord : ord.Valid) {mockRoot : String}
    {n : Nat} {p : String} {hints R : Hints} (h : walkUp fs ord mockRoot n p hints = .ok R)
    (hwf : GoMap.WF hints) : GoMap.WF R := by
  obtain ⟨i, -, ⟨-, rfl⟩ | ⟨-, hint, -, -, -, rfl⟩⟩ := walkUp_eq_ok hord n n p hints R (le_refl _) h
  · exact hwf
  · exact GoMap.wf_set _ _ hwf

/-- The loop over the dependent devices merges the hint sets of the devices, in
their order, into the hints it starts with. -/
theorem dependentsLoop_eq_ok {fs : FileSystem} {ord : RangeOrder} {mockRoot : String} (m : Nat) :
    ∀ (l : List String) (n : Nat) (hints R : Hints), n ≤ m →
      dependentsLoop fs ord mockRoot n l hints = .ok R → GoMap.WF hints →
      GoMap.WF R ∧
      ∃ hs, List.Forall₂ (fun d hd => NewTopologyHints fs ord mockRoot m d = .ok hd) l hs ∧
        R = hs.foldl (fun acc hd => MergeTopologyHints ord (some acc) hd) hints := by
  intro l
  induction l with
  | nil =>
    intro n hints R _ h hwf
    rw [dependentsLoop_nil] at h
    cases h
    exact ⟨hwf, [], List.Forall₂.nil, rfl⟩
  | cons d rest ih =>
    intro n hints R hnm h hwf
    cases n with
    | zero =>
      rw [dependentsLoop_zero] at h
      cases h
    | succ k =>
      rw [dependentsLoop_succ] at h
      obtain ⟨deviceHints, hN, h2⟩ := Result.bind_eq_ok.1 h
      have hwf1 : GoMap.WF (MergeTopologyHints ord (some hints) deviceHints) :=
        mergeTopologyHints_wf ord (some hints) deviceHints hwf
      obtain ⟨hwfR, hs, hall, hR⟩ := ih k _ R (by omega) h2 hwf1
      refine ⟨hwfR, deviceHints :: hs, List.Forall₂.cons ?_ hall, hR⟩
      exact newTopologyHints_budget (by omega) hN (by intro h; cases h)

theorem newTopologyHints_wf {fs : FileSystem} {ord : RangeOrder} (hord : ord.Valid)
    {mockRoot : String} {n : Nat} {p : String} {R : Hints}
    (h : NewTopologyHints fs ord mockRoot n p = .ok R) : GoMap.WF R := by
  cases n with
  | zero =>
    rw [newTopologyHints_zero] at h
    cases h
  | succ k =>
    rw [newTopologyHints_succ] at h
    cases he : fs.EvalSymlinks p with
    | error e =>
      rw [he] at h
      cases h
    | ok r =>
      rw [he] at h
      simp only at h
      obtain ⟨hints, hw, hd⟩ := Result.bind_eq_ok.1 h
      have hwf : GoMap.WF hints := walkUp_wf hord hw (by simp [GoMap.WF, GoMap.keys])
      exact (dependentsLoop_eq_ok k _ k hints R (le_refl _) hd hwf).1

theorem firstHint_foldl_merge {ord : RangeOrder} (hord : ord.Valid) (k : String) :
    ∀ (hs : List Hints) (hints : Hints), (∀ hd ∈ hs, GoMap.WF hd) →
      GoMap.get (hs.foldl (fun acc hd => MergeTopologyHints ord (some acc) hd) hints) k =
        firstHint k (hints :: hs) := by
  intro hs
  induction hs with
  | nil =>
    intro hints _
    simp only [List.foldl_nil, firstHint]
    cases GoMap.get hints k <;> rfl
  | cons hd rest ih =>
    intro hints hwf
    rw [List.foldl_cons, ih _ (fun x hx => hwf x (List.mem_cons_of_mem _ hx))]
    simp only [firstHint]
    rw [mergeTopologyHints_get ord hord (some hints) hd (hwf hd (List.mem_cons_self _ _)) k]
    simp only [orgMap]
    cases GoMap.get hints k with
    | some v => rfl
    | none => rfl

theorem firstHint_of_mem_keys {k : String} {hd : Hints} :
    ∀ {hs : List Hints}, hd ∈ hs → k ∈ GoMap.keys hd → ∃ v, firstHint k hs = some v := by
  intro hs
  induction hs with
  | nil => intro h; cases h
  | cons a rest ih =>
    intro hmem hk
    simp only [firstHint]
    cases ha : GoMap.get a k with
    | some v => exact ⟨v, rfl⟩
    | none =>
      rcases List.mem_cons.1 hmem with rfl | hmem
      · exact absurd hk (GoMap.get_eq_none_iff.1 ha)
      · exact ih hmem hk

theorem forall₂_exists_of_mem {α β : Type} {r : α → β → Prop} {l : List α} {l' : List β}
    (h : List.Forall₂ r l l') {a : α} (ha : a ∈ l) : ∃ b ∈ l', r a b := by
  induction h with
  | nil => cases ha
  | cons hab _ ih =>
    rcases List.mem_cons.1 ha with rfl | ha
    · exact ⟨_, List.mem_cons_self _ _, hab⟩
    · obtain ⟨b, hb, hr⟩ := ih ha
      exact ⟨b, List.mem_cons_of_mem _ hb, hr⟩

/-- C17, amended: for a canonical path `/sys/devices/virtual/vfio/<g>` whose group
directory can be read and whose entries all resolve, a successful
`NewTopologyHints` returns the merge of the hints of the direct walk, of the
matches of `slaves/*` and of the group members, in this order: every one of
these devices has a hint set, every provider key of these sets and of the walk
is a key of the result, and the value of a key is that of the first of the sets
that holds it. -/
theorem newTopologyHints_vfio (fs : FileSystem) (ord : RangeOrder) (hord : ord.Valid)
    (mockRoot : String) (fuel : Nat) (g : String) (files members : List String) (R : Hints)
    (hg : isFileName g = true)
    (hcanon : fs.EvalSymlinks (vfioPath g) = .ok (vfioPath g))
    (hdir : fs.ReadDir (iommuGroupDir mockRoot g) = .ok files)
    (hmem : List.Forall₂
      (fun name m => fs.EvalSymlinks (filepathJoin [iommuGroupDir mockRoot g, name]) = .ok m)
      files members)
    (h : NewTopologyHints fs ord mockRoot fuel (vfioPath g) = .ok R) :
    ∃ walk hs,
      walkUp fs ord mockRoot fuel (vfioPath g) [] = .ok walk ∧
      List.Forall₂ (fun d hd => NewTopologyHints fs ord mockRoot fuel d = .ok hd)
        (fs.Glob (filepathJoin [vfioPath g, "slaves/*"]) ++ members) hs ∧
      (∀ k, GoMap.get R k = firstHint k (walk :: hs)) ∧
      (∀ k ∈ GoMap.keys walk, k ∈ GoMap.keys R) ∧
      ∀ d ∈ fs.Glob (filepathJoin [vfioPath g, "slaves/*"]) ++ members,
        ∃ hd, NewTopologyHints fs ord mockRoot fuel d = .ok hd ∧
          ∀ k ∈ GoMap.keys hd, k ∈ GoMap.keys R := by
  cases fuel with
  | zero =>
    rw [newTopologyHints_zero] at h
    cases h
  | succ n =>
    rw [newTopologyHints_succ, hcanon] at h
    simp only at h
    obtain ⟨walk, hw, hd⟩ := Result.bind_eq_ok.1 h
    rw [dependents_vfioPath hg hdir hmem] at hd
    have hwfw : GoMap.WF walk := walkUp_wf hord hw (by simp [GoMap.WF, GoMap.keys])
    obtain ⟨-, hs, hall, hR⟩ := dependentsLoop_eq_ok (n + 1) _ n walk R (by omega) hd hwfw
    have hwfs : ∀ hd ∈ hs, GoMap.WF hd := by
      intro x hx
      obtain ⟨i, hi, rfl⟩ := List.mem_iff_getElem.1 hx
      have hlen := hall.length_eq
      have := List.forall₂_iff_get.1 hall
      exact newTopologyHints_wf hord (this.2 i (by omega) hi)
    have hget : ∀ k, GoMap.get R k = firstHint k (walk :: hs) := by
      intro k
      rw [hR]
      exact firstHint_foldl_merge hord k hs walk hwfs
    have hkeys : ∀ x ∈ walk :: hs, ∀ k ∈ GoMap.keys x, k ∈ GoMap.keys R := by
      intro x hx k hk
      obtain ⟨v, hv⟩ := firstHint_of_mem_keys hx hk
      exact GoMap.mem_keys_iff.2 ⟨v, by rw [hget k, hv]⟩
    refine ⟨walk, hs, walkUp_budget (by omega) hw (by intro h; cases h), hall, hget,
      hkeys walk (List.mem_cons_self _ _), ?_⟩
    intro d hd'
    obtain ⟨x, hx, hr⟩ := forall₂_exists_of_mem hall hd'
    exact ⟨x, hr, hkeys x (List.mem_cons_of_mem _ hx)⟩

/-- Witness of C17 (scenario E): the group 12 holds two devices whose hints come
from different providers, and the set returned for `/sys/devices/virtual/vfio/12`
holds both entries. -/
theorem newTopologyHints_vfio_witness :
    RangeOrder.Valid RangeOrder.backwards ∧
    NewTopologyHints sampleFsVfio RangeOrder.backwards "" 10 (vfioPath "12") =
      .ok [("/sys/devices/pci0000:3d/0000:3d:00.0", sampleHint3d),
           ("/sys/devices/pci0000:3f/0000:3f:00.0", sampleHint3f)] ∧
    ∃ walk hs,
      walkUp sampleFsVfio RangeOrder.backwards "" 10 (vfioPath "12") [] = .ok walk ∧
      List.Forall₂
        (fun d hd => NewTopologyHints sampleFsVfio RangeOrder.backwards "" 10 d = .ok hd)
        (sampleFsVfio.Glob (filepathJoin [vfioPath "12", "slaves/*"]) ++
          ["/sys/devices/pci0000:3d/0000:3d:00.0", "/sys/devices/pci0000:3f/0000:3f:00.0"]) hs ∧
      (∀ k, GoMap.get [("/sys/devices/pci0000:3d/0000:3d:00.0", sampleHint3d),
          ("/sys/devices/pci0000:3f/0000:3f:00.0", sampleHint3f)] k =
        firstHint k (walk :: hs)) ∧
      (∀ k ∈ GoMap.keys walk, k ∈ GoMap.keys
        [("/sys/devices/pci0000:3d/0000:3d:00.0", sampleHint3d),
          ("/sys/devices/pci0000:3f/0000:3f:00.0", sampleHint3f)]) ∧
      ∀ d ∈ sampleFsVfio.Glob (filepathJoin [vfioPath "12", "slaves/*"]) ++
          ["/sys/devices/pci0000:3d/0000:3d:00.0", "/sys/devices/pci0000:3f/0000:3f:00.0"],
        ∃ hd, NewTopologyHints sampleFsVfio RangeOrder.backwards "" 10 d = .ok hd ∧
          ∀ k ∈ GoMap.keys hd, k ∈ GoMap.keys
            [("/sys/devices/pci0000:3d/0000:3d:00.0", sampleHint3d),
              ("/sys/devices/pci0000:3f/0000:3f:00.0", sampleHint3f)] :=
  ⟨RangeOrder.valid_backwards, by decide,
    newTopologyHints_vfio sampleFsVfio RangeOrder.backwards RangeOrder.valid_backwards "" 10 "12"
      ["0000:3d:00.0", "0000:3f:00.0"]
      ["/sys/devices/pci0000:3d/0000:3d:00.0", "/sys/devices/pci0000:3f/0000:3f:00.0"] _
      (by decide) rfl rfl (List.Forall₂.cons rfl (List.Forall₂.cons rfl List.Forall₂.nil))
      (by decide)⟩

/-- C17 as stated fails: the group 12 of `sampleFsVfioBroken` lists two entries,
of which the first resolves to a device with a hint of its own and the second
does not resolve.  `getDevicesFromVirtual` fails, `NewTopologyHints` drops the
error and succeeds, and the set it returns lacks the provider key of the first
member. -/
theorem newTopologyHints_vfio_counterexample :
    sampleFsVfioBroken.EvalSymlinks (vfioPath "12") = .ok (vfioPath "12") ∧
    sampleFsVfioBroken.ReadDir (iommuGroupDir "" "12") = .ok ["0000:3d:00.0", "0000:3f:00.0"] ∧
    sampleFsVfioBroken.EvalSymlinks (filepathJoin [iommuGroupDir "" "12", "0000:3d:00.0"]) =
      .ok "/sys/devices/pci0000:3d/0000:3d:00.0" ∧
    NewTopologyHints sampleFsVfioBroken RangeOrder.inOrder "" 10
        "/sys/devices/pci0000:3d/0000:3d:00.0" =
      .ok [("/sys/devices/pci0000:3d/0000:3d:00.0", sampleHint3d)] ∧
    NewTopologyHints sampleFsVfioBroken RangeOrder.inOrder "" 10 (vfioPath "12") = .ok [] ∧
    ¬ ∀ R hd, NewTopologyHints sampleFsVfioBroken RangeOrder.inOrder "" 10 (vfioPath "12") =
          .ok R →
        NewTopologyHints sampleFsVfioBroken RangeOrder.inOrder "" 10
          "/sys/devices/pci0000:3d/0000:3d:00.0" = .ok hd →
        ∀ k ∈ GoMap.keys hd, k ∈ GoMap.keys R := by
  refine ⟨rfl, rfl, rfl, by decide, by decide, ?_⟩
  intro hall
  have := hall [] [("/sys/devices/pci0000:3d/0000:3d:00.0", sampleHint3d)] (by decide) (by decide)
    "/sys/devices/pci0000:3d/0000:3d:00.0" (by decide)
  simp [GoMap.keys] at this

end QatPlugin
